import Mathlib

/-!
# BVH builder (`bvh_builder2.h`), ray-stream octant filter
(`bvh_intersector_stream_filters.cpp`) and object partition
(`heuristic_object_partition.h`): shallow embedding and properties

Conventions of the embedding.

* `float` is `Flt R`: the values of a linearly ordered ring `R` together with
  `+inf`, `-inf` and `NaN`; comparisons are IEEE-754 comparisons. The float
  arithmetic of the builder (`*`, `+`, `-` in `recurse`) computes the exact
  result and rounds it with the builder's `round`, once per operation (no fused
  multiply-add, no excess precision); `round` sends an exact value to the float
  that stands for it, `+inf` or `-inf` on overflow. Which floats exist is not
  fixed by the sources, so `round` is a parameter of the model.
* `size_t` / `unsigned int` counters (depth, counts, child indices, ray
  indices) are `Nat` values below `2^64`. The sum `depth + MIN_LARGE_LEAF_LEVELS`
  of the leaf test of `recurse` is taken modulo `2^64`, as `size_t` arithmetic
  is; the other sums (`depth + 1`, `numChildren + 1`, ray counters) stay far
  below the wrap-around in every build (the root is at depth 1 and
  `createLargeLeaf` throws above `maxDepth`) and are plain sums. The
  `int bestSize` of `createLargeLeaf` is an `Int` in the range of a 32-bit
  `int`: a count is converted to it, and it is converted back to `size_t` for
  the comparison, both modulo a power of two. The `-1` sentinel of
  `bestChild` / `cur_octant` is `none`.
* The fixed arrays `children[MAX_BRANCHING_FACTOR]` and `octants[8][...]` are
  lists holding the entries in use (`numChildren`, `rays_in_octant[o]` are
  their lengths).
* The callbacks `createLeaf`, `createNode`, `spawn`, the heuristic's methods and
  the scene entry points are observed through the list of calls made (a trace).
  `spawn(child)` is followed at once by the `recurse` of that child, as the
  sequential tree scheduler does.
* A thrown `THROW_RUNTIME_ERROR` ends the run with status `raised`.
* Recursion through `spawn` and the `while(1)` loop of `filterAOS` carry a step
  budget; status `diverged` / an unfinished loop is reported explicitly.
* A scene call on some rays does not change the validity or the direction of
  the rays of other slots.
* `filterSOA` / `filterSOP` are given twice: as the list of events they make
  (`RayStream.filterSOA`), with the layout reads as functions of the offset, and
  as the change they make to the caller's buffer (`RayStream.Buffered.filterSOA`),
  a function from byte offsets to rays, with the layout reads made on the
  buffer as it is when the offset is visited.
* Functions that the sources declare without a body (`Split::partition`,
  `BinInfo::merge`, `BinInfo::reduce`, `Mapping(pinfo)`, `Mapping::bin`) are
  modelled from the specification and marked so. The bin mapping is the affine
  map of the specification's data model, over an ordered field with a floor
  function, the bin bounds over a linear order with a least and a greatest
  element; NaN is not a value of either.
* The array entries written by the loops (`children[...]`, `octants[o][...]`)
  are listed by functions with the control flow of the loop they belong to
  (`splitLoopRounds`, `sortIntoOctantsWrites`, `filterAOSWrites`,
  `sortStreamWrites`).
-/

namespace embree

/-! ## Floats -/

/-- The values of a `float`: numbers of the ring `R`, and the IEEE special values.
The operations `add`, `sub`, `mul` below give the exact result; the float
operation is that result rounded (`rnd`). -/
inductive Flt (R : Type) where
  | fin (r : R)
  | pinf
  | ninf
  | nan
  deriving DecidableEq, Repr

namespace Flt

variable {R : Type} [LinearOrderedRing R]

/-- The literal `0.0f`. -/
def zero : Flt R := fin 0

/-- Unary minus. -/
def neg : Flt R → Flt R
  | fin a => fin (-a)
  | pinf => ninf
  | ninf => pinf
  | nan => nan

/-- Addition `a + b`. -/
def add : Flt R → Flt R → Flt R
  | nan, _ => nan
  | _, nan => nan
  | fin a, fin b => fin (a + b)
  | fin _, pinf => pinf
  | fin _, ninf => ninf
  | pinf, fin _ => pinf
  | ninf, fin _ => ninf
  | pinf, pinf => pinf
  | ninf, ninf => ninf
  | pinf, ninf => nan
  | ninf, pinf => nan

/-- Subtraction `a - b`. -/
def sub (a b : Flt R) : Flt R := add a (neg b)

/-- Sign-directed infinity: the product of an infinity of sign `pos` with the finite `a`. -/
def scaleInf (pos : Bool) (a : R) : Flt R :=
  if 0 < a then (if pos then pinf else ninf)
  else if a < 0 then (if pos then ninf else pinf)
  else nan

/-- Multiplication `a * b`. -/
def mul : Flt R → Flt R → Flt R
  | nan, _ => nan
  | _, nan => nan
  | fin a, fin b => fin (a * b)
  | fin a, pinf => scaleInf true a
  | fin a, ninf => scaleInf false a
  | pinf, fin b => scaleInf true b
  | ninf, fin b => scaleInf false b
  | pinf, pinf => pinf
  | ninf, ninf => pinf
  | pinf, ninf => ninf
  | ninf, pinf => ninf

/-- Comparison `a < b` (false when either side is NaN). -/
def lt : Flt R → Flt R → Bool
  | nan, _ => false
  | _, nan => false
  | fin a, fin b => decide (a < b)
  | fin _, pinf => true
  | fin _, ninf => false
  | pinf, _ => false
  | ninf, fin _ => true
  | ninf, pinf => true
  | ninf, ninf => false

/-- Comparison `a <= b` (false when either side is NaN). -/
def le : Flt R → Flt R → Bool
  | nan, _ => false
  | _, nan => false
  | fin a, fin b => decide (a ≤ b)
  | fin _, pinf => true
  | fin _, ninf => false
  | pinf, pinf => true
  | pinf, _ => false
  | ninf, _ => true

/-- Comparison `a > b`. -/
def gt (a b : Flt R) : Bool := lt b a

/-- Comparison `a >= b`. -/
def ge (a b : Flt R) : Bool := le b a

/-- Comparison `a == b` (false when either side is NaN). -/
def feq : Flt R → Flt R → Bool
  | fin a, fin b => decide (a = b)
  | pinf, pinf => true
  | ninf, ninf => true
  | _, _ => false

/-- Modelled from the spec: the math helper `min(float,float)` is not among the
sources; it is `a < b ? a : b`, the two-operand form the spec's "clamped <= 0" uses. -/
def min (a b : Flt R) : Flt R := if lt a b then a else b

/-- The value is a finite number. -/
def isFinite : Flt R → Bool
  | fin _ => true
  | _ => false

/-- The result of a float operation: the exact result `x` rounded to a float by
`round`. An infinite or NaN result is not changed by rounding. -/
def rnd (round : R → Flt R) : Flt R → Flt R
  | fin r => round r
  | x => x

/-- What the rounding of a float format has in common with rounding to nearest:
it is monotone (and so never NaN), zero is a float, and a rounded value is a
float, which rounding leaves as it is. -/
def IsRounding (round : R → Flt R) : Prop :=
  (∀ x y, x ≤ y → le (round x) (round y) = true) ∧
  round 0 = fin 0 ∧
  (∀ x y, round x = fin y → round y = fin y)

end Flt

/-! ## Integer conversions -/

/-- The conversion of a `size_t` value to `int` (32 bits, two's complement): the
value modulo `2^32`, read as a signed number. -/
def toInt (n : Nat) : Int := (((n + 2 ^ 31) % 2 ^ 32 : Nat) : Int) - 2 ^ 31

/-- The conversion of an `int` to `size_t` (64 bits) that the comparison of a
`size_t` with an `int` makes: the value modulo `2^64`. -/
def toSizeT (z : Int) : Nat := (z % 2 ^ 64).toNat

/-! ## Builder data model -/

/-- maximal supported BVH branching factor -/
def MAX_BRANCHING_FACTOR : Nat := 16

/-- create balanced tree of we are that many levels before the maximal tree depth -/
def MIN_LARGE_LEAF_LEVELS : Nat := 8

/-- The `Split` of the heuristic: SAH cost, split dimension and bin index
(`heuristic_object_partition.h`); the bin mapping is not consulted by the builder. -/
structure Split (R : Type) where
  sah : Flt R
  dim : Int
  pos : Int
  deriving DecidableEq, Repr

namespace Split

variable {R : Type}

/-- construct an invalid split by default -/
def invalid : Split R := { sah := Flt.pinf, dim := -1, pos := 0 }

/-- tests if this split is valid -/
def valid (s : Split R) : Bool := s.dim != -1

/-- calculates surface area heuristic for performing the split -/
def splitSAH (s : Split R) : Flt R := s.sah

end Split

/-- The build record (`BuildRecord2` plus the `split` of `BuildRecord`); the
`parent` back-pointer is written by the callbacks only and is left out. -/
structure BuildRecord (R S P : Type) where
  depth : Nat
  prims : S
  pinfo : P
  split : Split R
  deriving DecidableEq, Repr

/-- The operations of `PrimInfo` the builder uses; `PrimInfo` itself is declared
outside the sources, so its methods are parameters. -/
structure PrimInfoOps (R P : Type) where
  /-- The method `PrimInfo::size()`. -/
  size : P → Nat
  /-- The method `PrimInfo::leafSAH(logBlockSize)`. -/
  leafSAH : P → Nat → Flt R
  /-- The value `halfArea(pinfo.geomBounds)`. -/
  halfArea : P → Flt R
  /-- The value `PrimInfo(empty)`. -/
  empty : P

/-- The `Heuristic` template parameter: the five methods the builder calls.
The split methods return `((left.pinfo, left.prims), (right.pinfo, right.prims))`. -/
structure Heuristic (R S P : Type) where
  find : S → P → Nat → Split R
  parallel_find : S → P → Nat → Split R
  split : Split R → S → (P × S) × (P × S)
  parallel_split : Split R → S → (P × S) × (P × S)
  splitFallback : S → (P × S) × (P × S)

/-- The two runtime errors the builder throws. -/
inductive BuildError where
  | branchingFactorTooLarge
  | depthLimitReached
  deriving DecidableEq, Repr

/-- The members of `BVHBuilderSAH2` (callbacks are observed through the trace).
`emptySet` is the default-constructed `Set`; `toplevelOf` is the choice between
`recurse<true>` and `recurse<false>` that the tree scheduler makes for a spawned
record; `round` is the rounding of the float arithmetic the builder is compiled
with. -/
structure BVHBuilderSAH2 (R S P : Type) where
  heuristic : Heuristic R S P
  info : PrimInfoOps R P
  emptySet : S
  toplevelOf : BuildRecord R S P → Bool
  round : R → Flt R
  branchingFactor : Nat
  maxDepth : Nat
  logBlockSize : Nat
  minLeafSize : Nat
  maxLeafSize : Nat
  travCost : Flt R
  intCost : Flt R

/-- A call made by the builder to a callback or to the heuristic. -/
inductive BuildEvent (R S P : Type) where
  | createLeaf (current : BuildRecord R S P)
  | createNode (current : BuildRecord R S P) (children : List (BuildRecord R S P))
  | splitFallback (prims : S)
  | split (sp : Split R) (prims : S)
  | parallel_split (sp : Split R) (prims : S)
  | find (prims : S) (pinfo : P)
  | parallel_find (prims : S) (pinfo : P)
  | spawn (child : BuildRecord R S P)
  deriving DecidableEq, Repr

namespace BuildEvent

/-- The calls `createLargeLeaf` makes: `createLeaf`, `createNode`, `splitFallback`
(so not a `find`, an SAH `split` or a `spawn`). -/
def isLargeLeafCall {R S P : Type} : BuildEvent R S P → Bool
  | createLeaf _ => true
  | createNode _ _ => true
  | splitFallback _ => true
  | _ => false

end BuildEvent

/-- How a run ended. -/
inductive BuildStatus where
  | done
  | raised (e : BuildError)
  | diverged
  deriving DecidableEq, Repr

/-- The calls made by a run, in order, and how it ended. -/
structure Outcome (R S P : Type) where
  trace : List (BuildEvent R S P)
  status : BuildStatus
  deriving DecidableEq, Repr

namespace Outcome

variable {R S P : Type}

/-- Sequencing: run `k` after `o` unless `o` did not complete. -/
def andThen (o : Outcome R S P) (k : Outcome R S P) : Outcome R S P :=
  match o.status with
  | .done => { trace := o.trace ++ k.trace, status := k.status }
  | _ => o

/-- The loop `for (i=0; i<numChildren; i++) f(children[i])`, stopping at the first throw. -/
def forEach (f : BuildRecord R S P → Outcome R S P) : List (BuildRecord R S P) → Outcome R S P
  | [] => { trace := [], status := .done }
  | c :: cs => andThen (f c) (forEach f cs)

end Outcome

/-- The shape shared by the two `do { ... } while (numChildren < branchingFactor)`
loops of the builder. `select` is the search for the best child (`none` is
`bestChild == -1`, the `break`); `step` splits that child and returns the new
child list with the calls made; `numChildren` is the length of the list. The
body always runs once; `k` bounds the number of further rounds. -/
def splitLoop {α ε : Type} (select : List α → Option Nat)
    (step : List α → Nat → List α × List ε) (branchingFactor : Nat) :
    Nat → List α → List α × List ε
  | k, children =>
    match select children with
    | none => (children, [])
    | some bestChild =>
      if (step children bestChild).1.length < branchingFactor then
        match k with
        | 0 => step children bestChild
        | k + 1 =>
          ((splitLoop select step branchingFactor k (step children bestChild).1).1,
            (step children bestChild).2 ++
              (splitLoop select step branchingFactor k (step children bestChild).1).2)
      else step children bestChild

namespace BVHBuilderSAH2

variable {R S P : Type} [LinearOrderedRing R]

/-- The constructor: stores the configuration and throws when the branching
factor exceeds `MAX_BRANCHING_FACTOR`. -/
def construct (heuristic : Heuristic R S P) (info : PrimInfoOps R P) (emptySet : S)
    (toplevelOf : BuildRecord R S P → Bool) (round : R → Flt R)
    (branchingFactor maxDepth logBlockSize minLeafSize maxLeafSize : Nat)
    (travCost intCost : Flt R) : Except BuildError (BVHBuilderSAH2 R S P) :=
  if branchingFactor > MAX_BRANCHING_FACTOR then
    .error .branchingFactorTooLarge
  else
    .ok { heuristic := heuristic, info := info, emptySet := emptySet, toplevelOf := toplevelOf,
          round := round, branchingFactor := branchingFactor, maxDepth := maxDepth,
          logBlockSize := logBlockSize, minLeafSize := minLeafSize,
          maxLeafSize := maxLeafSize, travCost := travCost, intCost := intCost }

/-- The constructor `BuildRecord(depth)`: empty `pinfo`, default `prims` and `split`. -/
def newRecord (b : BVHBuilderSAH2 R S P) (depth : Nat) : BuildRecord R S P :=
  { depth := depth, prims := b.emptySet, pinfo := b.info.empty, split := Split.invalid }

/-- The method `BuildRecord::size()`. -/
def size (b : BVHBuilderSAH2 R S P) (r : BuildRecord R S P) : Nat := b.info.size r.pinfo

/-- The selection loop of `createLargeLeaf` over `children[i..]` ("remember child
with largest size"). `bestSize` is an `int`: the test `size() > bestSize`
compares in `size_t`, the assignment `bestSize = size()` converts to `int`. -/
def largestChild (b : BVHBuilderSAH2 R S P) :
    List (BuildRecord R S P) → Nat → Option Nat → Int → Option Nat × Int
  | [], _, bestChild, bestSize => (bestChild, bestSize)
  | c :: cs, i, bestChild, bestSize =>
    if b.size c ≤ b.maxLeafSize then largestChild b cs (i + 1) bestChild bestSize
    else if b.size c > toSizeT bestSize then
      largestChild b cs (i + 1) (some i) (toInt (b.size c))
    else largestChild b cs (i + 1) bestChild bestSize

/-- One round of the loop of `createLargeLeaf`: "split best child into left and
right child" and "add new children left and right". -/
def largeLeafStep (b : BVHBuilderSAH2 R S P) (depth : Nat)
    (children : List (BuildRecord R S P)) (bestChild : Nat) :
    List (BuildRecord R S P) × List (BuildEvent R S P) :=
  let numChildren := children.length
  let best := children.getD bestChild (b.newRecord depth)
  let lr := b.heuristic.splitFallback best.prims
  let left := { b.newRecord (depth + 1) with pinfo := lr.1.1, prims := lr.1.2 }
  let right := { b.newRecord (depth + 1) with pinfo := lr.2.1, prims := lr.2.2 }
  let children1 := children.set bestChild (children.getD (numChildren - 1) best)
  let children2 := children1.set (numChildren - 1) left
  (children2 ++ [right], [BuildEvent.splitFallback best.prims])

/-- The `do ... while (numChildren < branchingFactor)` loop of `createLargeLeaf`
("fill all children by always splitting the largest one"): the final children
and the `splitFallback` calls made. `branchingFactor` rounds are enough, since
`numChildren` grows every round. -/
def largeLeafRounds (b : BVHBuilderSAH2 R S P) (depth : Nat)
    (children : List (BuildRecord R S P)) :
    List (BuildRecord R S P) × List (BuildEvent R S P) :=
  splitLoop (fun cs => (largestChild b cs 0 none 0).1) (largeLeafStep b depth)
    b.branchingFactor b.branchingFactor children

/-- The body of `createLargeLeaf` with a budget for the recursion depth. -/
def createLargeLeafFuel (b : BVHBuilderSAH2 R S P) :
    Nat → BuildRecord R S P → Outcome R S P
  | 0, _ => { trace := [], status := .diverged }
  | fuel + 1, current =>
    if current.depth > b.maxDepth then
      { trace := [], status := .raised .depthLimitReached }
    else if b.size current ≤ b.maxLeafSize then
      { trace := [.createLeaf current], status := .done }
    else
      let res := largeLeafRounds b current.depth [current]
      Outcome.andThen
        { trace := res.2 ++ [.createNode current res.1], status := .done }
        (Outcome.forEach (createLargeLeafFuel b fuel) res.1)

/-- The method `createLargeLeaf(current, alloc)`; the recursion is on `maxDepth + 1 - depth`. -/
def createLargeLeaf (b : BVHBuilderSAH2 R S P) (current : BuildRecord R S P) : Outcome R S P :=
  createLargeLeafFuel b (b.maxDepth + 1 - current.depth + 1) current

/-- The method `find<toplevel>(current)`. -/
def find (b : BVHBuilderSAH2 R S P) (toplevel : Bool) (current : BuildRecord R S P) : Split R :=
  if toplevel then b.heuristic.parallel_find current.prims current.pinfo b.logBlockSize
  else b.heuristic.find current.prims current.pinfo b.logBlockSize

/-- The heuristic call made by `find<toplevel>(current)`. -/
def findEvent (toplevel : Bool) (current : BuildRecord R S P) : BuildEvent R S P :=
  if toplevel then .parallel_find current.prims current.pinfo
  else .find current.prims current.pinfo

/-- The method `partition<toplevel>(brecord, lrecord, rrecord)`: the heuristic call made and
the two records with `pinfo` and `prims` filled in. -/
def partition (b : BVHBuilderSAH2 R S P) (toplevel : Bool)
    (brecord lrecord rrecord : BuildRecord R S P) :
    BuildEvent R S P × BuildRecord R S P × BuildRecord R S P :=
  if Flt.feq brecord.split.sah Flt.pinf then
    let lr := b.heuristic.splitFallback brecord.prims
    (.splitFallback brecord.prims,
      { lrecord with pinfo := lr.1.1, prims := lr.1.2 },
      { rrecord with pinfo := lr.2.1, prims := lr.2.2 })
  else if toplevel then
    let lr := b.heuristic.parallel_split brecord.split brecord.prims
    (.parallel_split brecord.split brecord.prims,
      { lrecord with pinfo := lr.1.1, prims := lr.1.2 },
      { rrecord with pinfo := lr.2.1, prims := lr.2.2 })
  else
    let lr := b.heuristic.split brecord.split brecord.prims
    (.split brecord.split brecord.prims,
      { lrecord with pinfo := lr.1.1, prims := lr.1.2 },
      { rrecord with pinfo := lr.2.1, prims := lr.2.2 })

/-- The `dSAH` of a child as the selection loop of `recurse` uses it: split cost
minus leaf cost, a float subtraction, clamped by `min(0.0f, dSAH)` for large jobs. -/
def dSAH (b : BVHBuilderSAH2 R S P) (c : BuildRecord R S P) : Flt R :=
  let d := Flt.rnd b.round
    (Flt.sub c.split.splitSAH (b.info.leafSAH c.pinfo b.logBlockSize))
  if b.size c > b.maxLeafSize then Flt.min Flt.zero d else d

/-- The selection loop of `recurse` over `children[i..]` ("find best child to split"). -/
def bestChildLoop (b : BVHBuilderSAH2 R S P) :
    List (BuildRecord R S P) → Nat → Option Nat → Flt R → Option Nat × Flt R
  | [], _, bestChild, bestSAH => (bestChild, bestSAH)
  | c :: cs, i, bestChild, bestSAH =>
    if b.size c ≤ b.minLeafSize then bestChildLoop b cs (i + 1) bestChild bestSAH
    else if Flt.le (b.dSAH c) bestSAH then bestChildLoop b cs (i + 1) (some i) (b.dSAH c)
    else bestChildLoop b cs (i + 1) bestChild bestSAH

/-- One round of the loop of `recurse`: "perform best found split" and "find new
splits"; the calls made are the partition and the two finds. -/
def recurseStep (b : BVHBuilderSAH2 R S P) (toplevel : Bool) (depth : Nat)
    (children : List (BuildRecord R S P)) (bestChild : Nat) :
    List (BuildRecord R S P) × List (BuildEvent R S P) :=
  let brecord := children.getD bestChild (b.newRecord depth)
  let part := b.partition toplevel brecord (b.newRecord (depth + 1)) (b.newRecord (depth + 1))
  let lrecord := { part.2.1 with split := b.find toplevel part.2.1 }
  let rrecord := { part.2.2 with split := b.find toplevel part.2.2 }
  (children.set bestChild lrecord ++ [rrecord],
    [part.1, findEvent toplevel part.2.1, findEvent toplevel part.2.2])

/-- The `do ... while (numChildren < branchingFactor)` loop of `recurse` ("split
until node is full or SAH tells us to stop"): the final children and the
heuristic calls made. -/
def recurseRounds (b : BVHBuilderSAH2 R S P) (toplevel : Bool) (depth : Nat)
    (children : List (BuildRecord R S P)) :
    List (BuildRecord R S P) × List (BuildEvent R S P) :=
  splitLoop (fun cs => (bestChildLoop b cs 0 none Flt.zero).1) (recurseStep b toplevel depth)
    b.branchingFactor b.branchingFactor children

/-- The leaf test of `recurse`: "compute leaf and split cost", two products and
a sum of floats, each rounded, and "create a leaf node when threshold reached
or SAH tells us to stop". The sum `record.depth+MIN_LARGE_LEAF_LEVELS` is a
`size_t` sum: it wraps at `2^64`. -/
def leafTest (b : BVHBuilderSAH2 R S P) (record : BuildRecord R S P) : Bool :=
  let leafSAH := Flt.rnd b.round
    (Flt.mul b.intCost (b.info.leafSAH record.pinfo b.logBlockSize))
  let splitSAH := Flt.rnd b.round
    (Flt.add (Flt.rnd b.round (Flt.mul b.travCost (b.info.halfArea record.pinfo)))
      (Flt.rnd b.round (Flt.mul b.intCost record.split.splitSAH)))
  decide (b.size record ≤ b.minLeafSize) ||
    decide ((record.depth + MIN_LARGE_LEAF_LEVELS) % 2 ^ 64 ≥ b.maxDepth) ||
    (decide (b.size record ≤ b.maxLeafSize) && Flt.le leafSAH splitSAH)

/-- The method `recurse<toplevel>(record, alloc, spawn)`. A spawned child is continued by
`recurse<toplevelOf child>`; the budget bounds the nesting of spawned records. -/
def recurse (b : BVHBuilderSAH2 R S P) :
    Nat → Bool → BuildRecord R S P → Outcome R S P
  | 0, _, _ => { trace := [], status := .diverged }
  | fuel + 1, toplevel, record =>
    if b.leafTest record then
      b.createLargeLeaf record
    else
      let res := recurseRounds b toplevel record.depth [record]
      Outcome.andThen
        { trace := res.2 ++ [.createNode record res.1], status := .done }
        (Outcome.forEach
          (fun c => Outcome.andThen { trace := [.spawn c], status := .done }
            (recurse b fuel (b.toplevelOf c) c))
          res.1)

/-- The builder entry function `operator()`: the root split is found with
`find<true>`, then the tree scheduler runs `recurse` on the root. -/
def build (b : BVHBuilderSAH2 R S P) (fuel : Nat) (record : BuildRecord R S P) : Outcome R S P :=
  let br := { record with split := b.find true record }
  Outcome.andThen { trace := [findEvent true record], status := .done }
    (b.recurse fuel (b.toplevelOf br) br)

end BVHBuilderSAH2

namespace BVHBuilderSAH2

/-- A split method conserves counts: the counts of the two sides it returns sum
to the count `card s` of the set `s` it was given, and the `pinfo` of each side
counts the set of that side. -/
def Conserves {R S P : Type} (b : BVHBuilderSAH2 R S P) (card : S → Nat)
    (f : S → (P × S) × (P × S)) : Prop :=
  ∀ s, b.info.size (f s).1.1 + b.info.size (f s).2.1 = card s ∧
    card (f s).1.2 = b.info.size (f s).1.1 ∧ card (f s).2.2 = b.info.size (f s).2.1

/-- None of the costs that `recurse` computes for a record with `PrimInfo` `p` and
split cost `s` is NaN: the leaf cost `leafSAH` and the split cost `splitSAH` of
the leaf test, and the `dSAH` of the selection loop before it is clamped. -/
def CostsDefined {R S P : Type} [LinearOrderedRing R] (b : BVHBuilderSAH2 R S P)
    (p : P) (s : Flt R) : Prop :=
  Flt.rnd b.round (Flt.mul b.intCost (b.info.leafSAH p b.logBlockSize)) ≠ Flt.nan ∧
  Flt.rnd b.round
    (Flt.add (Flt.rnd b.round (Flt.mul b.travCost (b.info.halfArea p)))
      (Flt.rnd b.round (Flt.mul b.intCost s))) ≠ Flt.nan ∧
  Flt.rnd b.round (Flt.sub s (b.info.leafSAH p b.logBlockSize)) ≠ Flt.nan

/-- The child list of a record in progress: every child's `pinfo` counts its own
set, and the children's counts sum to `n`. -/
def ChildrenSumTo {R S P : Type} (b : BVHBuilderSAH2 R S P) (card : S → Nat) (n : Nat)
    (children : List (BuildRecord R S P)) : Prop :=
  (∀ c ∈ children, card c.prims = b.size c) ∧ (children.map b.size).sum = n

end BVHBuilderSAH2

/-! ## Ray-stream octant filter -/

/-- The constant `MAX_RAYS_PER_OCTANT = 8*sizeof(size_t)`, with the 8-byte `size_t` of the x86-64 target. -/
def MAX_RAYS_PER_OCTANT : Nat := 8 * 8

/-- The four float lanes of a `Vec3fa`. -/
structure Vec3fa (R : Type) where
  x : Flt R
  y : Flt R
  z : Flt R
  a : Flt R
  deriving DecidableEq, Repr

/-- The fields of `Ray` that the filter reads. -/
structure Ray (R : Type) where
  dir : Vec3fa R
  tnear : Flt R
  tfar : Flt R
  geomID : Nat
  deriving DecidableEq, Repr

/-- A call to the scene. A ray is named by its slot: the index `inputRayID` in
`filterAOS`, the byte offset in `filterSOA` / `filterSOP`. -/
inductive SceneCall where
  | intersect (ray : Nat)
  | occluded (ray : Nat)
  | intersectN (rays : List Nat) (N : Nat) (flags : Nat)
  | occludedN (rays : List Nat) (N : Nat) (flags : Nat)
  deriving DecidableEq, Repr

namespace SceneCall

/-- The slots of the rays handed to the call. -/
def rays : SceneCall → List Nat
  | intersect r => [r]
  | occluded r => [r]
  | intersectN rs _ _ => rs
  | occludedN rs _ _ => rs

/-- The call goes through a scalar entry point (`intersect` / `occluded`). -/
def isScalar : SceneCall → Bool
  | intersect _ => true
  | occluded _ => true
  | _ => false

/-- The ray count passed to the call (1 for the scalar entry points). -/
def count : SceneCall → Nat
  | intersect _ => 1
  | occluded _ => 1
  | intersectN _ n _ => n
  | occludedN _ n _ => n

end SceneCall

namespace RayStream

variable {R : Type} [LinearOrderedRing R]

/-- The intrinsic `movemask` on four boolean lanes: bit `i` is lane `i`. -/
def movemask (l0 l1 l2 l3 : Bool) : Nat :=
  (if l0 then 1 else 0) ||| (if l1 then 2 else 0) ||| (if l2 then 4 else 0) |||
    (if l3 then 8 else 0)

/-- The octant as `filterAOS` computes it: `movemask(vfloat4(ray.dir) < 0.0f) & 0x7`. -/
def octantID (ray : Ray R) : Nat :=
  movemask (Flt.lt ray.dir.x Flt.zero) (Flt.lt ray.dir.y Flt.zero)
    (Flt.lt ray.dir.z Flt.zero) (Flt.lt ray.dir.a Flt.zero) &&& 0x7

/-- The octant as the `__MIC__` branch of `filterAOS` computes it. -/
def octantID_MIC (ray : Ray R) : Nat :=
  (if Flt.lt ray.dir.x Flt.zero then 1 else 0) |||
    (if Flt.lt ray.dir.y Flt.zero then 2 else 0) |||
    (if Flt.lt ray.dir.z Flt.zero then 4 else 0)

/-- The rays that `filterAOS` skips: invalid ones and, when not intersecting,
already occluded ones. -/
def skipped (intersect : Bool) (ray : Ray R) : Bool :=
  Flt.gt ray.tnear ray.tfar || (!intersect && ray.geomID == 0)

/-- The inner loop of `filterAOS` ("sort rays into octants") from `inputRayID` on,
over the rays not yet read. Returns the buckets, the rays left, the new
`inputRayID` and `cur_octant` (`none` is `-1`). A bucket `octants[o]` is the list
of its first `rays_in_octant[o]` entries. -/
def sortIntoOctants (intersect : Bool) :
    List (Ray R) → Nat → (Nat → List Nat) → (Nat → List Nat) × List (Ray R) × Nat × Option Nat
  | [], inputRayID, octants => (octants, [], inputRayID, none)
  | ray :: rest, inputRayID, octants =>
    if Flt.gt ray.tnear ray.tfar then sortIntoOctants intersect rest (inputRayID + 1) octants
    else if !intersect && ray.geomID == 0 then
      sortIntoOctants intersect rest (inputRayID + 1) octants
    else
      let octants1 := Function.update octants (octantID ray)
        (octants (octantID ray) ++ [inputRayID])
      if (octants1 (octantID ray)).length = MAX_RAYS_PER_OCTANT then
        (octants1, rest, inputRayID + 1, some (octantID ray))
      else sortIntoOctants intersect rest (inputRayID + 1) octants1

/-- The loop "need to flush rays in octant ?": the first non-empty bucket. -/
def firstNonEmpty (octants : Nat → List Nat) : Option Nat :=
  (List.range 8).find? (fun i => (octants i).length != 0)

/-- The dispatch of `filterAOS` for a bucket: the scalar entry point for a single
ray, the batched one otherwise. -/
def dispatchAOS (intersect : Bool) (flags : Nat) (rays : List Nat) : SceneCall :=
  if rays.length = 1 then
    (if intersect then .intersect (rays.headD 0) else .occluded (rays.headD 0))
  else
    (if intersect then .intersectN rays rays.length flags
     else .occludedN rays rays.length flags)

/-- The `while(1)` loop of `filterAOS` with an iteration budget: the scene calls
made, and whether the loop reached its `break`. -/
def filterAOSLoop (intersect : Bool) (flags : Nat) :
    Nat → List (Ray R) → Nat → (Nat → List Nat) → List SceneCall × Bool
  | 0, _, _, _ => ([], false)
  | fuel + 1, rest, inputRayID, octants =>
    let st := sortIntoOctants intersect rest inputRayID octants
    let cur_octant := match st.2.2.2 with
      | some o => some o
      | none => firstNonEmpty st.1
    match cur_octant with
    | none => ([], true)
    | some o =>
      let res := filterAOSLoop intersect flags fuel st.2.1 st.2.2.1
        (Function.update st.1 o [])
      (dispatchAOS intersect flags (st.1 o) :: res.1, res.2)

/-- The function `RayStream::filterAOS(scene, rayN, N, stride, flags, intersect)` on the `N`
rays `rayN`. Every iteration but the last dispatches at least one ray, so
`N + 1` iterations are enough. -/
def filterAOS (rayN : List (Ray R)) (flags : Nat) (intersect : Bool) : List SceneCall × Bool :=
  filterAOSLoop intersect flags (rayN.length + 1) rayN 0 (fun _ => [])

/-- The dispatches of the buckets that are non-empty, in the order `0..7`, each
with the index of its bucket. -/
def flushAll (intersect : Bool) (flags : Nat) (octants : Nat → List Nat) :
    List (Nat × SceneCall) :=
  (List.range 8).flatMap (fun o =>
    if (octants o).length != 0 then [(o, dispatchAOS intersect flags (octants o))] else [])

/-- The scene calls of `filterAOS` written as one pass over the rays, each with
the index of the bucket it empties: a bucket is dispatched when it becomes
full, the others after the last ray. (Shown below to be what the `while(1)`
loop computes.) -/
def singlePass (intersect : Bool) (flags : Nat) :
    List (Ray R) → Nat → (Nat → List Nat) → List (Nat × SceneCall)
  | [], _, octants => flushAll intersect flags octants
  | ray :: rest, inputRayID, octants =>
    if skipped intersect ray then singlePass intersect flags rest (inputRayID + 1) octants
    else
      let octants1 := Function.update octants (octantID ray)
        (octants (octantID ray) ++ [inputRayID])
      if (octants1 (octantID ray)).length = MAX_RAYS_PER_OCTANT then
        (octantID ray, dispatchAOS intersect flags (octants1 (octantID ray))) ::
          singlePass intersect flags rest (inputRayID + 1)
            (Function.update octants1 (octantID ray) [])
      else singlePass intersect flags rest (inputRayID + 1) octants1

/-- The number of rays held in the eight buckets. -/
def queued (octants : Nat → List Nat) : Nat :=
  ((List.range 8).map (fun o => (octants o).length)).sum

/-- The slots of the rays of `rayN[inputRayID..]` that are not skipped and fall
into octant `o`, in input order. -/
def eligible (intersect : Bool) (o : Nat) : List (Ray R) → Nat → List Nat
  | [], _ => []
  | ray :: rest, inputRayID =>
    if !skipped intersect ray && octantID ray == o then
      inputRayID :: eligible intersect o rest (inputRayID + 1)
    else eligible intersect o rest (inputRayID + 1)

/-- The slots of the rays of `rayN[inputRayID..]` that are not skipped. -/
def kept (intersect : Bool) : List (Ray R) → Nat → List Nat
  | [], _ => []
  | ray :: rest, inputRayID =>
    if skipped intersect ray then kept intersect rest (inputRayID + 1)
    else inputRayID :: kept intersect rest (inputRayID + 1)

/-- The slots held in the eight buckets. -/
def pending (octants : Nat → List Nat) : List Nat :=
  (List.range 8).flatMap octants

/-- The ray counts of the dispatches that empty a bucket fed with `k` rays in
all: full packets of `MAX_RAYS_PER_OCTANT`, then the remainder if there is one. -/
def packetSizes (k : Nat) : List Nat :=
  List.replicate (k / MAX_RAYS_PER_OCTANT) MAX_RAYS_PER_OCTANT ++
    (if k % MAX_RAYS_PER_OCTANT = 0 then [] else [k % MAX_RAYS_PER_OCTANT])

/-- The octant of the ray in slot `j` of the batch, if there is such a slot. -/
def octantOf (rayN : List (Ray R)) (j : Nat) : Option Nat :=
  rayN[j]?.map octantID

/-- The calls of a trace that carry rays of octant `o` (judged by the first ray). -/
def callsFor (rayN : List (Ray R)) (o : Nat) (calls : List SceneCall) : List SceneCall :=
  calls.filter (fun c => c.rays.head?.bind (octantOf rayN) == some o)

/-- What `filterSOA` / `filterSOP` do, in order. -/
inductive StreamEvent where
  | gather (offset : Nat)
  | call (c : SceneCall)
  | scatter (offset : Nat)
  | gatherK (offset : Nat)
  | callK (intersect : Bool) (valid : List Bool) (offset : Nat)
  | scatterK (valid : List Bool) (offset : Nat)
  deriving DecidableEq, Repr

/-- The layout operations of `RayPacket` (`isValid`, `getOctant`) and of `RaySOA`
(`isValidByOffset`, `getOctantByOffset`), which are declared outside the
sources. They read the validity and the direction of the ray at a byte offset;
these are not changed by the results scattered back. -/
structure RayLayout where
  isValid : Nat → Bool
  getOctant : Nat → Nat

/-- The offsets visited by the two nested loops over `s` and `i`:
`soffset + sizeof(float) * i` with `soffset = s * stream_offset`. -/
def streamOffsets (N streams stream_offset : Nat) : List Nat :=
  (List.range streams).flatMap (fun s => (List.range N).map (fun i => s * stream_offset + 4 * i))

/-- Gather, batched call, scatter for one bucket of the sorting path. -/
def flushBucket (intersect : Bool) (flags : Nat) (offsets : List Nat) : List StreamEvent :=
  offsets.map StreamEvent.gather ++
    [StreamEvent.call (if intersect then .intersectN offsets offsets.length flags
      else .occludedN offsets offsets.length flags)] ++
    offsets.map StreamEvent.scatter

/-- The scan of the sorting path over the offsets still to visit. -/
def sortStream (layout : RayLayout) (intersect : Bool) (flags : Nat) :
    List Nat → (Nat → List Nat) → (Nat → List Nat) × List StreamEvent
  | [], octants => (octants, [])
  | offset :: rest, octants =>
    if !layout.isValid offset then sortStream layout intersect flags rest octants
    else
      let octantID := layout.getOctant offset
      let octants1 := Function.update octants octantID (octants octantID ++ [offset])
      if (octants1 octantID).length = MAX_RAYS_PER_OCTANT then
        let res := sortStream layout intersect flags rest (Function.update octants1 octantID [])
        (res.1, flushBucket intersect flags (octants1 octantID) ++ res.2)
      else sortStream layout intersect flags rest octants1

/-- The loop "flush remaining rays per octant". -/
def flushRemaining (intersect : Bool) (flags : Nat) (octants : Nat → List Nat) :
    List StreamEvent :=
  (List.range 8).flatMap (fun i =>
    if (octants i).length != 0 then flushBucket intersect flags (octants i) else [])

/-- The "stream intersector" path shared by `filterSOA` and `filterSOP`. -/
def filterSorted (layout : RayLayout) (N streams stream_offset flags : Nat)
    (intersect : Bool) : List StreamEvent :=
  let st := sortStream layout intersect flags (streamOffsets N streams stream_offset)
    (fun _ => [])
  st.2 ++ flushRemaining intersect flags st.1

/-- The "packet intersector for coherent ray mode" path shared by `filterSOA` and
`filterSOP`; `VSIZEX` is the packet width, a positive constant of the target. -/
def filterCoherent (VSIZEX N streams stream_offset : Nat) (intersect : Bool) :
    List StreamEvent :=
  (List.range streams).flatMap (fun s =>
    (List.range ((N + VSIZEX - 1) / VSIZEX)).flatMap (fun k =>
      let i := k * VSIZEX
      let valid := (List.range VSIZEX).map (fun l => decide (i + l < N))
      let offset := s * stream_offset + 4 * i
      [StreamEvent.gatherK offset, StreamEvent.callK intersect valid offset,
        StreamEvent.scatterK valid offset]))

/-- The function `RayStream::filterSOA(scene, rayData, N, streams, stream_offset, flags, intersect)`;
`RTC_RAYN_COHERENT` and `VSIZEX` are constants declared outside the sources. -/
def filterSOA (RTC_RAYN_COHERENT VSIZEX : Nat) (rayN : RayLayout)
    (N streams stream_offset flags : Nat) (intersect : Bool) : List StreamEvent :=
  if flags = RTC_RAYN_COHERENT then filterCoherent VSIZEX N streams stream_offset intersect
  else filterSorted rayN N streams stream_offset flags intersect

/-- The function `RayStream::filterSOP(scene, rayN, N, streams, stream_offset, flags, intersect)`. -/
def filterSOP (RTC_RAYN_COHERENT VSIZEX : Nat) (rayN : RayLayout)
    (N streams stream_offset flags : Nat) (intersect : Bool) : List StreamEvent :=
  if flags = RTC_RAYN_COHERENT then filterCoherent VSIZEX N streams stream_offset intersect
  else filterSorted rayN N streams stream_offset flags intersect

end RayStream

/-! ## A concrete instance

Primitive sets are index ranges `(begin, end)` of an array, `PrimInfo` is reduced
to the primitive count, the fallback split cuts a range at its centre, and costs
are integers. -/

namespace Example

/-- Cut the range at `center = (begin + end) / 2`. -/
def medianSplit (s : Nat × Nat) : (Nat × (Nat × Nat)) × (Nat × (Nat × Nat)) :=
  let center := (s.1 + s.2) / 2
  ((center - s.1, (s.1, center)), (s.2 - center, (center, s.2)))

/-- A `PrimInfo` that is only a count: unit half-area, leaf cost the block-rounded count. -/
def rangeInfo : PrimInfoOps Int Nat :=
  { size := id
    leafSAH := fun p n => .fin (((p + 2 ^ n - 1) / 2 ^ n : Nat) : Int)
    halfArea := fun _ => .fin 1
    empty := 0 }

/-- A split search that reports a finite cost for two or more primitives. -/
def rangeFind (p : Nat) : Split Int :=
  if p ≤ 1 then Split.invalid else { sah := .fin ((p : Int) - 1), dim := 0, pos := 16 }

/-- The heuristic over ranges. -/
def rangeHeuristic : Heuristic Int (Nat × Nat) Nat :=
  { find := fun _ p _ => rangeFind p
    parallel_find := fun _ p _ => rangeFind p
    split := fun _ s => medianSplit s
    parallel_split := fun _ s => medianSplit s
    splitFallback := medianSplit }

/-- A builder over ranges with unit costs; the integers it computes with are
floats, so nothing is rounded. -/
def builder (branchingFactor maxDepth minLeafSize maxLeafSize : Nat) :
    BVHBuilderSAH2 Int (Nat × Nat) Nat :=
  { heuristic := rangeHeuristic, info := rangeInfo, emptySet := (0, 0)
    toplevelOf := fun r => decide (r.pinfo > 4), round := Flt.fin
    branchingFactor := branchingFactor, maxDepth := maxDepth, logBlockSize := 0
    minLeafSize := minLeafSize, maxLeafSize := maxLeafSize
    travCost := .fin 1, intCost := .fin 1 }

/-- The record over the range `[0, n)` at the given depth, with its split found. -/
def record (depth n : Nat) : BuildRecord Int (Nat × Nat) Nat :=
  { depth := depth, prims := (0, n), pinfo := n, split := rangeFind n }

/-- A `PrimInfo` of primitives without finite bounds: the half-area and the leaf
cost are `+inf`. -/
def unboundedInfo : PrimInfoOps Int Nat :=
  { size := id, leafSAH := fun _ _ => .pinf, halfArea := fun _ => .pinf, empty := 0 }

/-- A heuristic whose split search finds no split: it reports the default split,
of cost `+inf`. -/
def noSplitHeuristic : Heuristic Int (Nat × Nat) Nat :=
  { find := fun _ _ _ => Split.invalid
    parallel_find := fun _ _ _ => Split.invalid
    split := fun _ s => medianSplit s
    parallel_split := fun _ s => medianSplit s
    splitFallback := medianSplit }

/-- A builder with unit costs over primitives without finite bounds. -/
def unboundedBuilder (branchingFactor maxDepth minLeafSize maxLeafSize : Nat) :
    BVHBuilderSAH2 Int (Nat × Nat) Nat :=
  { heuristic := noSplitHeuristic, info := unboundedInfo, emptySet := (0, 0)
    toplevelOf := fun _ => false, round := Flt.fin
    branchingFactor := branchingFactor, maxDepth := maxDepth, logBlockSize := 0
    minLeafSize := minLeafSize, maxLeafSize := maxLeafSize
    travCost := .fin 1, intCost := .fin 1 }

/-- A valid ray with direction signs `(+,+,+)`. -/
def rayPPP : Ray Int :=
  { dir := ⟨.fin 1, .fin 1, .fin 1, .fin 0⟩, tnear := .fin 0, tfar := .fin 10, geomID := 5 }

/-- A valid ray with direction signs `(-,+,+)` and a negative fourth lane. -/
def rayNPP : Ray Int :=
  { dir := ⟨.fin (-1), .fin 1, .fin 1, .fin (-3)⟩, tnear := .fin 0, tfar := .fin 10, geomID := 5 }

/-- An invalid ray: `tnear > tfar`. -/
def rayInvalid : Ray Int :=
  { dir := ⟨.fin 1, .fin 1, .fin 1, .fin 0⟩, tnear := .fin 11, tfar := .fin 10, geomID := 5 }

/-- A stream layout: the ray at offset `o` is valid unless `o` is a multiple of 8,
and its octant is `(o / 4) % 3`. -/
def layout : RayStream.RayLayout :=
  { isValid := fun o => o % 8 != 0, getOctant := fun o => (o / 4) % 3 }

end Example

namespace RayStream

/-- The offsets of the rays that an event hands to the scene: the rays of a
batched or scalar call, the active lanes of a packet call. -/
def StreamEvent.dispatched : StreamEvent → List Nat
  | .call c => c.rays
  | .callK _ valid offset =>
    ((List.range valid.length).filter (fun l => valid.getD l false)).map (fun l => offset + 4 * l)
  | _ => []

end RayStream

/-! ## Ray-stream filters on the caller's buffer -/

namespace RayStream

/-- The ray operations that `filterSOA` / `filterSOP` use and that are declared
outside the sources, for a buffer whose slot at a byte offset holds a ray `Q`:
the reads `isValid` and `getOctant` of the layout, the result `scene intersect`
of the scene's `intersect` (`true`) or `occluded` (`false`) on one ray, a
deterministic function of that ray, and `store old ray intersect`, what a slot
that held `old` holds after `scatter(offset, ray, intersect)`. -/
structure RayOps (Q : Type) where
  isValid : Q → Bool
  getOctant : Q → Nat
  scene : Bool → Q → Q
  store : Q → Q → Bool → Q

namespace Buffered

variable {Q : Type}

/-- The scatter loop `for j: rayN.scatter(octants[j], rays[j], intersect)`. The
buffer is a function of the byte offset; slots at different offsets are
different memory. -/
def scatterAll (ops : RayOps Q) (intersect : Bool) : List (Nat × Q) → (Nat → Q) → (Nat → Q)
  | [], buf => buf
  | (offset, ray) :: rest, buf =>
    scatterAll ops intersect rest
      (Function.update buf offset (ops.store (buf offset) ray intersect))

/-- Gather, batched call, scatter for one bucket of the sorting path, on the buffer. -/
def flushBucket (ops : RayOps Q) (intersect : Bool) (offsets : List Nat) (buf : Nat → Q) :
    Nat → Q :=
  let rays := offsets.map buf
  let rays1 := rays.map (ops.scene intersect)
  scatterAll ops intersect (offsets.zip rays1) buf

/-- The scan of the sorting path on the buffer: validity and octant are read from
the slot when its offset is visited. -/
def sortStream (ops : RayOps Q) (intersect : Bool) :
    List Nat → (Nat → List Nat) → (Nat → Q) → (Nat → List Nat) × (Nat → Q)
  | [], octants, buf => (octants, buf)
  | offset :: rest, octants, buf =>
    if !ops.isValid (buf offset) then sortStream ops intersect rest octants buf
    else
      let octantID := ops.getOctant (buf offset)
      let octants1 := Function.update octants octantID (octants octantID ++ [offset])
      if (octants1 octantID).length = MAX_RAYS_PER_OCTANT then
        sortStream ops intersect rest (Function.update octants1 octantID [])
          (flushBucket ops intersect (octants1 octantID) buf)
      else sortStream ops intersect rest octants1 buf

/-- The loop "flush remaining rays per octant", on the buffer. -/
def flushRemaining (ops : RayOps Q) (intersect : Bool) (octants : Nat → List Nat)
    (buf : Nat → Q) : Nat → Q :=
  (List.range 8).foldl
    (fun b i => if (octants i).length != 0 then flushBucket ops intersect (octants i) b else b)
    buf

/-- The "stream intersector" path of `filterSOA` / `filterSOP`, on the buffer. -/
def filterSorted (ops : RayOps Q) (N streams stream_offset : Nat) (intersect : Bool)
    (buf : Nat → Q) : Nat → Q :=
  let st := sortStream ops intersect (streamOffsets N streams stream_offset) (fun _ => []) buf
  flushRemaining ops intersect st.1 st.2

/-- One packet of the coherent path: the lanes with `i + l < N` are active, lane
`l` of `gather<VSIZEX>(offset)` is the slot at `offset + 4 * l`, the scene call
gives the result of every active lane, the same function of the ray as in a
batched call, and `scatter<VSIZEX>` stores the active lanes back, lane by lane
as `scatter` does. This is the build without `__MIC`, where the scene call is
compiled in. -/
def packetStep (ops : RayOps Q) (VSIZEX N : Nat) (intersect : Bool) (offset i : Nat)
    (buf : Nat → Q) : Nat → Q :=
  let valid := (List.range VSIZEX).filter (fun l => decide (i + l < N))
  let ray := fun l => buf (offset + 4 * l)
  let ray1 := fun l => ops.scene intersect (ray l)
  scatterAll ops intersect (valid.map (fun l => (offset + 4 * l, ray1 l))) buf

/-- The "packet intersector for coherent ray mode" path, on the buffer. -/
def filterCoherent (ops : RayOps Q) (VSIZEX N streams stream_offset : Nat) (intersect : Bool)
    (buf : Nat → Q) : Nat → Q :=
  (List.range streams).foldl
    (fun b s =>
      (List.range ((N + VSIZEX - 1) / VSIZEX)).foldl
        (fun b k =>
          packetStep ops VSIZEX N intersect (s * stream_offset + 4 * (k * VSIZEX))
            (k * VSIZEX) b)
        b)
    buf

/-- The function `RayStream::filterSOA` as a change of the caller's buffer. -/
def filterSOA (RTC_RAYN_COHERENT VSIZEX : Nat) (ops : RayOps Q)
    (N streams stream_offset flags : Nat) (intersect : Bool) (buf : Nat → Q) : Nat → Q :=
  if flags = RTC_RAYN_COHERENT then filterCoherent ops VSIZEX N streams stream_offset intersect buf
  else filterSorted ops N streams stream_offset intersect buf

/-- The function `RayStream::filterSOP` as a change of the caller's buffer. -/
def filterSOP (RTC_RAYN_COHERENT VSIZEX : Nat) (ops : RayOps Q)
    (N streams stream_offset flags : Nat) (intersect : Bool) (buf : Nat → Q) : Nat → Q :=
  if flags = RTC_RAYN_COHERENT then filterCoherent ops VSIZEX N streams stream_offset intersect buf
  else filterSorted ops N streams stream_offset intersect buf

end Buffered

end RayStream

namespace Example

/-- Rays as integers: a ray is valid when it is not negative, its octant is its
value modulo 8, and the scene adds 100 to the ray, which is stored back as it is. -/
def rayOps : RayStream.RayOps Int :=
  { isValid := fun q => decide (0 ≤ q), getOctant := fun q => (q % 8).toNat
    scene := fun _ q => q + 100, store := fun _ r _ => r }

/-- The same rays with a scene that leaves the rays that are not valid as they are. -/
def rayOpsStrict : RayStream.RayOps Int :=
  { isValid := fun q => decide (0 ≤ q), getOctant := fun q => (q % 8).toNat
    scene := fun _ q => if 0 ≤ q then q + 100 else q, store := fun _ r _ => r }

/-- A buffer: the slot at offset 4 holds a ray that is not valid. -/
def buffer (o : Nat) : Int := if o = 4 then -1 else o

end Example

/-! ## Object partition (`heuristic_object_partition.h`) -/

/-- Modelled from the spec: a `PrimRef`, which is declared outside the sources:
the centroid of its bounds and its identity, the `(geomID, primID)` pair. -/
structure PrimRef (R : Type) where
  center : Vec3fa R
  geomID : Nat
  primID : Nat
  deriving DecidableEq, Repr

/-- Modelled from the spec: what `Split::partition` gives back, the primitives of
the two sides and the counts of the two `PrimInfo` it recomputes. -/
structure Partitioned (R : Type) where
  lprims : List (PrimRef R)
  left : Nat
  rprims : List (PrimRef R)
  right : Nat
  deriving DecidableEq, Repr

namespace Split

variable {R : Type}

/-- Modelled from the spec: the scan of `Split::partition`, whose body is not in
the sources: "re-scan the primitive set, routing each primitive left or right by
comparing its centroid's bin against the split position on the split dimension;
recompute both children's `PrimInfo`". A primitive goes left when its bin is
below the position; `bin c dim` stands for `mapping.bin(c)[dim]`, which the
sources declare without a body. -/
def partitionScan (bin : Vec3fa R → Int → Int) (split : Split R) :
    List (PrimRef R) → Partitioned R → Partitioned R
  | [], acc => acc
  | p :: rest, acc =>
    if bin p.center split.dim < split.pos then
      partitionScan bin split rest { acc with lprims := acc.lprims ++ [p], left := acc.left + 1 }
    else
      partitionScan bin split rest { acc with rprims := acc.rprims ++ [p], right := acc.right + 1 }

/-- Modelled from the spec: `Split::partition(prims, begin, end, left, right)` on
the primitives of `[begin, end)`, starting from two empty sides. -/
def partition (bin : Vec3fa R → Int → Int) (split : Split R) (prims : List (PrimRef R)) :
    Partitioned R :=
  partitionScan bin split prims { lprims := [], left := 0, rprims := [], right := 0 }

end Split

namespace Example

/-- A bin mapping: bin `x / 2` on dimension 0 for a finite `x`, bin 0 otherwise. -/
def bin (c : Vec3fa Int) (dim : Int) : Int :=
  match c.x, dim with
  | .fin v, 0 => v / 2
  | _, _ => 0

/-- A primitive `(7, k)` with its centroid at `x = k`. -/
def prim (k : Nat) : PrimRef Int :=
  { center := ⟨.fin k, .fin 0, .fin 0, .fin 0⟩, geomID := 7, primID := k }

end Example

/-! ## The rounds of the split loops and the array entries they write -/

/-- The rounds that `splitLoop` runs, with the same control flow: for each round,
`numChildren` when the round is entered and the `bestChild` that it splits. -/
def splitLoopRounds {α ε : Type} (select : List α → Option Nat)
    (step : List α → Nat → List α × List ε) (branchingFactor : Nat) :
    Nat → List α → List (Nat × Nat)
  | k, children =>
    match select children with
    | none => []
    | some bestChild =>
      (children.length, bestChild) ::
        (if (step children bestChild).1.length < branchingFactor then
          match k with
          | 0 => []
          | k + 1 => splitLoopRounds select step branchingFactor k (step children bestChild).1
        else [])

namespace BVHBuilderSAH2

variable {R S P : Type} [LinearOrderedRing R]

/-- The rounds run by the loop of `createLargeLeaf`, as `(numChildren, bestChild)`. -/
def largeLeafRoundsRun (b : BVHBuilderSAH2 R S P) (depth : Nat)
    (children : List (BuildRecord R S P)) : List (Nat × Nat) :=
  splitLoopRounds (fun cs => (largestChild b cs 0 none 0).1) (largeLeafStep b depth)
    b.branchingFactor b.branchingFactor children

/-- The rounds run by the loop of `recurse`, as `(numChildren, bestChild)`. -/
def recurseRoundsRun (b : BVHBuilderSAH2 R S P) (toplevel : Bool) (depth : Nat)
    (children : List (BuildRecord R S P)) : List (Nat × Nat) :=
  splitLoopRounds (fun cs => (bestChildLoop b cs 0 none Flt.zero).1)
    (recurseStep b toplevel depth) b.branchingFactor b.branchingFactor children

/-- The array indices written by a round of `createLargeLeaf`: `children[bestChild]`,
`children[numChildren-1]`, `children[numChildren+0]` and `pchildren[numChildren]`. -/
def largeLeafWrites (numChildren bestChild : Nat) : List Nat :=
  [bestChild, numChildren - 1, numChildren + 0, numChildren]

/-- The array indices written by a round of `recurse`: `children[bestChild]`,
`children[numChildren]` and `pchildren[numChildren]`. -/
def recurseWrites (numChildren bestChild : Nat) : List Nat :=
  [bestChild, numChildren, numChildren]

end BVHBuilderSAH2

/-! ## The bucket writes of the ray-stream filters -/

namespace RayStream

variable {R : Type} [LinearOrderedRing R]

/-- The bucket writes `octants[octantID][rays_in_octant[octantID]++] = &ray` of the
inner loop of `filterAOS`, with the control flow of `sortIntoOctants`: for each
write, the bucket and the slot `rays_in_octant[octantID]` written. -/
def sortIntoOctantsWrites (intersect : Bool) :
    List (Ray R) → Nat → (Nat → List Nat) → List (Nat × Nat)
  | [], _, _ => []
  | ray :: rest, inputRayID, octants =>
    if Flt.gt ray.tnear ray.tfar then
      sortIntoOctantsWrites intersect rest (inputRayID + 1) octants
    else if !intersect && ray.geomID == 0 then
      sortIntoOctantsWrites intersect rest (inputRayID + 1) octants
    else
      let octants1 := Function.update octants (octantID ray)
        (octants (octantID ray) ++ [inputRayID])
      (octantID ray, (octants (octantID ray)).length) ::
        (if (octants1 (octantID ray)).length = MAX_RAYS_PER_OCTANT then []
         else sortIntoOctantsWrites intersect rest (inputRayID + 1) octants1)

/-- The bucket writes of the `while(1)` loop of `filterAOS`, with the control flow
of `filterAOSLoop`. -/
def filterAOSWrites (intersect : Bool) :
    Nat → List (Ray R) → Nat → (Nat → List Nat) → List (Nat × Nat)
  | 0, _, _, _ => []
  | fuel + 1, rest, inputRayID, octants =>
    let st := sortIntoOctants intersect rest inputRayID octants
    let cur_octant := match st.2.2.2 with
      | some o => some o
      | none => firstNonEmpty st.1
    match cur_octant with
    | none => sortIntoOctantsWrites intersect rest inputRayID octants
    | some o =>
      sortIntoOctantsWrites intersect rest inputRayID octants ++
        filterAOSWrites intersect fuel st.2.1 st.2.2.1 (Function.update st.1 o [])

/-- The bucket writes `octants[octantID][rays_in_octant[octantID]++] = offset` of the
sorting path of `filterSOA` / `filterSOP`, with the control flow of `sortStream`. -/
def sortStreamWrites (layout : RayLayout) :
    List Nat → (Nat → List Nat) → List (Nat × Nat)
  | [], _ => []
  | offset :: rest, octants =>
    if !layout.isValid offset then sortStreamWrites layout rest octants
    else
      let octantID := layout.getOctant offset
      let octants1 := Function.update octants octantID (octants octantID ++ [offset])
      (octantID, (octants octantID).length) ::
        (if (octants1 octantID).length = MAX_RAYS_PER_OCTANT then
          sortStreamWrites layout rest (Function.update octants1 octantID [])
         else sortStreamWrites layout rest octants1)

end RayStream

/-! ## Binning (`heuristic_object_partition.h`) -/

/-- number of bins -/
def maxBins : Nat := 32

/-- number of tasks -/
def maxTasks : Nat := 32

/-- The box type `BBox3fa` of the bin bounds: lower and upper corner per axis. The
coordinates are values of a linear order with a least and a greatest element:
the floats that are numbers or infinities. -/
structure BBox (α : Type) where
  lower : Fin 3 → α
  upper : Fin 3 → α

/-- The binning information `BinInfo`: `bounds[maxBins][4]`, the geometry bounds for
each bin in each dimension, and `counts[maxBins]`, the number of primitives that
map into the bins, one `int` lane per dimension (the lane index is an `int`, as
in `counts[i][split.dim]`). -/
structure BinInfo (α : Type) where
  bounds : Nat → Nat → BBox α
  counts : Nat → Int → Nat

namespace BBox

variable {α : Type}

/-- Modelled from the spec: the empty box, which is declared outside the sources;
the neutral element of box union. -/
def empty [Top α] [Bot α] : BBox α := { lower := fun _ => ⊤, upper := fun _ => ⊥ }

/-- Modelled from the spec: box union (`extend`), which is declared outside the
sources: the smallest box containing both, per axis. -/
def extend [LinearOrder α] (a other : BBox α) : BBox α :=
  { lower := fun d => min (a.lower d) (other.lower d)
    upper := fun d => max (a.upper d) (other.upper d) }

end BBox

namespace BinInfo

variable {α : Type}

/-- The loop bound `i < split.pos` of `getNumLeft`: the `int` position is compared
as a `size_t`. -/
def numLeftBound {R : Type} (split : Split R) : Nat := (split.pos % 2 ^ 64).toNat

/-- The method `BinInfo::getNumLeft(split)`:
`N = 0; for (i = 0; i < split.pos; i++) N += counts[i][split.dim]; return N`. -/
def getNumLeft {R : Type} (b : BinInfo α) (split : Split R) : Nat :=
  (List.range (numLeftBound split)).foldl (fun N i => N + b.counts i split.dim) 0

/-- The entries `counts[i][split.dim]` that `getNumLeft(split)` reads, in order. -/
def getNumLeftReads {R : Type} (split : Split R) : List (Nat × Int) :=
  (List.range (numLeftBound split)).map (fun i => (i, split.dim))

/-- Modelled from the spec: the cleared `BinInfo` of `BinInfo()` / `clear()`, whose
bodies are not in the sources: no primitive counted, every bound empty. -/
def empty [Top α] [Bot α] : BinInfo α :=
  { bounds := fun _ _ => BBox.empty, counts := fun _ _ => 0 }

/-- Modelled from the spec: `BinInfo::merge(other)`, whose body is not in the
sources: "combining two `BinInfo` is pure per-bin-per-axis box union and count
addition". -/
def merge [LinearOrder α] (a other : BinInfo α) : BinInfo α :=
  { bounds := fun i d => (a.bounds i d).extend (other.bounds i d)
    counts := fun i d => a.counts i d + other.counts i d }

/-- Modelled from the spec: `BinInfo::reduce(binners, num, binner_o)`, whose body is
not in the sources: the per-worker histograms "are reduced into one global
histogram", the first one merged with the others in turn (none gives the
cleared histogram). -/
def reduce [LinearOrder α] [Top α] [Bot α] : List (BinInfo α) → BinInfo α
  | [] => empty
  | b :: bs => bs.foldl merge b

end BinInfo

/-- Modelled from the spec: a grouping of merges ("any partial-sum order across
parallel workers, including tree-reduction"): a binary tree with a histogram at
each leaf. -/
inductive MergeTree (α : Type) where
  | leaf (b : BinInfo α)
  | node (l r : MergeTree α)

namespace MergeTree

variable {α : Type}

/-- The histograms at the leaves, from left to right. -/
def leaves : MergeTree α → List (BinInfo α)
  | leaf b => [b]
  | node l r => l.leaves ++ r.leaves

/-- The histogram that the grouping computes: each inner node merges its two sides. -/
def eval [LinearOrder α] : MergeTree α → BinInfo α
  | leaf b => b
  | node l r => BinInfo.merge l.eval r.eval

end MergeTree

/-- The bin mapping `Mapping`: the number of bins `num` and the linear function
`ofs`, `scale` "that maps to bin ID", per axis. -/
structure Mapping (R : Type) where
  num : Nat
  ofs : Fin 3 → R
  scale : Fin 3 → R

namespace Mapping

variable {R : Type} [LinearOrderedField R] [FloorRing R]

/-- Modelled from the spec: the constructor `Mapping(pinfo)`, whose body is not in
the sources, from the number of bins and the centroid bounds of the `PrimInfo`:
"per axis, `scale = numBins / (centroidBoundsUpper - centroidBoundsLower)`,
`offset = -centroidBoundsLower * scale`". -/
def ofPrimInfo (numBins : Nat) (centLower centUpper : Fin 3 → R) : Mapping R :=
  { num := numBins
    ofs := fun d => -(centLower d) * ((numBins : R) / (centUpper d - centLower d))
    scale := fun d => (numBins : R) / (centUpper d - centLower d) }

/-- Modelled from the spec: `Mapping::bin_unsafe(p)`, whose body is not in the
sources: the floor of the mapping's "per-axis affine transform (offset + scale)
from centroid-space to bin index", `p * scale + offset`, which "omits clamping".
With the offset `-centroidBoundsLower * scale` of `Mapping(pinfo)` this is
`floor((p - centroidBoundsLower) * scale)`, the reading of the spec's
`floor((p - offset) * scale)` under which the spec's own rules hold (the affine
map onto `[0,numBins)`, the lower bound in bin 0, centroid 6 of `[0,8]` in bin 3
of 4). -/
def bin_unsafe (m : Mapping R) (p : Fin 3 → R) : Fin 3 → Int :=
  fun d => ⌊p d * m.scale d + m.ofs d⌋

/-- Modelled from the spec: `Mapping::bin(p)`, whose body is not in the sources:
it "clamps" the floor of the affine transform (see `bin_unsafe`) "into
`[0,numBins)`". -/
def bin (m : Mapping R) (p : Fin 3 → R) : Fin 3 → Int :=
  fun d => max 0 (min ⌊p d * m.scale d + m.ofs d⌋ ((m.num : Int) - 1))

end Mapping

namespace Example

/-- A histogram over `Fin 8` coordinates with `k` primitives in each of the bins
below `n`, on every dimension, and the box `[lo, hi]` there; the other bins
hold the empty box `[7, 0]`. -/
def histogram (n k : Nat) (lo hi : Fin 8) : BinInfo (Fin 8) :=
  { bounds := fun i _ => if i < n then { lower := fun _ => lo, upper := fun _ => hi }
      else { lower := fun _ => 7, upper := fun _ => 0 }
    counts := fun i _ => if i < n then k else 0 }

end Example

/-! ## Theorems -/

/-- C1: construction fails, with the branching-factor error, exactly when
`branchingFactor > 16`; for every `branchingFactor <= 16` it succeeds and
stores the configuration, whatever the other values are. -/
theorem BVHBuilderSAH2.construct_error_iff {R S P : Type} [LinearOrderedRing R]
    (heuristic : Heuristic R S P) (info : PrimInfoOps R P) (emptySet : S)
    (toplevelOf : BuildRecord R S P → Bool) (round : R → Flt R)
    (branchingFactor maxDepth logBlockSize minLeafSize maxLeafSize : Nat)
    (travCost intCost : Flt R) :
    (BVHBuilderSAH2.construct heuristic info emptySet toplevelOf round branchingFactor maxDepth
        logBlockSize minLeafSize maxLeafSize travCost intCost
        = .error .branchingFactorTooLarge ↔ branchingFactor > 16) ∧
    (branchingFactor ≤ 16 →
      ∃ b : BVHBuilderSAH2 R S P,
        BVHBuilderSAH2.construct heuristic info emptySet toplevelOf round branchingFactor
          maxDepth logBlockSize minLeafSize maxLeafSize travCost intCost = .ok b ∧
        b.branchingFactor = branchingFactor ∧ b.maxDepth = maxDepth ∧
        b.logBlockSize = logBlockSize ∧ b.minLeafSize = minLeafSize ∧
        b.maxLeafSize = maxLeafSize ∧ b.travCost = travCost ∧ b.intCost = intCost) := by
  unfold BVHBuilderSAH2.construct MAX_BRANCHING_FACTOR
  constructor
  · constructor
    · intro h
      by_contra hle
      rw [if_neg hle] at h
      cases h
    · intro h
      rw [if_pos h]
  · intro h
    have hn : ¬ branchingFactor > 16 := by omega
    rw [if_neg hn]
    exact ⟨_, rfl, rfl, rfl, rfl, rfl, rfl, rfl, rfl⟩

/-- C1 at a concrete configuration: branching factor 4 is accepted and stored. -/
theorem BVHBuilderSAH2.construct_error_iff_witness :
    (BVHBuilderSAH2.construct Example.rangeHeuristic Example.rangeInfo (0, 0)
        (fun _ => false) Flt.fin 4 32 0 1 4 (Flt.fin 1) (Flt.fin 1)
        = .error .branchingFactorTooLarge ↔ 4 > 16) ∧
    ((4 : Nat) ≤ 16 →
      ∃ b : BVHBuilderSAH2 Int (Nat × Nat) Nat,
        BVHBuilderSAH2.construct Example.rangeHeuristic Example.rangeInfo (0, 0)
          (fun _ => false) Flt.fin 4 32 0 1 4 (Flt.fin 1) (Flt.fin 1) = .ok b ∧
        b.branchingFactor = 4 ∧ b.maxDepth = 32 ∧
        b.logBlockSize = 0 ∧ b.minLeafSize = 1 ∧
        b.maxLeafSize = 4 ∧ b.travCost = Flt.fin 1 ∧ b.intCost = Flt.fin 1) :=
  BVHBuilderSAH2.construct_error_iff Example.rangeHeuristic Example.rangeInfo (0, 0)
    (fun _ => false) Flt.fin 4 32 0 1 4 (Flt.fin 1) (Flt.fin 1)

/-! ### Integer conversions -/

theorem toSizeT_zero : toSizeT 0 = 0 := by decide

/-- A `size_t` value that went through an `int` without loss compares as itself. -/
theorem toSizeT_natCast (n : Nat) (h : n < 2 ^ 64) : toSizeT (n : Int) = n := by
  unfold toSizeT
  omega

/-- A count below `2^31` fits the `int`. -/
theorem toInt_of_lt (n : Nat) (h : n < 2 ^ 31) : toInt n = (n : Int) := by
  unfold toInt
  omega

/-! ### createLargeLeaf -/

theorem BVHBuilderSAH2.largestChild_single {R S P : Type} (b : BVHBuilderSAH2 R S P)
    (current : BuildRecord R S P) (h : b.maxLeafSize < b.size current) :
    (largestChild b [current] 0 none 0).1 = some 0 := by
  have h1 : ¬ b.size current ≤ b.maxLeafSize := by omega
  have h2 : b.size current > 0 := by omega
  simp [largestChild, h1, h2, toSizeT_zero]

theorem BVHBuilderSAH2.largeLeafRounds_single {R S P : Type} (b : BVHBuilderSAH2 R S P)
    (current : BuildRecord R S P) (depth : Nat) (h : b.maxLeafSize < b.size current) :
    (largeLeafRounds b depth [current]).2.head? = some (.splitFallback current.prims) := by
  unfold largeLeafRounds splitLoop
  simp only [largestChild_single b current h]
  split
  · cases b.branchingFactor <;> simp [largeLeafStep]
  · simp [largeLeafStep]

theorem Outcome.andThen_done_trace {R S P : Type} (t : List (BuildEvent R S P))
    (k : Outcome R S P) :
    (Outcome.andThen { trace := t, status := .done } k).trace = t ++ k.trace := by
  simp [Outcome.andThen]

/-- C2: `createLargeLeaf` on a record deeper than `maxDepth` raises the depth-limit
error with no call made at all (no `createLeaf`, `createNode` or `splitFallback`),
whatever the record's count; a record with `depth <= maxDepth` (so also
`depth == maxDepth`) passes that check: it is either turned into a leaf, or its
first call is the `splitFallback` on its own primitives and its `createNode` is made. -/
theorem BVHBuilderSAH2.createLargeLeaf_depth_check {R S P : Type} (b : BVHBuilderSAH2 R S P)
    (current : BuildRecord R S P) :
    (current.depth > b.maxDepth →
      b.createLargeLeaf current = { trace := [], status := .raised .depthLimitReached }) ∧
    (current.depth ≤ b.maxDepth →
      (b.size current ≤ b.maxLeafSize →
        b.createLargeLeaf current = { trace := [.createLeaf current], status := .done }) ∧
      (b.maxLeafSize < b.size current →
        (b.createLargeLeaf current).trace.head? = some (.splitFallback current.prims) ∧
        ∃ children,
          BuildEvent.createNode current children ∈ (b.createLargeLeaf current).trace)) := by
  refine ⟨?_, ?_⟩
  · intro h
    simp [createLargeLeaf, createLargeLeafFuel, h]
  · intro h
    have hd : ¬ current.depth > b.maxDepth := by omega
    refine ⟨?_, ?_⟩
    · intro hs
      simp [createLargeLeaf, createLargeLeafFuel, hd, hs]
    · intro hs
      have hs' : ¬ b.size current ≤ b.maxLeafSize := by omega
      have hh := largeLeafRounds_single b current current.depth hs
      simp only [createLargeLeaf, createLargeLeafFuel, hd, hs', if_false,
        Outcome.andThen_done_trace]
      refine ⟨?_, ?_⟩
      · cases hr : (largeLeafRounds b current.depth [current]).2 with
        | nil => rw [hr] at hh; simp at hh
        | cons e es => rw [hr] at hh; simpa using hh
      · exact ⟨(largeLeafRounds b current.depth [current]).1, by simp⟩

/-- C2 at concrete records: depth 5 with `maxDepth = 4` raises at once although
the count 3 is below `maxLeafSize = 4`; depth 4 does not. -/
theorem BVHBuilderSAH2.createLargeLeaf_depth_check_witness :
    ((Example.record 5 3).depth > (Example.builder 2 4 1 4).maxDepth →
      (Example.builder 2 4 1 4).createLargeLeaf (Example.record 5 3)
        = { trace := [], status := .raised .depthLimitReached }) ∧
    ((Example.record 4 3).depth ≤ (Example.builder 2 4 1 4).maxDepth ∧
      (Example.builder 2 4 1 4).createLargeLeaf (Example.record 4 3)
        = { trace := [.createLeaf (Example.record 4 3)], status := .done }) :=
  ⟨(BVHBuilderSAH2.createLargeLeaf_depth_check (Example.builder 2 4 1 4)
      (Example.record 5 3)).1,
   by decide,
   ((BVHBuilderSAH2.createLargeLeaf_depth_check (Example.builder 2 4 1 4)
      (Example.record 4 3)).2 (by decide)).1 (by decide)⟩

/-! ### The split loops -/

theorem splitLoop_none {α ε : Type} (select : List α → Option Nat)
    (step : List α → Nat → List α × List ε) (bf k : Nat) (children : List α)
    (h : select children = none) :
    splitLoop select step bf k children = (children, []) := by
  unfold splitLoop
  simp [h]

theorem splitLoop_stop {α ε : Type} (select : List α → Option Nat)
    (step : List α → Nat → List α × List ε) (bf k : Nat) (children : List α) (best : Nat)
    (h : select children = some best) (hlen : ¬ (step children best).1.length < bf) :
    splitLoop select step bf k children = step children best := by
  unfold splitLoop
  simp [h, hlen]

theorem splitLoop_zero {α ε : Type} (select : List α → Option Nat)
    (step : List α → Nat → List α × List ε) (bf : Nat) (children : List α) (best : Nat)
    (h : select children = some best) :
    splitLoop select step bf 0 children = step children best := by
  unfold splitLoop
  simp [h]

theorem splitLoop_succ {α ε : Type} (select : List α → Option Nat)
    (step : List α → Nat → List α × List ε) (bf k : Nat) (children : List α) (best : Nat)
    (h : select children = some best) (hlen : (step children best).1.length < bf) :
    splitLoop select step bf (k + 1) children =
      ((splitLoop select step bf k (step children best).1).1,
        (step children best).2 ++ (splitLoop select step bf k (step children best).1).2) := by
  rw [splitLoop]
  simp [h, hlen]

/-- An invariant of the child list that every round preserves holds of the final
children; a property of the calls of every round holds of all calls made. -/
theorem splitLoop_invariant {α ε : Type} (select : List α → Option Nat)
    (step : List α → Nat → List α × List ε) (bf : Nat)
    (Inv : List α → Prop) (p : ε → Prop)
    (hstep : ∀ cs best, Inv cs → select cs = some best →
      Inv (step cs best).1 ∧ ∀ e ∈ (step cs best).2, p e)
    (k : Nat) (children : List α) (h0 : Inv children) :
    Inv (splitLoop select step bf k children).1 ∧
      ∀ e ∈ (splitLoop select step bf k children).2, p e := by
  induction k generalizing children with
  | zero =>
    cases hs : select children with
    | none => rw [splitLoop_none _ _ _ _ _ hs]; exact ⟨h0, by simp⟩
    | some best => rw [splitLoop_zero _ _ _ _ _ hs]; exact hstep _ _ h0 hs
  | succ k ih =>
    cases hs : select children with
    | none => rw [splitLoop_none _ _ _ _ _ hs]; exact ⟨h0, by simp⟩
    | some best =>
      by_cases hlen : (step children best).1.length < bf
      · rw [splitLoop_succ _ _ _ _ _ _ hs hlen]
        have h1 := hstep _ _ h0 hs
        have h2 := ih _ h1.1
        refine ⟨h2.1, ?_⟩
        intro e he
        rcases List.mem_append.1 he with he | he
        · exact h1.2 e he
        · exact h2.2 e he
      · rw [splitLoop_stop _ _ _ _ _ _ hs hlen]; exact hstep _ _ h0 hs

/-! ### recurse: the leaf decision -/

theorem Outcome.mem_andThen_left {R S P : Type} (o k : Outcome R S P) (e : BuildEvent R S P)
    (h : e ∈ o.trace) : e ∈ (Outcome.andThen o k).trace := by
  unfold Outcome.andThen
  split
  · exact List.mem_append_left _ h
  · exact h

theorem Outcome.forEach_trace_all {R S P : Type} (p : BuildEvent R S P → Prop)
    (f : BuildRecord R S P → Outcome R S P) (cs : List (BuildRecord R S P))
    (h : ∀ c ∈ cs, ∀ e ∈ (f c).trace, p e) :
    ∀ e ∈ (Outcome.forEach f cs).trace, p e := by
  induction cs with
  | nil => simp [Outcome.forEach]
  | cons c cs ih =>
    intro e he
    simp only [Outcome.forEach, Outcome.andThen] at he
    split at he
    · simp only [List.mem_append] at he
      rcases he with he | he
      · exact h c (List.mem_cons_self _ _) e he
      · exact ih (fun c' hc' => h c' (List.mem_cons_of_mem _ hc')) e he
    · exact h c (List.mem_cons_self _ _) e he

theorem BVHBuilderSAH2.largeLeafRounds_events {R S P : Type} (b : BVHBuilderSAH2 R S P)
    (depth : Nat) (children : List (BuildRecord R S P)) :
    ∀ e ∈ (largeLeafRounds b depth children).2, e.isLargeLeafCall = true :=
  (splitLoop_invariant (fun cs => (largestChild b cs 0 none 0).1) (largeLeafStep b depth)
    b.branchingFactor (fun _ => True)
    (fun e : BuildEvent R S P => e.isLargeLeafCall = true)
    (fun cs best _ _ => ⟨trivial, by simp [largeLeafStep, BuildEvent.isLargeLeafCall]⟩)
    _ children trivial).2

theorem BVHBuilderSAH2.createLargeLeafFuel_events {R S P : Type} (b : BVHBuilderSAH2 R S P)
    (fuel : Nat) (current : BuildRecord R S P) :
    ∀ e ∈ (createLargeLeafFuel b fuel current).trace, e.isLargeLeafCall = true := by
  induction fuel generalizing current with
  | zero => simp [createLargeLeafFuel]
  | succ fuel ih =>
    unfold createLargeLeafFuel
    split
    · simp
    · split
      · simp [BuildEvent.isLargeLeafCall]
      · intro e he
        rw [Outcome.andThen_done_trace] at he
        simp only [List.mem_append, List.mem_singleton] at he
        rcases he with (he | he) | he
        · exact largeLeafRounds_events b _ _ e he
        · subst he; rfl
        · exact Outcome.forEach_trace_all _ _ _ (fun c _ => ih c) e he

theorem BVHBuilderSAH2.recurseRounds_ne_nil {R S P : Type} [LinearOrderedRing R]
    (b : BVHBuilderSAH2 R S P) (toplevel : Bool) (depth : Nat)
    (children : List (BuildRecord R S P)) (h : children ≠ []) :
    (recurseRounds b toplevel depth children).1 ≠ [] :=
  (splitLoop_invariant _ _ _ (fun cs => cs ≠ []) (fun _ => True)
    (fun cs best _ _ => ⟨by simp [recurseStep], fun _ _ => trivial⟩)
    _ children h).1

theorem BVHBuilderSAH2.recurse_of_leafTest {R S P : Type} [LinearOrderedRing R]
    (b : BVHBuilderSAH2 R S P) (fuel : Nat) (toplevel : Bool) (record : BuildRecord R S P)
    (h : b.leafTest record = true) :
    b.recurse (fuel + 1) toplevel record = b.createLargeLeaf record := by
  unfold recurse
  rw [if_pos h]

namespace RayStream

theorem movemask_and_lt (l0 l1 l2 l3 : Bool) : movemask l0 l1 l2 l3 &&& 0x7 < 8 := by
  cases l0 <;> cases l1 <;> cases l2 <;> cases l3 <;> decide

theorem octantID_lt {R : Type} [LinearOrderedRing R] (ray : Ray R) : octantID ray < 8 :=
  movemask_and_lt _ _ _ _

theorem queued_eq (octants : Nat → List Nat) :
    queued octants = (octants 0).length + (octants 1).length + (octants 2).length +
      (octants 3).length + (octants 4).length + (octants 5).length + (octants 6).length +
      (octants 7).length := by
  simp [queued, List.range_succ]
  omega

theorem queued_update (octants : Nat → List Nat) (o : Nat) (v : List Nat) (ho : o < 8) :
    queued (Function.update octants o v) + (octants o).length = queued octants + v.length := by
  rw [queued_eq, queued_eq]
  interval_cases o <;> simp [Function.update] <;> omega

/-- Flushing a list of distinct buckets: the first non-empty one goes first. -/
theorem flush_first (intersect : Bool) (flags : Nat) (l : List Nat) (hl : l.Nodup)
    (octants : Nat → List Nat) (o : Nat)
    (h : l.find? (fun i => (octants i).length != 0) = some o) :
    l.flatMap (fun i =>
        if (octants i).length != 0 then [(i, dispatchAOS intersect flags (octants i))] else []) =
      (o, dispatchAOS intersect flags (octants o)) ::
        l.flatMap (fun i =>
          if ((Function.update octants o []) i).length != 0 then
            [(i, dispatchAOS intersect flags ((Function.update octants o []) i))] else []) := by
  induction l with
  | nil => simp at h
  | cons a l ih =>
    have hnd := List.nodup_cons.1 hl
    by_cases ha : (octants a).length != 0
    · have hao : a = o := by simpa [List.find?_cons, ha] using h
      subst hao
      have htail : ∀ i ∈ l, (Function.update octants a []) i = octants i := by
        intro i hi
        have : i ≠ a := fun hia => hnd.1 (hia ▸ hi)
        simp [Function.update, this]
      simp only [List.flatMap_cons, ha, if_true, Function.update_same, List.length_nil]
      simp only [bne_self_eq_false, Bool.false_eq_true, if_false, List.nil_append,
        List.singleton_append, List.cons.injEq, true_and]
      apply List.flatMap_congr
      intro i hi
      rw [htail i hi]
    · have hne : a ≠ o := by
        intro hao
        subst hao
        have := List.find?_some h
        exact ha this
      have h' : l.find? (fun i => (octants i).length != 0) = some o := by
        simpa [List.find?_cons, ha] using h
      simp only [List.flatMap_cons, ha, if_false, List.nil_append, Bool.false_eq_true]
      rw [ih hnd.2 h']
      simp [Function.update, hne, ha]

theorem flush_none (intersect : Bool) (flags : Nat) (l : List Nat)
    (octants : Nat → List Nat)
    (h : l.find? (fun i => (octants i).length != 0) = none) :
    l.flatMap (fun i =>
        if (octants i).length != 0 then [(i, dispatchAOS intersect flags (octants i))] else []) = [] := by
  rw [List.find?_eq_none] at h
  rw [List.flatMap_eq_nil_iff]
  intro i hi
  simp [h i hi]

theorem flushAll_first (intersect : Bool) (flags : Nat) (octants : Nat → List Nat) (o : Nat)
    (h : firstNonEmpty octants = some o) :
    flushAll intersect flags octants =
      (o, dispatchAOS intersect flags (octants o)) ::
        flushAll intersect flags (Function.update octants o []) :=
  flush_first intersect flags (List.range 8) (List.nodup_range 8) octants o h

theorem flushAll_none (intersect : Bool) (flags : Nat) (octants : Nat → List Nat)
    (h : firstNonEmpty octants = none) : flushAll intersect flags octants = [] :=
  flush_none intersect flags (List.range 8) octants h

theorem firstNonEmpty_some (octants : Nat → List Nat) (o : Nat)
    (h : firstNonEmpty octants = some o) : o < 8 ∧ (octants o).length ≠ 0 := by
  unfold firstNonEmpty at h
  have h1 := List.find?_some h
  have h2 := List.mem_of_find?_eq_some h
  exact ⟨List.mem_range.1 h2, by simpa using h1⟩


/-- What one run of the inner loop of `filterAOS` amounts to: either a bucket got
full, by the ray read last, and the pass goes on from the next ray after the
dispatch of that bucket; or all rays are read and only the final flushes remain. -/
theorem sortIntoOctants_spec {R : Type} [LinearOrderedRing R] (intersect : Bool) (flags : Nat)
    (rest : List (Ray R)) (inputRayID : Nat) (octants : Nat → List Nat) :
    (∀ o, (sortIntoOctants intersect rest inputRayID octants).2.2.2 = some o →
      singlePass intersect flags rest inputRayID octants =
        (o, dispatchAOS intersect flags ((sortIntoOctants intersect rest inputRayID octants).1 o)) ::
          singlePass intersect flags (sortIntoOctants intersect rest inputRayID octants).2.1
            (sortIntoOctants intersect rest inputRayID octants).2.2.1
            (Function.update (sortIntoOctants intersect rest inputRayID octants).1 o []) ∧
      (sortIntoOctants intersect rest inputRayID octants).2.1.length +
        queued (Function.update (sortIntoOctants intersect rest inputRayID octants).1 o []) <
          rest.length + queued octants) ∧
    ((sortIntoOctants intersect rest inputRayID octants).2.2.2 = none →
      (sortIntoOctants intersect rest inputRayID octants).2.1 = [] ∧
      singlePass intersect flags rest inputRayID octants =
        flushAll intersect flags (sortIntoOctants intersect rest inputRayID octants).1 ∧
      queued (sortIntoOctants intersect rest inputRayID octants).1 ≤
        rest.length + queued octants) := by
  induction rest generalizing inputRayID octants with
  | nil => simp [sortIntoOctants, singlePass]
  | cons ray rest ih =>
    by_cases h1 : Flt.gt ray.tnear ray.tfar = true
    · have hs : skipped intersect ray = true := by simp [skipped, h1]
      have e1 : sortIntoOctants intersect (ray :: rest) inputRayID octants =
          sortIntoOctants intersect rest (inputRayID + 1) octants := by
        simp [sortIntoOctants, h1]
      have e2 : singlePass intersect flags (ray :: rest) inputRayID octants =
          singlePass intersect flags rest (inputRayID + 1) octants := by
        simp [singlePass, hs]
      rw [e1, e2]
      have := ih (inputRayID + 1) octants
      refine ⟨fun o ho => ⟨(this.1 o ho).1, ?_⟩, fun hn => ⟨(this.2 hn).1, (this.2 hn).2.1, ?_⟩⟩
      · have := (this.1 o ho).2
        simp only [List.length_cons]; omega
      · have := (this.2 hn).2.2
        simp only [List.length_cons]; omega
    · by_cases h2 : (!intersect && ray.geomID == 0) = true
      · have hs : skipped intersect ray = true := by
          simp only [skipped, h2, Bool.or_true]
        have e1 : sortIntoOctants intersect (ray :: rest) inputRayID octants =
            sortIntoOctants intersect rest (inputRayID + 1) octants := by
          simp only [sortIntoOctants, h1, h2, if_true, if_false, Bool.false_eq_true]
        have e2 : singlePass intersect flags (ray :: rest) inputRayID octants =
            singlePass intersect flags rest (inputRayID + 1) octants := by
          simp [singlePass, hs]
        rw [e1, e2]
        have := ih (inputRayID + 1) octants
        refine ⟨fun o ho => ⟨(this.1 o ho).1, ?_⟩,
          fun hn => ⟨(this.2 hn).1, (this.2 hn).2.1, ?_⟩⟩
        · have := (this.1 o ho).2
          simp only [List.length_cons]; omega
        · have := (this.2 hn).2.2
          simp only [List.length_cons]; omega
      · have hs : skipped intersect ray = false := by
          simp only [skipped]
          simp only [Bool.not_eq_true] at h1 h2
          rw [h1, h2]; rfl
        have hq := queued_update octants (octantID ray)
          (octants (octantID ray) ++ [inputRayID]) (octantID_lt ray)
        simp only [List.length_append, List.length_singleton] at hq
        by_cases hfull : (Function.update octants (octantID ray)
            (octants (octantID ray) ++ [inputRayID]) (octantID ray)).length = MAX_RAYS_PER_OCTANT
        · have e1 : sortIntoOctants intersect (ray :: rest) inputRayID octants =
              (Function.update octants (octantID ray) (octants (octantID ray) ++ [inputRayID]),
                rest, inputRayID + 1, some (octantID ray)) := by
            simp only [sortIntoOctants, h1, h2, if_false, Bool.false_eq_true, hfull, if_true]
          have e2 : singlePass intersect flags (ray :: rest) inputRayID octants =
              (octantID ray, dispatchAOS intersect flags (Function.update octants (octantID ray)
                  (octants (octantID ray) ++ [inputRayID]) (octantID ray))) ::
                singlePass intersect flags rest (inputRayID + 1)
                  (Function.update (Function.update octants (octantID ray)
                    (octants (octantID ray) ++ [inputRayID])) (octantID ray) []) := by
            simp only [singlePass, hs, if_false, Bool.false_eq_true, hfull, if_true]
          rw [e1, e2]
          refine ⟨fun o ho => ?_, fun hn => by simp at hn⟩
          have ho' : octantID ray = o := by simpa using ho
          subst ho'
          refine ⟨rfl, ?_⟩
          have hq2 := queued_update (Function.update octants (octantID ray)
            (octants (octantID ray) ++ [inputRayID])) (octantID ray) [] (octantID_lt ray)
          simp only [Function.update_same, List.length_append, List.length_singleton,
            List.length_nil] at hq2
          simp only [List.length_cons]
          omega
        · have e1 : sortIntoOctants intersect (ray :: rest) inputRayID octants =
              sortIntoOctants intersect rest (inputRayID + 1)
                (Function.update octants (octantID ray)
                  (octants (octantID ray) ++ [inputRayID])) := by
            simp only [sortIntoOctants, h1, h2, if_false, Bool.false_eq_true, hfull]
          have e2 : singlePass intersect flags (ray :: rest) inputRayID octants =
              singlePass intersect flags rest (inputRayID + 1)
                (Function.update octants (octantID ray)
                  (octants (octantID ray) ++ [inputRayID])) := by
            simp only [singlePass, hs, if_false, Bool.false_eq_true, hfull]
          rw [e1, e2]
          have := ih (inputRayID + 1) (Function.update octants (octantID ray)
                  (octants (octantID ray) ++ [inputRayID]))
          refine ⟨fun o ho => ⟨(this.1 o ho).1, ?_⟩,
            fun hn => ⟨(this.2 hn).1, (this.2 hn).2.1, ?_⟩⟩
          · have := (this.1 o ho).2
            simp only [List.length_cons]; omega
          · have := (this.2 hn).2.2
            simp only [List.length_cons]; omega

/-- The `while(1)` loop computes the single pass, and reaches its `break`,
whenever its budget exceeds the number of rays not yet dispatched. -/
theorem filterAOSLoop_eq {R : Type} [LinearOrderedRing R] (intersect : Bool) (flags : Nat)
    (fuel : Nat) (rest : List (Ray R)) (inputRayID : Nat) (octants : Nat → List Nat)
    (h : rest.length + queued octants < fuel) :
    filterAOSLoop intersect flags fuel rest inputRayID octants =
      ((singlePass intersect flags rest inputRayID octants).map Prod.snd, true) := by
  induction fuel generalizing rest inputRayID octants with
  | zero => omega
  | succ fuel ih =>
    have hspec := sortIntoOctants_spec intersect flags rest inputRayID octants
    unfold filterAOSLoop
    cases hc : (sortIntoOctants intersect rest inputRayID octants).2.2.2 with
    | some o =>
      have h1 := hspec.1 o hc
      simp only [hc]
      rw [ih _ _ _ (by omega), h1.1]
      simp
    | none =>
      have h1 := hspec.2 hc
      simp only [hc]
      cases hf : firstNonEmpty (sortIntoOctants intersect rest inputRayID octants).1 with
      | none =>
        simp only []
        rw [h1.2.1, flushAll_none _ _ _ hf]
        simp
      | some o =>
        simp only []
        have hfo := firstNonEmpty_some _ _ hf
        have hq := queued_update (sortIntoOctants intersect rest inputRayID octants).1 o []
          hfo.1
        simp only [List.length_nil] at hq
        rw [ih _ _ _ (by rw [h1.1]; simp only [List.length_nil]; omega), h1.2.1,
          flushAll_first _ _ _ _ hf, h1.1]
        simp [singlePass]

theorem queued_empty : queued (fun _ => []) = 0 := by
  simp [queued]

/-- The loop of `filterAOS` always reaches its `break`, and its scene calls are
those of the single pass. -/
theorem filterAOS_eq {R : Type} [LinearOrderedRing R] (rayN : List (Ray R)) (flags : Nat)
    (intersect : Bool) :
    filterAOS rayN flags intersect =
      ((singlePass intersect flags rayN 0 (fun _ => [])).map Prod.snd, true) := by
  unfold filterAOS
  exact filterAOSLoop_eq _ _ _ _ _ _ (by rw [queued_empty]; omega)

end RayStream

/-! ### filterAOS: what the single pass dispatches -/

namespace RayStream

theorem dispatchAOS_rays (intersect : Bool) (flags : Nat) (l : List Nat) :
    (dispatchAOS intersect flags l).rays = l := by
  unfold dispatchAOS
  by_cases h : l.length = 1
  · obtain ⟨a, rfl⟩ := List.length_eq_one.1 h
    cases intersect <;> simp [SceneCall.rays]
  · cases intersect <;> simp [h, SceneCall.rays]

theorem dispatchAOS_count (intersect : Bool) (flags : Nat) (l : List Nat) :
    (dispatchAOS intersect flags l).count = l.length := by
  unfold dispatchAOS
  by_cases h : l.length = 1
  · cases intersect <;> simp [h, SceneCall.count]
  · cases intersect <;> simp [h, SceneCall.count]

theorem dispatchAOS_isScalar (intersect : Bool) (flags : Nat) (l : List Nat) :
    (dispatchAOS intersect flags l).isScalar = decide (l.length = 1) := by
  unfold dispatchAOS
  by_cases h : l.length = 1
  · cases intersect <;> simp [h, SceneCall.isScalar]
  · cases intersect <;> simp [h, SceneCall.isScalar]

/-- Every dispatch of the single pass empties a bucket that holds between 1 and
`MAX_RAYS_PER_OCTANT` slots, all of rays of the octant of that bucket. -/
theorem singlePass_buckets {R : Type} [LinearOrderedRing R] (rayN : List (Ray R))
    (intersect : Bool) (flags : Nat) (rest : List (Ray R)) (inputRayID : Nat)
    (octants : Nat → List Nat)
    (hrest : ∀ k ray, rest[k]? = some ray → rayN[inputRayID + k]? = some ray)
    (hb : ∀ o j, j ∈ octants o → octantOf rayN j = some o)
    (hsz : ∀ o, (octants o).length < MAX_RAYS_PER_OCTANT) :
    ∀ p ∈ singlePass intersect flags rest inputRayID octants,
      ∃ l, p.2 = dispatchAOS intersect flags l ∧ l ≠ [] ∧ l.length ≤ MAX_RAYS_PER_OCTANT ∧
        ∀ j ∈ l, octantOf rayN j = some p.1 := by
  induction rest generalizing inputRayID octants with
  | nil =>
    intro p hp
    simp only [singlePass, flushAll, List.mem_flatMap, List.mem_range] at hp
    obtain ⟨o, -, hp⟩ := hp
    by_cases hne : (octants o).length != 0
    · simp only [hne, if_true, List.mem_singleton] at hp
      subst hp
      refine ⟨octants o, rfl, ?_, Nat.le_of_lt (hsz o), fun j hj => hb o j hj⟩
      intro h0
      simp [h0] at hne
    · simp [hne] at hp
  | cons ray rest ih =>
    have hrest' : ∀ k r, rest[k]? = some r → rayN[inputRayID + 1 + k]? = some r := by
      intro k r hk
      have := hrest (k + 1) r (by simpa using hk)
      rw [← this]
      congr 1
      omega
    by_cases hs : skipped intersect ray = true
    · simp only [singlePass, hs, if_true]
      exact ih _ _ hrest' hb hsz
    · have hray : octantOf rayN inputRayID = some (octantID ray) := by
        have := hrest 0 ray (by simp)
        simp only [Nat.add_zero] at this
        simp [octantOf, this]
      have hb1 : ∀ o j, j ∈ Function.update octants (octantID ray)
          (octants (octantID ray) ++ [inputRayID]) o → octantOf rayN j = some o := by
        intro o j hj
        by_cases ho : o = octantID ray
        · subst ho
          simp only [Function.update_same, List.mem_append, List.mem_singleton] at hj
          rcases hj with hj | hj
          · exact hb _ _ hj
          · rw [hj]; exact hray
        · simp only [Function.update_noteq ho] at hj
          exact hb _ _ hj
      simp only [singlePass, hs, if_false, Bool.false_eq_true]
      by_cases hfull : (Function.update octants (octantID ray)
          (octants (octantID ray) ++ [inputRayID]) (octantID ray)).length = MAX_RAYS_PER_OCTANT
      · simp only [hfull, if_true]
        intro p hp
        rcases List.mem_cons.1 hp with hp | hp
        · subst hp
          refine ⟨_, rfl, ?_, Nat.le_of_eq hfull, fun j hj => hb1 _ j hj⟩
          simp
        · refine ih _ _ hrest' ?_ ?_ p hp
          · intro o j hj
            by_cases ho : o = octantID ray
            · subst ho
              simp at hj
            · simp only [Function.update_noteq ho] at hj
              exact hb _ _ hj
          · intro o
            by_cases ho : o = octantID ray
            · subst ho
              simp [MAX_RAYS_PER_OCTANT]
            · simp only [Function.update_noteq ho]
              exact hsz o
      · simp only [hfull, if_false]
        refine ih _ _ hrest' hb1 ?_
        intro o
        by_cases ho : o = octantID ray
        · subst ho
          have := hsz (octantID ray)
          simp only [Function.update_same, List.length_append, List.length_singleton] at hfull ⊢
          omega
        · simp only [Function.update_noteq ho]
          exact hsz o


theorem pending_eq (octants : Nat → List Nat) :
    pending octants = octants 0 ++ octants 1 ++ octants 2 ++ octants 3 ++ octants 4 ++
      octants 5 ++ octants 6 ++ octants 7 := by
  simp [pending, List.range_succ]

theorem pending_update_count (octants : Nat → List Nat) (o : Nat) (v : List Nat) (ho : o < 8)
    (a : Nat) :
    (pending (Function.update octants o v)).count a + (octants o).count a =
      (pending octants).count a + v.count a := by
  rw [pending_eq, pending_eq]
  interval_cases o <;> simp [Function.update, List.count_append] <;> omega

theorem flushAll_rays (intersect : Bool) (flags : Nat) (octants : Nat → List Nat) :
    (flushAll intersect flags octants).flatMap (fun p => p.2.rays) = pending octants := by
  unfold flushAll pending
  rw [List.flatMap_assoc]
  apply List.flatMap_congr
  intro o _
  by_cases h : (octants o).length != 0
  · simp [h, dispatchAOS_rays]
  · have : octants o = [] := by simpa using h
    simp [this]

/-- Counting slots: the dispatches of the single pass carry what the buckets hold
plus the slots of the rays still to come that are not skipped. -/
theorem singlePass_count {R : Type} [LinearOrderedRing R] (intersect : Bool) (flags : Nat)
    (rest : List (Ray R)) (inputRayID : Nat) (octants : Nat → List Nat) (a : Nat) :
    ((singlePass intersect flags rest inputRayID octants).flatMap (fun p => p.2.rays)).count a =
      (pending octants).count a + (kept intersect rest inputRayID).count a := by
  induction rest generalizing inputRayID octants with
  | nil => simp [singlePass, flushAll_rays, kept]
  | cons ray rest ih =>
    by_cases hs : skipped intersect ray = true
    · simp only [singlePass, kept, hs, if_true]
      exact ih _ _
    · have hq := pending_update_count octants (octantID ray)
        (octants (octantID ray) ++ [inputRayID]) (octantID_lt ray) a
      simp only [singlePass, kept, hs, if_false, Bool.false_eq_true]
      by_cases hfull : (Function.update octants (octantID ray)
          (octants (octantID ray) ++ [inputRayID]) (octantID ray)).length = MAX_RAYS_PER_OCTANT
      · have hq2 := pending_update_count (Function.update octants (octantID ray)
          (octants (octantID ray) ++ [inputRayID])) (octantID ray) [] (octantID_lt ray) a
        simp only [hfull, if_true, List.flatMap_cons, List.count_append, ih,
          dispatchAOS_rays]
        simp only [Function.update_same, List.count_append, List.count_nil,
          List.count_cons, List.count_singleton] at hq hq2 ⊢
        omega
      · simp only [hfull, if_false, ih]
        simp only [List.count_append, List.count_cons, List.count_nil,
          List.count_singleton] at hq ⊢
        omega

theorem kept_count_lt {R : Type} [LinearOrderedRing R] (intersect : Bool)
    (rest : List (Ray R)) (inputRayID a : Nat) (h : a < inputRayID) :
    (kept intersect rest inputRayID).count a = 0 := by
  induction rest generalizing inputRayID with
  | nil => simp [kept]
  | cons ray rest ih =>
    have := ih (inputRayID + 1) (by omega)
    by_cases hs : skipped intersect ray = true
    · simp [kept, hs, this]
    · have hne : inputRayID ≠ a := by omega
      simp [kept, hs, this, List.count_cons, hne]

/-- The slot of a ray still to come is kept once if the ray is not skipped, and
not at all if it is. -/
theorem kept_count {R : Type} [LinearOrderedRing R] (intersect : Bool)
    (rest : List (Ray R)) (inputRayID k : Nat) (ray : Ray R) (h : rest[k]? = some ray) :
    (kept intersect rest inputRayID).count (inputRayID + k) =
      if skipped intersect ray then 0 else 1 := by
  induction rest generalizing inputRayID k with
  | nil => simp at h
  | cons r rest ih =>
    cases k with
    | zero =>
      have hr : r = ray := by simpa using h
      subst hr
      have := kept_count_lt intersect rest (inputRayID + 1) inputRayID (by omega)
      by_cases hs : skipped intersect r = true
      · simp [kept, hs, this]
      · simp [kept, hs, this]
    | succ k =>
      have h' : rest[k]? = some ray := by simpa using h
      have := ih (inputRayID + 1) k h'
      have e : inputRayID + 1 + k = inputRayID + (k + 1) := by omega
      rw [e] at this
      by_cases hs : skipped intersect r = true
      · simp only [kept, hs, if_true]
        exact this
      · have hne : inputRayID ≠ inputRayID + (k + 1) := by omega
        simp only [kept, hs, if_false, Bool.false_eq_true, List.count_cons, this]
        simp [hne]

end RayStream

/-! ### filterAOS: the dispatches of one octant -/

namespace RayStream

theorem packetSizes_small (m : Nat) (h : m < MAX_RAYS_PER_OCTANT) :
    packetSizes m = if m = 0 then [] else [m] := by
  unfold packetSizes
  unfold MAX_RAYS_PER_OCTANT at *
  have h1 : m / (8 * 8) = 0 := by omega
  have h2 : m % (8 * 8) = m := by omega
  simp [h1, h2]

theorem packetSizes_add (e : Nat) :
    packetSizes (MAX_RAYS_PER_OCTANT + e) = MAX_RAYS_PER_OCTANT :: packetSizes e := by
  unfold packetSizes
  unfold MAX_RAYS_PER_OCTANT
  have h1 : (8 * 8 + e) / (8 * 8) = e / (8 * 8) + 1 := by omega
  have h2 : (8 * 8 + e) % (8 * 8) = e % (8 * 8) := by omega
  rw [h1, h2, List.replicate_succ]
  rfl

theorem packetSizes_length (k : Nat) : (packetSizes k).length = (k + 63) / 64 := by
  unfold packetSizes MAX_RAYS_PER_OCTANT
  by_cases h : k % (8 * 8) = 0
  · simp only [h, if_true, List.append_nil, List.length_replicate]; omega
  · simp only [h, if_false, List.length_append, List.length_replicate, List.length_singleton]
    omega

/-- The final flushes tagged with bucket `o`: the one of bucket `o`, if not empty. -/
theorem flush_filter (intersect : Bool) (flags : Nat) (l : List Nat) (hl : l.Nodup)
    (octants : Nat → List Nat) (o : Nat) :
    (l.flatMap (fun i =>
        if (octants i).length != 0 then [(i, dispatchAOS intersect flags (octants i))]
        else [])).filter (fun p => p.1 == o) =
      if o ∈ l ∧ (octants o).length ≠ 0 then [(o, dispatchAOS intersect flags (octants o))]
      else [] := by
  induction l with
  | nil => simp
  | cons a l ih =>
    have hnd := List.nodup_cons.1 hl
    rw [List.flatMap_cons, List.filter_append, ih hnd.2]
    by_cases hao : a = o
    · subst hao
      by_cases hne : (octants a).length != 0
      · have hne' : (octants a).length ≠ 0 := by simpa using hne
        simp [hne, hnd.1, hne']
      · have hne' : ¬ (octants a).length ≠ 0 := by simpa using hne
        simp [hne, hne']
    · have hoa : ¬ o = a := fun h => hao h.symm
      by_cases hne : (octants a).length != 0
      · simp [hne, hao, hoa]
      · simp [hne, hoa]

/-- The dispatches that empty bucket `o` carry, in order, the slots the bucket
holds followed by those of the eligible rays of octant `o` still to come, in
packets of `MAX_RAYS_PER_OCTANT` and a remainder. -/
theorem singlePass_octant {R : Type} [LinearOrderedRing R] (intersect : Bool) (flags : Nat)
    (o : Nat) (ho : o < 8) (rest : List (Ray R)) (inputRayID : Nat) (octants : Nat → List Nat)
    (hsz : (octants o).length < MAX_RAYS_PER_OCTANT) :
    (((singlePass intersect flags rest inputRayID octants).filter (fun p => p.1 == o)).flatMap
        (fun p => p.2.rays) = octants o ++ eligible intersect o rest inputRayID) ∧
    (((singlePass intersect flags rest inputRayID octants).filter (fun p => p.1 == o)).map
        (fun p => p.2.count) =
      packetSizes ((octants o).length + (eligible intersect o rest inputRayID).length)) := by
  induction rest generalizing inputRayID octants with
  | nil =>
    have hmem : o ∈ List.range 8 := List.mem_range.2 ho
    simp only [singlePass, flushAll, eligible, List.append_nil, List.length_nil, Nat.add_zero]
    rw [flush_filter intersect flags (List.range 8) (List.nodup_range 8) octants o,
      packetSizes_small _ hsz]
    by_cases hne : (octants o).length = 0
    · have : octants o = [] := List.length_eq_zero.1 hne
      simp [hne, this]
    · simp [hne, hmem, dispatchAOS_rays, dispatchAOS_count]
  | cons ray rest ih =>
    by_cases hs : skipped intersect ray = true
    · simp only [singlePass, eligible, hs, if_true, Bool.not_true, Bool.false_and,
        Bool.false_eq_true, if_false]
      exact ih _ _ hsz
    · have hs' : skipped intersect ray = false := by simpa using hs
      simp only [singlePass, hs, if_false, Bool.false_eq_true]
      by_cases hoct : octantID ray = o
      · subst hoct
        have hel : eligible intersect (octantID ray) (ray :: rest) inputRayID =
            inputRayID :: eligible intersect (octantID ray) rest (inputRayID + 1) := by
          simp [eligible, hs']
        rw [hel]
        by_cases hfull : (Function.update octants (octantID ray)
            (octants (octantID ray) ++ [inputRayID]) (octantID ray)).length = MAX_RAYS_PER_OCTANT
        · have := ih (inputRayID + 1) (Function.update (Function.update octants (octantID ray)
            (octants (octantID ray) ++ [inputRayID])) (octantID ray) []) (by
              simp [MAX_RAYS_PER_OCTANT])
          simp only [hfull, if_true, List.filter_cons, beq_self_eq_true, List.flatMap_cons,
            List.map_cons, this.1, this.2, dispatchAOS_rays, dispatchAOS_count]
          simp only [Function.update_same, List.length_append, List.length_singleton,
            List.length_nil, List.nil_append, List.append_assoc, List.singleton_append,
            Nat.zero_add, List.length_cons, true_and] at hfull ⊢
          rw [← packetSizes_add]
          congr 1
          omega
        · have := ih (inputRayID + 1) (Function.update octants (octantID ray)
            (octants (octantID ray) ++ [inputRayID])) (by
              simp only [Function.update_same, List.length_append, List.length_singleton]
                at hfull ⊢
              omega)
          simp only [hfull, if_false, this.1, this.2]
          simp only [Function.update_same, List.length_append, List.length_singleton,
            List.append_assoc, List.singleton_append, List.length_cons, List.length_nil,
            true_and]
          congr 1
          omega
      · have hel : eligible intersect o (ray :: rest) inputRayID =
            eligible intersect o rest (inputRayID + 1) := by
          simp [eligible, hoct]
        have hoct' : ¬ o = octantID ray := fun h => hoct h.symm
        rw [hel]
        by_cases hfull : (Function.update octants (octantID ray)
            (octants (octantID ray) ++ [inputRayID]) (octantID ray)).length = MAX_RAYS_PER_OCTANT
        · have := ih (inputRayID + 1) (Function.update (Function.update octants (octantID ray)
            (octants (octantID ray) ++ [inputRayID])) (octantID ray) []) (by
              simp only [Function.update_noteq hoct']; exact hsz)
          have hbeq : (octantID ray == o) = false := by simpa using hoct
          simp only [hfull, if_true, List.filter_cons, hbeq, Bool.false_eq_true, if_false,
            this.1, this.2, Function.update_noteq hoct']
          exact ⟨trivial, trivial⟩
        · have := ih (inputRayID + 1) (Function.update octants (octantID ray)
            (octants (octantID ray) ++ [inputRayID])) (by
              simp only [Function.update_noteq hoct']; exact hsz)
          simp only [hfull, if_false, this.1, this.2, Function.update_noteq hoct']
          exact ⟨trivial, trivial⟩

end RayStream

/-! ### filterAOS: completeness, homogeneity, packets -/

theorem Flt.gt_eq_false_of_le {R : Type} [LinearOrderedRing R] (a b : Flt R)
    (h : Flt.le a b = true) : Flt.gt a b = false := by
  cases a <;> cases b <;> simp_all [Flt.le, Flt.gt, Flt.lt]

theorem count_flatMap_eq_one {α β : Type} [DecidableEq β] (f : α → List β) (l : List α)
    (a : β) (h : (l.flatMap f).count a = 1) :
    ∃ pre c post, l = pre ++ c :: post ∧ (f c).count a = 1 ∧ ∀ d ∈ pre ++ post, a ∉ f d := by
  induction l with
  | nil => simp at h
  | cons x xs ih =>
    rw [List.flatMap_cons, List.count_append] at h
    by_cases hx : (f x).count a = 0
    · obtain ⟨pre, c, post, hl, hc, hrest⟩ := ih (by omega)
      refine ⟨x :: pre, c, post, by simp [hl], hc, ?_⟩
      intro d hd
      simp only [List.cons_append, List.mem_cons] at hd
      rcases hd with hd | hd
      · subst hd
        exact List.count_eq_zero.1 hx
      · exact hrest d hd
    · have h0 : (xs.flatMap f).count a = 0 := by omega
      refine ⟨[], x, xs, rfl, by omega, ?_⟩
      intro d hd ha
      have hmem : a ∈ xs.flatMap f := List.mem_flatMap.2 ⟨d, by simpa using hd, ha⟩
      exact (List.count_eq_zero.1 h0) hmem

namespace RayStream

theorem filterAOS_calls_count {R : Type} [LinearOrderedRing R] (rayN : List (Ray R))
    (flags : Nat) (intersect : Bool) (j : Nat) (ray : Ray R) (h : rayN[j]? = some ray) :
    ((filterAOS rayN flags intersect).1.flatMap SceneCall.rays).count j =
      if skipped intersect ray then 0 else 1 := by
  rw [filterAOS_eq]
  have h1 := singlePass_count intersect flags rayN 0 (fun _ => []) j
  have h2 := kept_count intersect rayN 0 j ray h
  have h3 : (pending (fun _ => ([] : List Nat))).count j = 0 := by
    rw [pending_eq]; simp
  simp only [Nat.zero_add] at h2
  simp only [List.flatMap_map]
  rw [h1, h2, h3]
  simp

end RayStream

/-- C4: for every batch given to `filterAOS` the loop runs to its end, and every
ray with `tnear <= tfar` (and, in occlusion mode, `geomID != 0`) is handed to
exactly one scene call and occurs exactly once in it, while every ray with
`tnear > tfar`, and in occlusion mode every ray with `geomID == 0`, is handed
to no call. -/
theorem RayStream.filterAOS_complete {R : Type} [LinearOrderedRing R] (rayN : List (Ray R))
    (flags : Nat) (intersect : Bool) :
    (filterAOS rayN flags intersect).2 = true ∧
    ∀ j ray, rayN[j]? = some ray →
      (Flt.le ray.tnear ray.tfar = true → (intersect = false → ray.geomID ≠ 0) →
        ∃ pre c post, (filterAOS rayN flags intersect).1 = pre ++ c :: post ∧
          c.rays.count j = 1 ∧ ∀ d ∈ pre ++ post, j ∉ d.rays) ∧
      (Flt.gt ray.tnear ray.tfar = true ∨ (intersect = false ∧ ray.geomID = 0) →
        ∀ c ∈ (filterAOS rayN flags intersect).1, j ∉ c.rays) := by
  refine ⟨by rw [filterAOS_eq], ?_⟩
  intro j ray hj
  have hcount := filterAOS_calls_count rayN flags intersect j ray hj
  refine ⟨?_, ?_⟩
  · intro hle hgeom
    have hs : skipped intersect ray = false := by
      simp only [skipped, Flt.gt_eq_false_of_le _ _ hle, Bool.false_or]
      cases intersect with
      | true => rfl
      | false => simpa using hgeom rfl
    rw [hs] at hcount
    exact count_flatMap_eq_one _ _ _ (by simpa using hcount)
  · intro hskip c hc hmem
    have hs : skipped intersect ray = true := by
      rcases hskip with h | ⟨h1, h2⟩
      · simp [skipped, h]
      · simp [skipped, h1, h2]
    rw [hs] at hcount
    have h0 := List.count_eq_zero.1 (by simpa using hcount)
    exact h0 (List.mem_flatMap.2 ⟨c, hc, hmem⟩)

/-- C4 on the batch `(+,+,+)`, invalid, `(-,+,+)`: slot 2 is valid and handed
over once, slot 1 is invalid and never handed over. -/
theorem RayStream.filterAOS_complete_witness :
    (Flt.le Example.rayNPP.tnear Example.rayNPP.tfar = true ∧
      ∃ pre c post,
        (filterAOS [Example.rayPPP, Example.rayInvalid, Example.rayNPP] 0 true).1
          = pre ++ c :: post ∧
        c.rays.count 2 = 1 ∧ ∀ d ∈ pre ++ post, 2 ∉ d.rays) ∧
    (Flt.gt Example.rayInvalid.tnear Example.rayInvalid.tfar = true ∧
      ∀ c ∈ (filterAOS [Example.rayPPP, Example.rayInvalid, Example.rayNPP] 0 true).1,
        1 ∉ c.rays) :=
  ⟨⟨by decide,
    ((RayStream.filterAOS_complete [Example.rayPPP, Example.rayInvalid, Example.rayNPP] 0
      true).2 2 Example.rayNPP (by decide)).1 (by decide) (by decide)⟩,
   ⟨by decide,
    ((RayStream.filterAOS_complete [Example.rayPPP, Example.rayInvalid, Example.rayNPP] 0
      true).2 1 Example.rayInvalid (by decide)).2 (Or.inl (by decide))⟩⟩

/-! ### filterSOA / filterSOP: the sorting path -/

namespace RayStream

theorem call_mem_flushBucket (intersect : Bool) (flags : Nat) (l : List Nat) (c : SceneCall)
    (h : StreamEvent.call c ∈ flushBucket intersect flags l) :
    c = (if intersect then SceneCall.intersectN l l.length flags
      else SceneCall.occludedN l l.length flags) := by
  simpa [flushBucket] using h

/-- Every scene call of the scan is a batched call on a bucket whose offsets all
have the octant of that bucket. -/
theorem sortStream_calls (layout : RayLayout) (intersect : Bool) (flags : Nat)
    (offsets : List Nat) (octants : Nat → List Nat)
    (hb : ∀ o j, j ∈ octants o → layout.getOctant j = o) :
    (∀ o j, j ∈ (sortStream layout intersect flags offsets octants).1 o →
      layout.getOctant j = o) ∧
    ∀ c, StreamEvent.call c ∈ (sortStream layout intersect flags offsets octants).2 →
      ∃ o l, (∀ j ∈ l, layout.getOctant j = o) ∧ l.length = MAX_RAYS_PER_OCTANT ∧
        c = (if intersect then SceneCall.intersectN l l.length flags
          else SceneCall.occludedN l l.length flags) := by
  induction offsets generalizing octants with
  | nil => exact ⟨by simpa [sortStream] using hb, by simp [sortStream]⟩
  | cons offset rest ih =>
    by_cases hv : layout.isValid offset = true
    · have hb1 : ∀ o j, j ∈ Function.update octants (layout.getOctant offset)
          (octants (layout.getOctant offset) ++ [offset]) o → layout.getOctant j = o := by
        intro o j hj
        by_cases ho : o = layout.getOctant offset
        · subst ho
          simp only [Function.update_same, List.mem_append, List.mem_singleton] at hj
          rcases hj with hj | hj
          · exact hb _ _ hj
          · rw [hj]
        · simp only [Function.update_noteq ho] at hj
          exact hb _ _ hj
      by_cases hfull : (Function.update octants (layout.getOctant offset)
          (octants (layout.getOctant offset) ++ [offset]) (layout.getOctant offset)).length
            = MAX_RAYS_PER_OCTANT
      · have hb2 : ∀ o j, j ∈ Function.update (Function.update octants
            (layout.getOctant offset) (octants (layout.getOctant offset) ++ [offset]))
            (layout.getOctant offset) [] o → layout.getOctant j = o := by
          intro o j hj
          by_cases ho : o = layout.getOctant offset
          · subst ho
            simp at hj
          · simp only [Function.update_noteq ho] at hj
            exact hb _ _ hj
        have := ih _ hb2
        simp only [sortStream, hv, Bool.not_true, Bool.false_eq_true, if_false, hfull, if_true]
        refine ⟨this.1, ?_⟩
        intro c hc
        rcases List.mem_append.1 hc with hc | hc
        · exact ⟨_, _, fun j hj => hb1 _ j hj, hfull, call_mem_flushBucket _ _ _ _ hc⟩
        · exact this.2 c hc
      · simp only [sortStream, hv, Bool.not_true, Bool.false_eq_true, if_false, hfull]
        exact ih _ hb1
    · simp only [sortStream, hv, Bool.not_false, if_true]
      exact ih _ hb

/-- Every scene call of the sorting path of `filterSOA` / `filterSOP` is a batched
call (never a scalar one) on offsets of one octant. -/
theorem filterSorted_calls (layout : RayLayout) (N streams stream_offset flags : Nat)
    (intersect : Bool) (c : SceneCall)
    (hc : StreamEvent.call c ∈ filterSorted layout N streams stream_offset flags intersect) :
    ∃ o l, (∀ j ∈ l, layout.getOctant j = o) ∧ l ≠ [] ∧
      c = (if intersect then SceneCall.intersectN l l.length flags
        else SceneCall.occludedN l l.length flags) := by
  have hs := sortStream_calls layout intersect flags (streamOffsets N streams stream_offset)
    (fun _ => []) (by simp)
  unfold filterSorted at hc
  rcases List.mem_append.1 hc with hc | hc
  · obtain ⟨o, l, h1, h2, h3⟩ := hs.2 c hc
    refine ⟨o, l, h1, ?_, h3⟩
    intro hl
    rw [hl] at h2
    simp [MAX_RAYS_PER_OCTANT] at h2
  · simp only [flushRemaining, List.mem_flatMap, List.mem_range] at hc
    obtain ⟨o, -, hc⟩ := hc
    by_cases hne : ((sortStream layout intersect flags (streamOffsets N streams stream_offset)
        (fun _ => [])).1 o).length != 0
    · simp only [hne, if_true] at hc
      refine ⟨o, _, fun j hj => hs.1 o j hj, ?_, call_mem_flushBucket _ _ _ _ hc⟩
      intro hl
      simp [hl] at hne
    · simp [hne] at hc

theorem filterAOS_calls {R : Type} [LinearOrderedRing R] (rayN : List (Ray R))
    (flags : Nat) (intersect : Bool) :
    ∀ p ∈ singlePass intersect flags rayN 0 (fun _ => []),
      ∃ l, p.2 = dispatchAOS intersect flags l ∧ l ≠ [] ∧ l.length ≤ MAX_RAYS_PER_OCTANT ∧
        ∀ j ∈ l, octantOf rayN j = some p.1 :=
  singlePass_buckets rayN intersect flags rayN 0 (fun _ => [])
    (fun k ray h => by simpa using h) (by simp) (by simp [MAX_RAYS_PER_OCTANT])

end RayStream

/-- C5: every dispatch of the octant-sorting path is octant-homogeneous. In
`filterAOS` all rays of a call have the same `octantID`; in `filterSOA` and
`filterSOP`, when `flags` is not the coherent flag, all rays of a call have the
same `getOctant`. -/
theorem RayStream.dispatch_octant_homogeneous {R : Type} [LinearOrderedRing R] :
    (∀ (rayN : List (Ray R)) (flags : Nat) (intersect : Bool),
      ∀ c ∈ (filterAOS rayN flags intersect).1,
        ∃ o, o < 8 ∧ ∀ j ∈ c.rays, ∃ ray, rayN[j]? = some ray ∧ octantID ray = o) ∧
    (∀ (COHERENT VSIZEX : Nat) (layout : RayLayout) (N streams stream_offset flags : Nat)
      (intersect : Bool), flags ≠ COHERENT →
      ∀ c, StreamEvent.call c ∈
          filterSOA COHERENT VSIZEX layout N streams stream_offset flags intersect →
        ∃ o, ∀ j ∈ c.rays, layout.getOctant j = o) ∧
    (∀ (COHERENT VSIZEX : Nat) (layout : RayLayout) (N streams stream_offset flags : Nat)
      (intersect : Bool), flags ≠ COHERENT →
      ∀ c, StreamEvent.call c ∈
          filterSOP COHERENT VSIZEX layout N streams stream_offset flags intersect →
        ∃ o, ∀ j ∈ c.rays, layout.getOctant j = o) := by
  refine ⟨?_, ?_, ?_⟩
  · intro rayN flags intersect c hc
    rw [filterAOS_eq] at hc
    obtain ⟨p, hp, rfl⟩ := List.mem_map.1 hc
    obtain ⟨l, h1, h2, -, h4⟩ := filterAOS_calls rayN flags intersect p hp
    have h0 : ∃ j, j ∈ l := List.exists_mem_of_ne_nil l h2
    refine ⟨p.1, ?_, ?_⟩
    · obtain ⟨j, hj⟩ := h0
      have := h4 j hj
      simp only [octantOf, Option.map_eq_some'] at this
      obtain ⟨ray, -, hr⟩ := this
      rw [← hr]
      exact octantID_lt ray
    · intro j hj
      rw [h1, dispatchAOS_rays] at hj
      have := h4 j hj
      simpa [octantOf] using this
  · intro COHERENT VSIZEX layout N streams stream_offset flags intersect hf c hc
    simp only [filterSOA, hf, if_false] at hc
    obtain ⟨o, l, h1, -, h3⟩ := filterSorted_calls _ _ _ _ _ _ c hc
    refine ⟨o, ?_⟩
    subst h3
    cases intersect <;> simpa [SceneCall.rays] using h1
  · intro COHERENT VSIZEX layout N streams stream_offset flags intersect hf c hc
    simp only [filterSOP, hf, if_false] at hc
    obtain ⟨o, l, h1, -, h3⟩ := filterSorted_calls _ _ _ _ _ _ c hc
    refine ⟨o, ?_⟩
    subst h3
    cases intersect <;> simpa [SceneCall.rays] using h1

/-- C5 on a two-stream batch of ten rays per stream taking the sorting path. -/
theorem RayStream.dispatch_octant_homogeneous_witness :
    (0 : Nat) ≠ 1 ∧
    ∀ c, StreamEvent.call c ∈ filterSOA 1 4 Example.layout 10 2 100 0 true →
      ∃ o, ∀ j ∈ c.rays, Example.layout.getOctant j = o :=
  ⟨by decide,
   (@RayStream.dispatch_octant_homogeneous Int _).2.1 1 4 Example.layout 10 2 100 0 true
     (by decide)⟩

/-- C6, as stated, fails for `filterSOA` and `filterSOP`: on a batch whose only
valid ray sits at offset 4, the bucket is flushed holding exactly one ray and is
dispatched through `intersectN`, not through the scalar `intersect`. -/
theorem RayStream.single_ray_bucket_batched :
    (filterSOA 1 4 Example.layout 2 1 0 0 true =
      [.gather 4, .call (.intersectN [4] 1 0), .scatter 4]) ∧
    (filterSOP 1 4 Example.layout 2 1 0 0 true =
      [.gather 4, .call (.intersectN [4] 1 0), .scatter 4]) ∧
    ¬ (∀ c, StreamEvent.call c ∈ filterSOA 1 4 Example.layout 2 1 0 0 true →
        c.rays.length = 1 → c.isScalar = true) ∧
    ¬ (∀ c, StreamEvent.call c ∈ filterSOP 1 4 Example.layout 2 1 0 0 true →
        c.rays.length = 1 → c.isScalar = true) := by
  refine ⟨by decide, by decide, ?_, ?_⟩
  · intro h
    have := h (.intersectN [4] 1 0) (by decide) (by decide)
    simp [SceneCall.isScalar] at this
  · intro h
    have := h (.intersectN [4] 1 0) (by decide) (by decide)
    simp [SceneCall.isScalar] at this

/-- C6 (amended): in `filterAOS` a bucket flushed while holding exactly one ray is
dispatched through the scalar entry point, and the scalar entry point is used
for such buckets only; in the sorting path of `filterSOA` and `filterSOP` every
flushed bucket goes through the batched entry point. -/
theorem RayStream.scalar_dispatch_only_in_filterAOS {R : Type} [LinearOrderedRing R] :
    (∀ (rayN : List (Ray R)) (flags : Nat) (intersect : Bool),
      ∀ c ∈ (filterAOS rayN flags intersect).1,
        (c.rays.length = 1 → c.isScalar = true) ∧
        (c.isScalar = true → c.rays.length = 1)) ∧
    (∀ (COHERENT VSIZEX : Nat) (layout : RayLayout) (N streams stream_offset flags : Nat)
      (intersect : Bool), flags ≠ COHERENT →
      ∀ c, StreamEvent.call c ∈
          filterSOA COHERENT VSIZEX layout N streams stream_offset flags intersect →
        c.isScalar = false) ∧
    (∀ (COHERENT VSIZEX : Nat) (layout : RayLayout) (N streams stream_offset flags : Nat)
      (intersect : Bool), flags ≠ COHERENT →
      ∀ c, StreamEvent.call c ∈
          filterSOP COHERENT VSIZEX layout N streams stream_offset flags intersect →
        c.isScalar = false) := by
  refine ⟨?_, ?_, ?_⟩
  · intro rayN flags intersect c hc
    rw [filterAOS_eq] at hc
    obtain ⟨p, hp, rfl⟩ := List.mem_map.1 hc
    obtain ⟨l, h1, -, -, -⟩ := filterAOS_calls rayN flags intersect p hp
    rw [h1, dispatchAOS_rays, dispatchAOS_isScalar]
    simp
  · intro COHERENT VSIZEX layout N streams stream_offset flags intersect hf c hc
    simp only [filterSOA, hf, if_false] at hc
    obtain ⟨o, l, -, -, h3⟩ := filterSorted_calls _ _ _ _ _ _ c hc
    subst h3
    cases intersect <;> rfl
  · intro COHERENT VSIZEX layout N streams stream_offset flags intersect hf c hc
    simp only [filterSOP, hf, if_false] at hc
    obtain ⟨o, l, -, -, h3⟩ := filterSorted_calls _ _ _ _ _ _ c hc
    subst h3
    cases intersect <;> rfl

/-- C6 (amended) on concrete batches: the lone `(-,+,+)` ray of an array-of-structs
batch goes through the scalar entry point; the calls of a stream batch do not. -/
theorem RayStream.scalar_dispatch_only_in_filterAOS_witness :
    (SceneCall.intersect 1 ∈
        (filterAOS [Example.rayPPP, Example.rayNPP, Example.rayPPP] 0 true).1 ∧
      ((SceneCall.intersect 1).rays.length = 1 → (SceneCall.intersect 1).isScalar = true)) ∧
    ((0 : Nat) ≠ 1 ∧
      ∀ c, StreamEvent.call c ∈ filterSOA 1 4 Example.layout 2 1 0 0 true →
        c.isScalar = false) :=
  ⟨⟨by decide,
    ((@RayStream.scalar_dispatch_only_in_filterAOS Int _).1
      [Example.rayPPP, Example.rayNPP, Example.rayPPP] 0 true (SceneCall.intersect 1)
      (by decide)).1⟩,
   ⟨by decide,
    (@RayStream.scalar_dispatch_only_in_filterAOS Int _).2.1 1 4 Example.layout 2 1 0 0 true
      (by decide)⟩⟩

/-! ### filterAOS: packets per octant -/

namespace RayStream

/-- When the inner loop stops on a full bucket, that bucket holds
`MAX_RAYS_PER_OCTANT` slots, the last of which is the ray read last; the rays
after it have not been read. -/
theorem sortIntoOctants_full {R : Type} [LinearOrderedRing R] (intersect : Bool)
    (rest : List (Ray R)) (inputRayID : Nat) (octants : Nat → List Nat) (o : Nat)
    (h : (sortIntoOctants intersect rest inputRayID octants).2.2.2 = some o) :
    ((sortIntoOctants intersect rest inputRayID octants).1 o).length = MAX_RAYS_PER_OCTANT ∧
    ((sortIntoOctants intersect rest inputRayID octants).1 o).getLast? =
      some ((sortIntoOctants intersect rest inputRayID octants).2.2.1 - 1) ∧
    inputRayID < (sortIntoOctants intersect rest inputRayID octants).2.2.1 ∧
    (sortIntoOctants intersect rest inputRayID octants).2.1 =
      rest.drop ((sortIntoOctants intersect rest inputRayID octants).2.2.1 - inputRayID) := by
  induction rest generalizing inputRayID octants with
  | nil => simp [sortIntoOctants] at h
  | cons ray rest ih =>
    have hdrop : ∀ n, inputRayID + 1 < n →
        rest.drop (n - (inputRayID + 1)) = (ray :: rest).drop (n - inputRayID) := by
      intro n hn
      have : n - inputRayID = (n - (inputRayID + 1)) + 1 := by omega
      rw [this, List.drop_succ_cons]
    by_cases h1 : Flt.gt ray.tnear ray.tfar = true
    · have e1 : sortIntoOctants intersect (ray :: rest) inputRayID octants =
          sortIntoOctants intersect rest (inputRayID + 1) octants := by
        simp [sortIntoOctants, h1]
      rw [e1] at h ⊢
      obtain ⟨a, b, c, d⟩ := ih _ _ h
      exact ⟨a, b, by omega, by rw [d]; exact hdrop _ c⟩
    · by_cases h2 : (!intersect && ray.geomID == 0) = true
      · have e1 : sortIntoOctants intersect (ray :: rest) inputRayID octants =
            sortIntoOctants intersect rest (inputRayID + 1) octants := by
          simp only [sortIntoOctants, h1, h2, if_true, if_false, Bool.false_eq_true]
        rw [e1] at h ⊢
        obtain ⟨a, b, c, d⟩ := ih _ _ h
        exact ⟨a, b, by omega, by rw [d]; exact hdrop _ c⟩
      · by_cases hfull : (Function.update octants (octantID ray)
            (octants (octantID ray) ++ [inputRayID]) (octantID ray)).length = MAX_RAYS_PER_OCTANT
        · have e1 : sortIntoOctants intersect (ray :: rest) inputRayID octants =
              (Function.update octants (octantID ray) (octants (octantID ray) ++ [inputRayID]),
                rest, inputRayID + 1, some (octantID ray)) := by
            simp only [sortIntoOctants, h1, h2, if_false, Bool.false_eq_true, hfull, if_true]
          rw [e1] at h ⊢
          have ho : octantID ray = o := by simpa using h
          subst ho
          refine ⟨hfull, ?_, by simp, ?_⟩
          · simp
          · simp
        · have e1 : sortIntoOctants intersect (ray :: rest) inputRayID octants =
              sortIntoOctants intersect rest (inputRayID + 1)
                (Function.update octants (octantID ray)
                  (octants (octantID ray) ++ [inputRayID])) := by
            simp only [sortIntoOctants, h1, h2, if_false, Bool.false_eq_true, hfull]
          rw [e1] at h ⊢
          obtain ⟨a, b, c, d⟩ := ih _ _ h
          exact ⟨a, b, by omega, by rw [d]; exact hdrop _ c⟩

theorem callsFor_eq {R : Type} [LinearOrderedRing R] (rayN : List (Ray R))
    (flags : Nat) (intersect : Bool) (o : Nat) :
    callsFor rayN o (filterAOS rayN flags intersect).1 =
      ((singlePass intersect flags rayN 0 (fun _ => [])).filter (fun p => p.1 == o)).map
        Prod.snd := by
  rw [filterAOS_eq]
  unfold callsFor
  rw [List.filter_map]
  congr 1
  apply List.filter_congr
  intro p hp
  obtain ⟨l, h1, h2, -, h4⟩ := filterAOS_calls rayN flags intersect p hp
  simp only [Function.comp, h1, dispatchAOS_rays]
  cases l with
  | nil => exact absurd rfl h2
  | cons a l =>
    have := h4 a (List.mem_cons_self _ _)
    simp [this]

end RayStream

/-- C7: in `filterAOS`, for an octant `o` that receives `k` eligible rays, the
dispatches carrying rays of that octant are, in order, `k / 64` dispatches of
exactly 64 rays followed by one dispatch of `k % 64` rays when that is not
zero, `ceil(k / 64)` in all; together they carry the eligible rays of the octant
in input order. A bucket is flushed as soon as it holds 64 rays: when the inner
loop stops on bucket `o`, the bucket holds 64 rays, the last of them is the ray
read last, and the rays after it are still unread; the inner loop stops without
a full bucket, so that a remainder is flushed, only when no ray is left. -/
theorem RayStream.filterAOS_packets {R : Type} [LinearOrderedRing R] (rayN : List (Ray R))
    (flags : Nat) (intersect : Bool) (o : Nat) (ho : o < 8) :
    ((callsFor rayN o (filterAOS rayN flags intersect).1).map SceneCall.count =
      List.replicate ((eligible intersect o rayN 0).length / 64) 64 ++
        (if (eligible intersect o rayN 0).length % 64 = 0 then []
         else [(eligible intersect o rayN 0).length % 64])) ∧
    ((callsFor rayN o (filterAOS rayN flags intersect).1).length =
      ((eligible intersect o rayN 0).length + 63) / 64) ∧
    ((callsFor rayN o (filterAOS rayN flags intersect).1).flatMap SceneCall.rays =
      eligible intersect o rayN 0) ∧
    (∀ c ∈ (filterAOS rayN flags intersect).1, c.count = c.rays.length) ∧
    (∀ (rest : List (Ray R)) (inputRayID : Nat) (octants : Nat → List Nat),
      (sortIntoOctants intersect rest inputRayID octants).2.2.2 = some o →
        ((sortIntoOctants intersect rest inputRayID octants).1 o).length = 64 ∧
        ((sortIntoOctants intersect rest inputRayID octants).1 o).getLast? =
          some ((sortIntoOctants intersect rest inputRayID octants).2.2.1 - 1) ∧
        inputRayID < (sortIntoOctants intersect rest inputRayID octants).2.2.1 ∧
        (sortIntoOctants intersect rest inputRayID octants).2.1 =
          rest.drop ((sortIntoOctants intersect rest inputRayID octants).2.2.1 - inputRayID)) ∧
    (∀ (rest : List (Ray R)) (inputRayID : Nat) (octants : Nat → List Nat),
      (sortIntoOctants intersect rest inputRayID octants).2.2.2 = none →
        (sortIntoOctants intersect rest inputRayID octants).2.1 = []) := by
  have hoct := singlePass_octant intersect flags o ho rayN 0 (fun _ => [])
    (by simp [MAX_RAYS_PER_OCTANT])
  simp only [List.length_nil, Nat.zero_add, List.nil_append] at hoct
  have hsizes : (callsFor rayN o (filterAOS rayN flags intersect).1).map SceneCall.count =
      packetSizes (eligible intersect o rayN 0).length := by
    rw [callsFor_eq, List.map_map, ← hoct.2]
    rfl
  refine ⟨?_, ?_, ?_, ?_, ?_, ?_⟩
  · rw [hsizes]
    rfl
  · have := congrArg List.length hsizes
    rw [List.length_map, packetSizes_length] at this
    exact this
  · rw [callsFor_eq, List.flatMap_map, ← hoct.1]
  · intro c hc
    rw [filterAOS_eq] at hc
    obtain ⟨p, hp, rfl⟩ := List.mem_map.1 hc
    obtain ⟨l, h1, -, -, -⟩ := filterAOS_calls rayN flags intersect p hp
    rw [h1, dispatchAOS_rays, dispatchAOS_count]
  · intro rest inputRayID octants h
    exact sortIntoOctants_full intersect rest inputRayID octants o h
  · intro rest inputRayID octants h
    exact ((sortIntoOctants_spec intersect flags rest inputRayID octants).2 h).1

/-- C7 on 130 rays of octant 0 followed by one of octant 1: octant 0 gets the
dispatches of 64, 64 and 2 rays. -/
theorem RayStream.filterAOS_packets_witness :
    (0 : Nat) < 8 ∧
    (callsFor (List.replicate 130 Example.rayPPP ++ [Example.rayNPP]) 0
        (filterAOS (List.replicate 130 Example.rayPPP ++ [Example.rayNPP]) 0 true).1).length =
      ((eligible true 0 (List.replicate 130 Example.rayPPP ++ [Example.rayNPP]) 0).length
        + 63) / 64 :=
  ⟨by decide,
   (RayStream.filterAOS_packets (List.replicate 130 Example.rayPPP ++ [Example.rayNPP]) 0 true
      0 (by decide)).2.1⟩

/-! ### filterAOS: the four-ray example -/

namespace RayStream

theorem movemask_and_eq (l0 l1 l2 l3 : Bool) :
    movemask l0 l1 l2 l3 &&& 0x7 =
      (if l0 then 1 else 0) + (if l1 then 2 else 0) + (if l2 then 4 else 0) := by
  cases l0 <;> cases l1 <;> cases l2 <;> cases l3 <;> decide

end RayStream

theorem Flt.lt_zero_of_gt {R : Type} [LinearOrderedRing R] (a : Flt R)
    (h : Flt.gt a Flt.zero = true) : Flt.lt a Flt.zero = false := by
  cases a <;> simp_all [Flt.gt, Flt.lt, Flt.zero]
  exact le_of_lt h

/-- C8: `filterAOS` in intersect mode on four rays, where rays 0 and 2 are valid
with direction signs `(+,+,+)`, ray 1 is valid with signs `(-,+,+)` and ray 3
has `tnear > tfar`, makes exactly two scene calls: one `intersectN` carrying
exactly rays 0 and 2, then one scalar `intersect` on ray 1; ray 3 is in no call. -/
theorem RayStream.filterAOS_four_rays {R : Type} [LinearOrderedRing R]
    (r0 r1 r2 r3 : Ray R) (flags : Nat)
    (v0 : Flt.le r0.tnear r0.tfar = true) (v1 : Flt.le r1.tnear r1.tfar = true)
    (v2 : Flt.le r2.tnear r2.tfar = true) (v3 : Flt.gt r3.tnear r3.tfar = true)
    (x0 : Flt.gt r0.dir.x Flt.zero = true) (y0 : Flt.gt r0.dir.y Flt.zero = true)
    (z0 : Flt.gt r0.dir.z Flt.zero = true)
    (x1 : Flt.lt r1.dir.x Flt.zero = true) (y1 : Flt.gt r1.dir.y Flt.zero = true)
    (z1 : Flt.gt r1.dir.z Flt.zero = true)
    (x2 : Flt.gt r2.dir.x Flt.zero = true) (y2 : Flt.gt r2.dir.y Flt.zero = true)
    (z2 : Flt.gt r2.dir.z Flt.zero = true) :
    filterAOS [r0, r1, r2, r3] flags true =
      ([SceneCall.intersectN [0, 2] 2 flags, SceneCall.intersect 1], true) := by
  have o0 : octantID r0 = 0 := by
    unfold octantID
    rw [movemask_and_eq, Flt.lt_zero_of_gt _ x0, Flt.lt_zero_of_gt _ y0, Flt.lt_zero_of_gt _ z0]
    rfl
  have o1 : octantID r1 = 1 := by
    unfold octantID
    rw [movemask_and_eq, x1, Flt.lt_zero_of_gt _ y1, Flt.lt_zero_of_gt _ z1]
    rfl
  have o2 : octantID r2 = 0 := by
    unfold octantID
    rw [movemask_and_eq, Flt.lt_zero_of_gt _ x2, Flt.lt_zero_of_gt _ y2, Flt.lt_zero_of_gt _ z2]
    rfl
  have s0 : skipped true r0 = false := by simp [skipped, Flt.gt_eq_false_of_le _ _ v0]
  have s1 : skipped true r1 = false := by simp [skipped, Flt.gt_eq_false_of_le _ _ v1]
  have s2 : skipped true r2 = false := by simp [skipped, Flt.gt_eq_false_of_le _ _ v2]
  have s3 : skipped true r3 = true := by simp [skipped, v3]
  rw [filterAOS_eq]
  simp [singlePass, s0, s1, s2, s3, o0, o1, o2, MAX_RAYS_PER_OCTANT, flushAll,
    List.range_succ, Function.update, dispatchAOS]

/-- C8 on the concrete rays of the example instance. -/
theorem RayStream.filterAOS_four_rays_witness :
    filterAOS [Example.rayPPP, Example.rayNPP, Example.rayPPP, Example.rayInvalid] 7 true =
      ([SceneCall.intersectN [0, 2] 2 7, SceneCall.intersect 1], true) :=
  RayStream.filterAOS_four_rays Example.rayPPP Example.rayNPP Example.rayPPP
    Example.rayInvalid 7 (by decide) (by decide) (by decide) (by decide) (by decide)
    (by decide) (by decide) (by decide) (by decide) (by decide) (by decide) (by decide)
    (by decide)

/-! ### Conservation of counts -/

theorem sum_map_set {α : Type} (f : α → Nat) (l : List α) (i : Nat) (x d : α)
    (h : i < l.length) :
    ((l.set i x).map f).sum + f (l.getD i d) = (l.map f).sum + f x := by
  induction l generalizing i with
  | nil => simp at h
  | cons a l ih =>
    cases i with
    | zero => simp; omega
    | succ i =>
      have := ih i (by simpa using h)
      simp only [List.set_cons_succ, List.map_cons, List.sum_cons, List.getD_cons_succ]
      omega

theorem mem_set_of {α : Type} (l : List α) (i : Nat) (x y : α) (h : y ∈ l.set i x) :
    y = x ∨ y ∈ l := by
  induction l generalizing i with
  | nil => simp at h
  | cons a l ih =>
    cases i with
    | zero =>
      simp only [List.set_cons_zero, List.mem_cons] at h ⊢
      rcases h with h | h
      · exact Or.inl h
      · exact Or.inr (Or.inr h)
    | succ i =>
      simp only [List.set_cons_succ, List.mem_cons] at h ⊢
      rcases h with h | h
      · exact Or.inr (Or.inl h)
      · rcases ih i h with h | h
        · exact Or.inl h
        · exact Or.inr (Or.inr h)

theorem getD_mem {α : Type} (l : List α) (i : Nat) (d : α) (h : i < l.length) :
    l.getD i d ∈ l := by
  rw [List.getD_eq_getElem _ _ h]
  exact List.getElem_mem h

namespace BVHBuilderSAH2

theorem largestChild_lt {R S P : Type} (b : BVHBuilderSAH2 R S P)
    (cs : List (BuildRecord R S P)) (i : Nat) (bestChild : Option Nat) (bestSize : Int)
    (k : Nat) (h0 : ∀ j, bestChild = some j → j < i)
    (h : (largestChild b cs i bestChild bestSize).1 = some k) : k < i + cs.length := by
  induction cs generalizing i bestChild bestSize with
  | nil =>
    simp only [largestChild] at h
    simpa using h0 k h
  | cons c cs ih =>
    simp only [largestChild] at h
    simp only [List.length_cons]
    split at h
    · have := ih (i + 1) bestChild bestSize (fun j hj => by have := h0 j hj; omega) h
      omega
    · split at h
      · have := ih (i + 1) (some i) _ (fun j hj => by simp at hj; omega) h
        omega
      · have := ih (i + 1) bestChild bestSize (fun j hj => by have := h0 j hj; omega) h
        omega

theorem bestChildLoop_lt {R S P : Type} [LinearOrderedRing R] (b : BVHBuilderSAH2 R S P)
    (cs : List (BuildRecord R S P)) (i : Nat) (bestChild : Option Nat) (bestSAH : Flt R)
    (k : Nat) (h0 : ∀ j, bestChild = some j → j < i)
    (h : (bestChildLoop b cs i bestChild bestSAH).1 = some k) : k < i + cs.length := by
  induction cs generalizing i bestChild bestSAH with
  | nil =>
    simp only [bestChildLoop] at h
    simpa using h0 k h
  | cons c cs ih =>
    simp only [bestChildLoop] at h
    simp only [List.length_cons]
    split at h
    · have := ih (i + 1) bestChild bestSAH (fun j hj => by have := h0 j hj; omega) h
      omega
    · split at h
      · have := ih (i + 1) (some i) _ (fun j hj => by simp at hj; omega) h
        omega
      · have := ih (i + 1) bestChild bestSAH (fun j hj => by have := h0 j hj; omega) h
        omega

theorem largeLeafStep_conserves {R S P : Type} (b : BVHBuilderSAH2 R S P) (card : S → Nat)
    (hfb : b.Conserves card b.heuristic.splitFallback) (depth n : Nat)
    (cs : List (BuildRecord R S P)) (best : Nat) (hbest : best < cs.length)
    (h : b.ChildrenSumTo card n cs) :
    b.ChildrenSumTo card n (largeLeafStep b depth cs best).1 := by
  obtain ⟨hwf, hsum⟩ := h
  have hb := hfb (cs.getD best (b.newRecord depth)).prims
  have hbm : cs.getD best (b.newRecord depth) ∈ cs := getD_mem _ _ _ hbest
  have hlast : cs.length - 1 < cs.length := by omega
  have hlm : cs.getD (cs.length - 1) (cs.getD best (b.newRecord depth)) ∈ cs :=
    getD_mem _ _ _ hlast
  refine ⟨?_, ?_⟩
  · intro c hc
    simp only [largeLeafStep, List.mem_append, List.mem_singleton] at hc
    rcases hc with hc | hc
    · rcases mem_set_of _ _ _ _ hc with hc | hc
      · subst hc
        exact hb.2.1
      · rcases mem_set_of _ _ _ _ hc with hc | hc
        · subst hc
          exact hwf _ hlm
        · exact hwf _ hc
    · subst hc
      exact hb.2.2
  · have h1 := sum_map_set b.size cs best
      (cs.getD (cs.length - 1) (cs.getD best (b.newRecord depth)))
      (b.newRecord depth) hbest
    have hlen1 : cs.length - 1 <
        (cs.set best (cs.getD (cs.length - 1) (cs.getD best (b.newRecord depth)))).length := by
      simpa using hlast
    have h2 := sum_map_set b.size
      (cs.set best (cs.getD (cs.length - 1) (cs.getD best (b.newRecord depth))))
      (cs.length - 1)
      { b.newRecord (depth + 1) with
        pinfo := (b.heuristic.splitFallback (cs.getD best (b.newRecord depth)).prims).1.1,
        prims := (b.heuristic.splitFallback (cs.getD best (b.newRecord depth)).prims).1.2 }
      (cs.getD best (b.newRecord depth)) hlen1
    have h3 : b.size ((cs.set best (cs.getD (cs.length - 1)
        (cs.getD best (b.newRecord depth)))).getD (cs.length - 1)
          (cs.getD best (b.newRecord depth))) =
        b.size (cs.getD (cs.length - 1) (cs.getD best (b.newRecord depth))) := by
      by_cases hbl : best = cs.length - 1
      · rw [hbl]
        simp [List.getD_eq_getElem?_getD, List.getElem?_set, hlast]
      · simp [List.getD_eq_getElem?_getD, List.getElem?_set, hbl]
    have hwfb := hwf _ hbm
    simp only [largeLeafStep, List.map_append, List.sum_append, List.map_cons, List.map_nil,
      List.sum_cons, List.sum_nil]
    simp only [size] at *
    omega

theorem partition_conserves {R S P : Type} [LinearOrderedRing R] (b : BVHBuilderSAH2 R S P)
    (card : S → Nat)
    (hfb : b.Conserves card b.heuristic.splitFallback)
    (hsp : ∀ sp, b.Conserves card (b.heuristic.split sp))
    (hps : ∀ sp, b.Conserves card (b.heuristic.parallel_split sp))
    (toplevel : Bool) (brecord lrecord rrecord : BuildRecord R S P) :
    b.size (b.partition toplevel brecord lrecord rrecord).2.1 +
        b.size (b.partition toplevel brecord lrecord rrecord).2.2 = card brecord.prims ∧
      card (b.partition toplevel brecord lrecord rrecord).2.1.prims =
        b.size (b.partition toplevel brecord lrecord rrecord).2.1 ∧
      card (b.partition toplevel brecord lrecord rrecord).2.2.prims =
        b.size (b.partition toplevel brecord lrecord rrecord).2.2 := by
  unfold partition
  split
  · exact hfb brecord.prims
  · split
    · exact hps brecord.split brecord.prims
    · exact hsp brecord.split brecord.prims

theorem recurseStep_conserves {R S P : Type} [LinearOrderedRing R] (b : BVHBuilderSAH2 R S P)
    (card : S → Nat)
    (hfb : b.Conserves card b.heuristic.splitFallback)
    (hsp : ∀ sp, b.Conserves card (b.heuristic.split sp))
    (hps : ∀ sp, b.Conserves card (b.heuristic.parallel_split sp))
    (toplevel : Bool) (depth n : Nat)
    (cs : List (BuildRecord R S P)) (best : Nat) (hbest : best < cs.length)
    (h : b.ChildrenSumTo card n cs) :
    b.ChildrenSumTo card n (recurseStep b toplevel depth cs best).1 := by
  obtain ⟨hwf, hsum⟩ := h
  have hp := partition_conserves b card hfb hsp hps toplevel (cs.getD best (b.newRecord depth))
    (b.newRecord (depth + 1)) (b.newRecord (depth + 1))
  have hbm : cs.getD best (b.newRecord depth) ∈ cs := getD_mem _ _ _ hbest
  refine ⟨?_, ?_⟩
  · intro c hc
    simp only [recurseStep, List.mem_append, List.mem_singleton] at hc
    rcases hc with hc | hc
    · rcases mem_set_of _ _ _ _ hc with hc | hc
      · subst hc
        exact hp.2.1
      · exact hwf _ hc
    · subst hc
      exact hp.2.2
  · have h1 := sum_map_set b.size cs best
      { (b.partition toplevel (cs.getD best (b.newRecord depth)) (b.newRecord (depth + 1))
          (b.newRecord (depth + 1))).2.1 with
        split := b.find toplevel (b.partition toplevel (cs.getD best (b.newRecord depth))
          (b.newRecord (depth + 1)) (b.newRecord (depth + 1))).2.1 }
      (b.newRecord depth) hbest
    have hwfb := hwf _ hbm
    simp only [recurseStep, List.map_append, List.sum_append, List.map_cons, List.map_nil,
      List.sum_cons, List.sum_nil]
    simp only [size] at *
    omega

theorem largeLeafRounds_conserves {R S P : Type} (b : BVHBuilderSAH2 R S P) (card : S → Nat)
    (hfb : b.Conserves card b.heuristic.splitFallback) (depth n : Nat)
    (cs : List (BuildRecord R S P)) (h : b.ChildrenSumTo card n cs) :
    b.ChildrenSumTo card n (largeLeafRounds b depth cs).1 ∧
      ∀ e ∈ (largeLeafRounds b depth cs).2, ∀ cur ch, e ≠ BuildEvent.createNode cur ch :=
  splitLoop_invariant (fun cs => (largestChild b cs 0 none 0).1) (largeLeafStep b depth)
    b.branchingFactor (b.ChildrenSumTo card n)
    (fun e : BuildEvent R S P => ∀ cur ch, e ≠ BuildEvent.createNode cur ch)
    (fun cs best hinv hsel =>
      ⟨largeLeafStep_conserves b card hfb depth n cs best
        (by simpa using largestChild_lt b cs 0 none 0 best (by simp) hsel) hinv,
       by simp [largeLeafStep]⟩)
    _ cs h

theorem recurseRounds_conserves {R S P : Type} [LinearOrderedRing R]
    (b : BVHBuilderSAH2 R S P) (card : S → Nat)
    (hfb : b.Conserves card b.heuristic.splitFallback)
    (hsp : ∀ sp, b.Conserves card (b.heuristic.split sp))
    (hps : ∀ sp, b.Conserves card (b.heuristic.parallel_split sp))
    (toplevel : Bool) (depth n : Nat)
    (cs : List (BuildRecord R S P)) (h : b.ChildrenSumTo card n cs) :
    b.ChildrenSumTo card n (recurseRounds b toplevel depth cs).1 ∧
      ∀ e ∈ (recurseRounds b toplevel depth cs).2, ∀ cur ch,
        e ≠ BuildEvent.createNode cur ch :=
  splitLoop_invariant (fun cs => (bestChildLoop b cs 0 none Flt.zero).1)
    (recurseStep b toplevel depth)
    b.branchingFactor (b.ChildrenSumTo card n)
    (fun e : BuildEvent R S P => ∀ cur ch, e ≠ BuildEvent.createNode cur ch)
    (fun cs best hinv hsel =>
      ⟨recurseStep_conserves b card hfb hsp hps toplevel depth n cs best
        (by simpa using bestChildLoop_lt b cs 0 none Flt.zero best (by simp) hsel) hinv,
       by
        intro e he cur ch
        simp only [recurseStep, List.mem_cons, List.mem_singleton, List.mem_nil_iff,
          or_false] at he
        rcases he with he | he | he
        · subst he
          unfold partition
          split
          · simp
          · split <;> simp
        · subst he
          unfold findEvent
          split <;> simp
        · subst he
          unfold findEvent
          split <;> simp⟩)
    _ cs h

theorem createLargeLeafFuel_conserves {R S P : Type} (b : BVHBuilderSAH2 R S P)
    (card : S → Nat) (hfb : b.Conserves card b.heuristic.splitFallback)
    (fuel : Nat) (current : BuildRecord R S P) (hwf : card current.prims = b.size current) :
    ∀ e ∈ (createLargeLeafFuel b fuel current).trace, ∀ cur children,
      e = BuildEvent.createNode cur children → (children.map b.size).sum = b.size cur := by
  induction fuel generalizing current with
  | zero => simp [createLargeLeafFuel]
  | succ fuel ih =>
    have hr := largeLeafRounds_conserves b card hfb current.depth (b.size current) [current]
      ⟨by simpa using hwf, by simp⟩
    unfold createLargeLeafFuel
    split
    · simp
    · split
      · simp
      · intro e he cur children hev
        rw [Outcome.andThen_done_trace] at he
        simp only [List.mem_append, List.mem_singleton] at he
        rcases he with (he | he) | he
        · exact absurd hev (hr.2 e he cur children)
        · rw [he] at hev
          simp only [BuildEvent.createNode.injEq] at hev
          rw [← hev.1, ← hev.2]
          exact hr.1.2
        · exact Outcome.forEach_trace_all
            (fun e => ∀ cur children, e = BuildEvent.createNode cur children →
              (children.map b.size).sum = b.size cur)
            _ _ (fun c hc => ih c (hr.1.1 c hc)) e he cur children hev

theorem recurse_conserves {R S P : Type} [LinearOrderedRing R] (b : BVHBuilderSAH2 R S P)
    (card : S → Nat)
    (hfb : b.Conserves card b.heuristic.splitFallback)
    (hsp : ∀ sp, b.Conserves card (b.heuristic.split sp))
    (hps : ∀ sp, b.Conserves card (b.heuristic.parallel_split sp))
    (fuel : Nat) (toplevel : Bool) (record : BuildRecord R S P)
    (hwf : card record.prims = b.size record) :
    ∀ e ∈ (recurse b fuel toplevel record).trace, ∀ cur children,
      e = BuildEvent.createNode cur children → (children.map b.size).sum = b.size cur := by
  induction fuel generalizing toplevel record with
  | zero => simp [recurse]
  | succ fuel ih =>
    have hr := recurseRounds_conserves b card hfb hsp hps toplevel record.depth
      (b.size record) [record] ⟨by simpa using hwf, by simp⟩
    unfold recurse
    split
    · exact createLargeLeafFuel_conserves b card hfb _ record hwf
    · intro e he cur children hev
      rw [Outcome.andThen_done_trace] at he
      simp only [List.mem_append, List.mem_singleton] at he
      rcases he with (he | he) | he
      · exact absurd hev (hr.2 e he cur children)
      · rw [he] at hev
        simp only [BuildEvent.createNode.injEq] at hev
        rw [← hev.1, ← hev.2]
        exact hr.1.2
      · refine Outcome.forEach_trace_all
          (fun e => ∀ cur children, e = BuildEvent.createNode cur children →
            (children.map b.size).sum = b.size cur)
          _ _ (fun c hc e he => ?_) e he cur children hev
        rw [Outcome.andThen_done_trace] at he
        simp only [List.singleton_append, List.mem_cons] at he
        rcases he with he | he
        · intro cur children hev
          rw [he] at hev
          cases hev
        · exact ih _ c (hr.1.1 c hc) e he

end BVHBuilderSAH2

/-- C9: if the fallback split, the SAH split and the parallel SAH split each
return two sides whose counts sum to the count of the set they were given, and
the record handed in counts its own set, then for every `createNode` call made
by `recurse` or by `createLargeLeaf`, on the record itself or on any record
below it and after any number of split rounds, the counts of the children
passed sum to the count of the record the node is created for. -/
theorem BVHBuilderSAH2.createNode_children_sum {R S P : Type} [LinearOrderedRing R]
    (b : BVHBuilderSAH2 R S P) (card : S → Nat)
    (hfb : b.Conserves card b.heuristic.splitFallback)
    (hsp : ∀ sp, b.Conserves card (b.heuristic.split sp))
    (hps : ∀ sp, b.Conserves card (b.heuristic.parallel_split sp))
    (record : BuildRecord R S P) (hwf : card record.prims = b.size record) :
    (∀ fuel toplevel cur children,
      BuildEvent.createNode cur children ∈ (b.recurse fuel toplevel record).trace →
        (children.map b.size).sum = b.size cur) ∧
    (∀ cur children,
      BuildEvent.createNode cur children ∈ (b.createLargeLeaf record).trace →
        (children.map b.size).sum = b.size cur) :=
  ⟨fun fuel toplevel cur children h =>
    BVHBuilderSAH2.recurse_conserves b card hfb hsp hps fuel toplevel record hwf _ h cur
      children rfl,
   fun cur children h =>
    BVHBuilderSAH2.createLargeLeafFuel_conserves b card hfb _ record hwf _ h cur children rfl⟩

/-- C9 on the range instance: the node created for ten primitives gets two
children of five primitives each. -/
theorem BVHBuilderSAH2.createNode_children_sum_witness :
    BuildEvent.createNode (Example.record 1 10)
        [{ depth := 2, prims := (0, 5), pinfo := 5, split := Split.invalid },
         { depth := 2, prims := (5, 10), pinfo := 5, split := Split.invalid }]
      ∈ ((Example.builder 2 32 8 4).createLargeLeaf (Example.record 1 10)).trace ∧
    (([{ depth := 2, prims := (0, 5), pinfo := 5, split := Split.invalid },
       { depth := 2, prims := (5, 10), pinfo := 5, split := Split.invalid }] :
        List (BuildRecord Int (Nat × Nat) Nat)).map (Example.builder 2 32 8 4).size).sum =
      (Example.builder 2 32 8 4).size (Example.record 1 10) :=
  have hmed : (Example.builder 2 32 8 4).Conserves (fun s => s.2 - s.1) Example.medianSplit :=
    fun s => by
      refine ⟨?_, rfl, rfl⟩
      show (s.1 + s.2) / 2 - s.1 + (s.2 - (s.1 + s.2) / 2) = s.2 - s.1
      omega
  ⟨by decide,
   (BVHBuilderSAH2.createNode_children_sum (Example.builder 2 32 8 4) (fun s => s.2 - s.1)
      hmed (fun _ => hmed) (fun _ => hmed) (Example.record 1 10) (by decide)).2 _ _
      (by decide)⟩

/-! ### Termination of the build recursion -/

theorem splitLoop_invariant_of_first {α ε : Type} (select : List α → Option Nat)
    (step : List α → Nat → List α × List ε) (bf : Nat) (Inv : List α → Prop)
    (hstep : ∀ cs best, Inv cs → select cs = some best → Inv (step cs best).1)
    (k : Nat) (children : List α) (best : Nat) (hsel : select children = some best)
    (h1 : Inv (step children best).1) :
    Inv (splitLoop select step bf k children).1 := by
  by_cases hlen : (step children best).1.length < bf
  · cases k with
    | zero => rw [splitLoop_zero _ _ _ _ _ hsel]; exact h1
    | succ k =>
      rw [splitLoop_succ _ _ _ _ _ _ hsel hlen]
      exact (splitLoop_invariant select step bf Inv (fun _ => True)
        (fun cs b hi hs => ⟨hstep cs b hi hs, fun _ _ => trivial⟩) k _ h1).1
  · rw [splitLoop_stop _ _ _ _ _ _ hsel hlen]; exact h1

namespace BVHBuilderSAH2

theorem largeLeafStep_depth {R S P : Type} (b : BVHBuilderSAH2 R S P) (depth : Nat)
    (cs : List (BuildRecord R S P)) (best : Nat)
    (h : ∀ c ∈ cs, c.depth = depth + 1) :
    ∀ c ∈ (largeLeafStep b depth cs best).1, c.depth = depth + 1 := by
  intro c hc
  simp only [largeLeafStep, List.mem_append, List.mem_singleton] at hc
  rcases hc with hc | hc
  · rcases mem_set_of _ _ _ _ hc with hc | hc
    · subst hc; rfl
    · rcases mem_set_of _ _ _ _ hc with hc | hc
      · subst hc
        by_cases hl : cs.length - 1 < cs.length
        · exact h _ (getD_mem _ _ _ hl)
        · have : cs = [] := by
            cases cs with
            | nil => rfl
            | cons a l => simp at hl
          subst this
          simp at hc
      · exact h _ hc
  · subst hc; rfl

theorem largeLeafRounds_no_createNode {R S P : Type} (b : BVHBuilderSAH2 R S P)
    (depth : Nat) (cs : List (BuildRecord R S P)) :
    ∀ e ∈ (largeLeafRounds b depth cs).2, ∀ cur ch, e ≠ BuildEvent.createNode cur ch :=
  (splitLoop_invariant (fun cs => (largestChild b cs 0 none 0).1) (largeLeafStep b depth)
    b.branchingFactor (fun _ => True)
    (fun e : BuildEvent R S P => ∀ cur ch, e ≠ BuildEvent.createNode cur ch)
    (fun cs best _ _ => ⟨trivial, by simp [largeLeafStep]⟩) _ cs trivial).2

theorem recurseRounds_no_createNode {R S P : Type} [LinearOrderedRing R]
    (b : BVHBuilderSAH2 R S P) (toplevel : Bool) (depth : Nat)
    (cs : List (BuildRecord R S P)) :
    ∀ e ∈ (recurseRounds b toplevel depth cs).2, ∀ cur ch,
      e ≠ BuildEvent.createNode cur ch :=
  (splitLoop_invariant (fun cs => (bestChildLoop b cs 0 none Flt.zero).1)
    (recurseStep b toplevel depth) b.branchingFactor (fun _ => True)
    (fun e : BuildEvent R S P => ∀ cur ch, e ≠ BuildEvent.createNode cur ch)
    (fun cs best _ _ => ⟨trivial, by
        intro e he cur ch
        simp only [recurseStep, List.mem_cons, List.mem_singleton, List.mem_nil_iff,
          or_false] at he
        rcases he with he | he | he
        · subst he
          unfold partition
          split
          · simp
          · split <;> simp
        · subst he
          unfold findEvent
          split <;> simp
        · subst he
          unfold findEvent
          split <;> simp⟩) _ cs trivial).2

/-- The first round of `createLargeLeaf` always runs on a record above
`maxLeafSize`, so all final children are new records one level down. -/
theorem largeLeafRounds_depth {R S P : Type} (b : BVHBuilderSAH2 R S P)
    (current : BuildRecord R S P) (h : b.maxLeafSize < b.size current) :
    ∀ c ∈ (largeLeafRounds b current.depth [current]).1, c.depth = current.depth + 1 := by
  refine splitLoop_invariant_of_first (fun cs => (largestChild b cs 0 none 0).1)
    (largeLeafStep b current.depth) b.branchingFactor
    (fun cs => ∀ c ∈ cs, c.depth = current.depth + 1)
    (fun cs best hinv _ => largeLeafStep_depth b current.depth cs best hinv)
    b.branchingFactor [current] 0 (largestChild_single b current h) ?_
  intro c hc
  simp only [largeLeafStep, List.length_singleton, Nat.sub_self, List.getD_cons_zero,
    List.set_cons_zero, List.singleton_append, List.mem_cons, List.mem_singleton,
    List.mem_nil_iff, or_false] at hc
  rcases hc with hc | hc <;> subst hc <;> rfl

end BVHBuilderSAH2

/-! ### Floats: order and rounding -/

theorem Flt.le_transitive {R : Type} [LinearOrderedRing R] (a b c : Flt R)
    (h1 : Flt.le a b = true) (h2 : Flt.le b c = true) : Flt.le a c = true := by
  cases a <;> cases b <;> cases c <;> simp_all [Flt.le]
  exact le_trans h1 h2

theorem Flt.le_of_not_le {R : Type} [LinearOrderedRing R] (a b : Flt R)
    (ha : a ≠ Flt.nan) (hb : b ≠ Flt.nan) (h : Flt.le a b = false) : Flt.le b a = true := by
  cases a <;> cases b <;> simp_all [Flt.le]
  exact le_of_lt h

theorem Flt.ne_nan_of_le_left {R : Type} [LinearOrderedRing R] (a b : Flt R)
    (h : Flt.le a b = true) : a ≠ Flt.nan := by
  cases a <;> simp_all [Flt.le]

theorem Flt.ne_nan_of_le_right {R : Type} [LinearOrderedRing R] (a b : Flt R)
    (h : Flt.le a b = true) : b ≠ Flt.nan := by
  cases a <;> cases b <;> simp_all [Flt.le]

theorem Flt.min_zero_le_zero {R : Type} [LinearOrderedRing R] (d : Flt R)
    (hd : d ≠ Flt.nan) : Flt.le (Flt.min Flt.zero d) Flt.zero = true := by
  cases d with
  | nan => exact absurd rfl hd
  | pinf => simp [Flt.min, Flt.lt, Flt.zero, Flt.le]
  | ninf => simp [Flt.min, Flt.lt, Flt.zero, Flt.le]
  | fin s =>
    simp only [Flt.min, Flt.lt, Flt.zero]
    by_cases hpos : (0 : R) < s
    · simp [hpos, Flt.le]
    · simp only [hpos, decide_False, Bool.false_eq_true, if_false, Flt.le, decide_eq_true_eq]
      exact not_lt.1 hpos

theorem Flt.le_pinf {R : Type} [LinearOrderedRing R] (a : Flt R) (h : a ≠ Flt.nan) :
    Flt.le a Flt.pinf = true := by
  cases a <;> simp_all [Flt.le]

theorem Flt.ninf_le {R : Type} [LinearOrderedRing R] (a : Flt R) (h : a ≠ Flt.nan) :
    Flt.le Flt.ninf a = true := by
  cases a <;> simp_all [Flt.le]

theorem Flt.add_nan_right {R : Type} [LinearOrderedRing R] (a : Flt R) :
    Flt.add a Flt.nan = Flt.nan := by
  cases a <;> rfl

theorem Flt.add_nan_left {R : Type} [LinearOrderedRing R] (a : Flt R) :
    Flt.add Flt.nan a = Flt.nan := by
  cases a <;> rfl

/-- A rounding never gives NaN. -/
theorem Flt.IsRounding.ne_nan {R : Type} [LinearOrderedRing R] {round : R → Flt R}
    (hr : Flt.IsRounding round) (x : R) : round x ≠ Flt.nan :=
  Flt.ne_nan_of_le_left _ _ (hr.1 x x le_rfl)

/-- A finite result of a float operation is a float: rounding leaves it as it is. -/
theorem Flt.IsRounding.rnd_fin {R : Type} [LinearOrderedRing R] {round : R → Flt R}
    (hr : Flt.IsRounding round) (x : Flt R) (c : R) (h : Flt.rnd round x = Flt.fin c) :
    round c = Flt.fin c := by
  cases x with
  | fin r => exact hr.2.2 r c h
  | pinf => simp [Flt.rnd] at h
  | ninf => simp [Flt.rnd] at h
  | nan => simp [Flt.rnd] at h

/-- The float product of two non-negative floats is non-negative, or NaN (zero
times infinity). -/
theorem Flt.IsRounding.rnd_mul_nonneg {R : Type} [LinearOrderedRing R] {round : R → Flt R}
    (hr : Flt.IsRounding round) (t h : Flt R) (ht : Flt.le Flt.zero t = true)
    (hh : Flt.le Flt.zero h = true) :
    Flt.rnd round (Flt.mul t h) = Flt.nan ∨
      Flt.le Flt.zero (Flt.rnd round (Flt.mul t h)) = true := by
  cases t with
  | nan => simp [Flt.le, Flt.zero] at ht
  | ninf => simp [Flt.le, Flt.zero] at ht
  | pinf =>
    cases h with
    | nan => simp [Flt.le, Flt.zero] at hh
    | ninf => simp [Flt.le, Flt.zero] at hh
    | pinf => right; simp [Flt.mul, Flt.rnd, Flt.le, Flt.zero]
    | fin y =>
      simp only [Flt.le, Flt.zero, decide_eq_true_eq] at hh
      by_cases h0 : 0 < y
      · right; simp [Flt.mul, Flt.scaleInf, h0, Flt.rnd, Flt.le, Flt.zero]
      · left; simp [Flt.mul, Flt.scaleInf, h0, not_lt.2 hh, Flt.rnd]
  | fin x =>
    simp only [Flt.le, Flt.zero, decide_eq_true_eq] at ht
    cases h with
    | nan => simp [Flt.le, Flt.zero] at hh
    | ninf => simp [Flt.le, Flt.zero] at hh
    | pinf =>
      by_cases h0 : 0 < x
      · right; simp [Flt.mul, Flt.scaleInf, h0, Flt.rnd, Flt.le, Flt.zero]
      · left; simp [Flt.mul, Flt.scaleInf, h0, not_lt.2 ht, Flt.rnd]
    | fin y =>
      simp only [Flt.le, Flt.zero, decide_eq_true_eq] at hh
      right
      have := hr.1 0 (x * y) (mul_nonneg ht hh)
      rw [hr.2.1] at this
      exact this

/-- Adding a non-negative float does not lower a float: a lower bound of `b2`
is a lower bound of the float sum `b1 + b2`, unless the sum is NaN. -/
theorem Flt.IsRounding.le_rnd_add {R : Type} [LinearOrderedRing R] {round : R → Flt R}
    (hr : Flt.IsRounding round) (a b1 b2 : Flt R) (h1 : Flt.le Flt.zero b1 = true)
    (h2 : ∀ c, b2 = Flt.fin c → round c = Flt.fin c) (ha : Flt.le a b2 = true)
    (hb : Flt.rnd round (Flt.add b1 b2) ≠ Flt.nan) :
    Flt.le a (Flt.rnd round (Flt.add b1 b2)) = true := by
  have han : a ≠ Flt.nan := Flt.ne_nan_of_le_left _ _ ha
  cases b1 with
  | nan => simp [Flt.le, Flt.zero] at h1
  | ninf => simp [Flt.le, Flt.zero] at h1
  | pinf =>
    cases b2 with
    | nan => exact absurd rfl (Flt.ne_nan_of_le_right _ _ ha)
    | ninf => simp [Flt.add, Flt.rnd] at hb
    | pinf => simpa [Flt.add, Flt.rnd] using Flt.le_pinf a han
    | fin c => simpa [Flt.add, Flt.rnd] using Flt.le_pinf a han
  | fin x =>
    simp only [Flt.le, Flt.zero, decide_eq_true_eq] at h1
    cases b2 with
    | nan => exact absurd rfl (Flt.ne_nan_of_le_right _ _ ha)
    | ninf => simpa [Flt.add, Flt.rnd] using ha
    | pinf => simpa [Flt.add, Flt.rnd] using Flt.le_pinf a han
    | fin c =>
      simp only [Flt.add, Flt.rnd]
      have h3 := hr.1 c (x + c) (le_add_of_nonneg_left h1)
      rw [h2 c rfl] at h3
      exact Flt.le_transitive _ _ _ ha h3

/-- The float product with a positive cost is monotone: if the float difference
`s - l` is positive, the product `i * l` is at most the product `i * s`, unless
one of them is NaN. -/
theorem Flt.IsRounding.rnd_mul_mono {R : Type} [LinearOrderedRing R] {round : R → Flt R}
    (hr : Flt.IsRounding round) (i l s : Flt R) (hi : Flt.lt Flt.zero i = true)
    (ha : Flt.rnd round (Flt.mul i l) ≠ Flt.nan)
    (hb : Flt.rnd round (Flt.mul i s) ≠ Flt.nan)
    (hd : Flt.rnd round (Flt.sub s l) ≠ Flt.nan)
    (hpos : Flt.le (Flt.rnd round (Flt.sub s l)) Flt.zero = false) :
    Flt.le (Flt.rnd round (Flt.mul i l)) (Flt.rnd round (Flt.mul i s)) = true := by
  have hlt : ∀ x y : R, Flt.le (round (x + -y)) Flt.zero = false → y < x := by
    intro x y h
    by_contra hn
    have h0 : x + -y ≤ 0 := by
      rw [← sub_eq_add_neg]
      exact sub_nonpos.2 (not_lt.1 hn)
    have := hr.1 _ _ h0
    rw [hr.2.1] at this
    rw [Flt.zero, this] at h
    cases h
  cases s with
  | nan => cases i <;> simp [Flt.mul, Flt.rnd] at hb
  | ninf =>
    cases l with
    | nan => cases i <;> simp [Flt.mul, Flt.rnd] at ha
    | ninf => simp [Flt.sub, Flt.neg, Flt.add, Flt.rnd] at hd
    | pinf => simp [Flt.sub, Flt.neg, Flt.add, Flt.rnd, Flt.le, Flt.zero] at hpos
    | fin y => simp [Flt.sub, Flt.neg, Flt.add, Flt.rnd, Flt.le, Flt.zero] at hpos
  | pinf =>
    cases l with
    | nan => cases i <;> simp [Flt.mul, Flt.rnd] at ha
    | pinf => simp [Flt.sub, Flt.neg, Flt.add, Flt.rnd] at hd
    | ninf =>
      cases i with
      | nan => simp [Flt.lt, Flt.zero] at hi
      | ninf => simp [Flt.lt, Flt.zero] at hi
      | pinf => simp [Flt.mul, Flt.rnd, Flt.le]
      | fin c =>
        simp only [Flt.lt, Flt.zero, decide_eq_true_eq] at hi
        simp [Flt.mul, Flt.scaleInf, hi, Flt.rnd, Flt.le]
    | fin y =>
      cases i with
      | nan => simp [Flt.lt, Flt.zero] at hi
      | ninf => simp [Flt.lt, Flt.zero] at hi
      | pinf =>
        have : Flt.rnd round (Flt.mul Flt.pinf Flt.pinf) = Flt.pinf := rfl
        rw [this]
        exact Flt.le_pinf _ ha
      | fin c =>
        simp only [Flt.lt, Flt.zero, decide_eq_true_eq] at hi
        have : Flt.rnd round (Flt.mul (Flt.fin c) Flt.pinf) = Flt.pinf := by
          simp [Flt.mul, Flt.scaleInf, hi, Flt.rnd]
        rw [this]
        exact Flt.le_pinf _ ha
  | fin x =>
    cases l with
    | nan => cases i <;> simp [Flt.mul, Flt.rnd] at ha
    | pinf => simp [Flt.sub, Flt.neg, Flt.add, Flt.rnd, Flt.le, Flt.zero] at hpos
    | ninf =>
      cases i with
      | nan => simp [Flt.lt, Flt.zero] at hi
      | ninf => simp [Flt.lt, Flt.zero] at hi
      | pinf =>
        have : Flt.rnd round (Flt.mul Flt.pinf Flt.ninf) = Flt.ninf := rfl
        rw [this]
        exact Flt.ninf_le _ hb
      | fin c =>
        simp only [Flt.lt, Flt.zero, decide_eq_true_eq] at hi
        have : Flt.rnd round (Flt.mul (Flt.fin c) Flt.ninf) = Flt.ninf := by
          simp [Flt.mul, Flt.scaleInf, hi, Flt.rnd]
        rw [this]
        exact Flt.ninf_le _ hb
    | fin y =>
      have hyx : y < x := hlt x y (by simpa [Flt.sub, Flt.neg, Flt.add, Flt.rnd] using hpos)
      cases i with
      | nan => simp [Flt.lt, Flt.zero] at hi
      | ninf => simp [Flt.lt, Flt.zero] at hi
      | pinf =>
        rcases lt_trichotomy 0 y with h0 | h0 | h0
        · have h1 : 0 < x := lt_trans h0 hyx
          simp [Flt.mul, Flt.scaleInf, h0, h1, Flt.rnd, Flt.le]
        · subst h0
          simp [Flt.mul, Flt.scaleInf, Flt.rnd] at ha
        · have : Flt.rnd round (Flt.mul Flt.pinf (Flt.fin y)) = Flt.ninf := by
            simp [Flt.mul, Flt.scaleInf, h0, not_lt.2 (le_of_lt h0), Flt.rnd]
          rw [this]
          exact Flt.ninf_le _ hb
      | fin c =>
        simp only [Flt.lt, Flt.zero, decide_eq_true_eq] at hi
        simp only [Flt.mul, Flt.rnd]
        exact hr.1 _ _ (mul_le_mul_of_nonneg_left (le_of_lt hyx) (le_of_lt hi))

namespace BVHBuilderSAH2

/-- With a rounding of a float format, costs of the right sign and none of the
costs computed for the record NaN, a record that is not sent to the leaf path is
selected in the first round of the loop of `recurse`. -/
theorem first_round_selects_record {R S P : Type} [LinearOrderedRing R]
    (b : BVHBuilderSAH2 R S P) (hr : Flt.IsRounding b.round) (record : BuildRecord R S P)
    (hi : Flt.lt Flt.zero b.intCost = true) (ht : Flt.le Flt.zero b.travCost = true)
    (hh : Flt.le Flt.zero (b.info.halfArea record.pinfo) = true)
    (hcd : b.CostsDefined record.pinfo record.split.sah)
    (hleaf : b.leafTest record = false) :
    (bestChildLoop b [record] 0 none Flt.zero).1 = some 0 := by
  obtain ⟨hA, hB, hD⟩ := hcd
  simp only [leafTest, Split.splitSAH, Bool.or_eq_false_iff,
    decide_eq_false_iff_not, Bool.and_eq_false_iff] at hleaf
  obtain ⟨⟨hmin, -⟩, hcost⟩ := hleaf
  have hd : Flt.le (b.dSAH record) Flt.zero = true := by
    unfold dSAH
    simp only [Split.splitSAH]
    by_cases hbig : b.size record > b.maxLeafSize
    · simp only [hbig, if_true]
      exact Flt.min_zero_le_zero _ hD
    · simp only [hbig, if_false]
      by_contra hpos
      have hpos' : Flt.le (Flt.rnd b.round (Flt.sub record.split.sah
          (b.info.leafSAH record.pinfo b.logBlockSize))) Flt.zero = false := by
        simpa using hpos
      have hB2 : Flt.rnd b.round (Flt.mul b.intCost record.split.sah) ≠ Flt.nan := by
        intro h
        apply hB
        rw [h, Flt.add_nan_right]
        rfl
      have hAB2 := hr.rnd_mul_mono _ _ _ hi hA hB2 hD hpos'
      rcases hr.rnd_mul_nonneg _ _ ht hh with hB1 | hB1
      · apply hB
        rw [hB1, Flt.add_nan_left]
        rfl
      · have hle := hr.le_rnd_add _ _ _ hB1 (fun c hc => hr.rnd_fin _ _ hc) hAB2 hB
        rcases hcost with hcost | hcost
        · exact hcost (by omega)
        · rw [hle] at hcost
          cases hcost
  simp [bestChildLoop, hmin, hd]

theorem partition_depth {R S P : Type} [LinearOrderedRing R] (b : BVHBuilderSAH2 R S P)
    (toplevel : Bool) (br l r : BuildRecord R S P) :
    (b.partition toplevel br l r).2.1.depth = l.depth ∧
    (b.partition toplevel br l r).2.2.depth = r.depth := by
  unfold partition
  split
  · exact ⟨rfl, rfl⟩
  · split <;> exact ⟨rfl, rfl⟩

end BVHBuilderSAH2

namespace BVHBuilderSAH2

theorem andThen_done_status {R S P : Type} (t : List (BuildEvent R S P))
    (k : Outcome R S P) :
    (Outcome.andThen { trace := t, status := .done } k).status = k.status := by
  simp [Outcome.andThen]

end BVHBuilderSAH2

/-- The identity is a rounding: every value is a float. -/
theorem Flt.isRounding_fin {R : Type} [LinearOrderedRing R] :
    Flt.IsRounding (Flt.fin : R → Flt R) :=
  ⟨fun x y h => by simp [Flt.le, h], rfl, fun _ _ _ => rfl⟩

theorem splitLoop_length {α ε : Type} (select : List α → Option Nat)
    (step : List α → Nat → List α × List ε) (bf : Nat)
    (hstep : ∀ cs best, (step cs best).1.length = cs.length + 1)
    (k : Nat) (children : List α) :
    children.length ≤ (splitLoop select step bf k children).1.length ∧
      (splitLoop select step bf k children).1.length ≤ max (children.length + 1) bf := by
  induction k generalizing children with
  | zero =>
    cases hs : select children with
    | none => rw [splitLoop_none _ _ _ _ _ hs]; simp
    | some best =>
      rw [splitLoop_zero _ _ _ _ _ hs, hstep]
      exact ⟨by omega, le_max_left _ _⟩
  | succ k ih =>
    cases hs : select children with
    | none => rw [splitLoop_none _ _ _ _ _ hs]; simp
    | some best =>
      by_cases hlen : (step children best).1.length < bf
      · rw [splitLoop_succ _ _ _ _ _ _ hs hlen]
        have h := ih (step children best).1
        rw [hstep] at h hlen
        simp only [] at h ⊢
        refine ⟨by omega, ?_⟩
        have : max (children.length + 1 + 1) bf = bf := max_eq_right (by omega)
        rw [this] at h
        exact le_trans h.2 (le_max_right _ _)
      · rw [splitLoop_stop _ _ _ _ _ _ hs hlen, hstep]
        exact ⟨by omega, le_max_left _ _⟩

namespace BVHBuilderSAH2

theorem largeLeafStep_length {R S P : Type} (b : BVHBuilderSAH2 R S P) (depth : Nat)
    (cs : List (BuildRecord R S P)) (best : Nat) :
    (largeLeafStep b depth cs best).1.length = cs.length + 1 := by
  simp [largeLeafStep]

theorem recurseStep_length {R S P : Type} [LinearOrderedRing R] (b : BVHBuilderSAH2 R S P)
    (toplevel : Bool) (depth : Nat) (cs : List (BuildRecord R S P)) (best : Nat) :
    (recurseStep b toplevel depth cs best).1.length = cs.length + 1 := by
  simp [recurseStep]

/-- A property of the node created for each record by `createLargeLeaf` holds of
every `createNode` call in its trace. -/
theorem createLargeLeafFuel_nodes {R S P : Type} (b : BVHBuilderSAH2 R S P)
    (Q : BuildRecord R S P → List (BuildRecord R S P) → Prop)
    (hQ : ∀ current, current.depth ≤ b.maxDepth → b.maxLeafSize < b.size current →
      Q current (largeLeafRounds b current.depth [current]).1)
    (fuel : Nat) (current : BuildRecord R S P) :
    ∀ e ∈ (createLargeLeafFuel b fuel current).trace, ∀ cur children,
      e = BuildEvent.createNode cur children → Q cur children := by
  induction fuel generalizing current with
  | zero => simp [createLargeLeafFuel]
  | succ fuel ih =>
    unfold createLargeLeafFuel
    split
    · simp
    · rename_i hd
      split
      · simp
      · rename_i hs
        intro e he cur children hev
        rw [Outcome.andThen_done_trace] at he
        simp only [List.mem_append, List.mem_singleton] at he
        rcases he with (he | he) | he
        · exact absurd hev (largeLeafRounds_no_createNode b _ _ e he cur children)
        · rw [he] at hev
          simp only [BuildEvent.createNode.injEq] at hev
          rw [← hev.1, ← hev.2]
          exact hQ current (by omega) (by omega)
        · exact Outcome.forEach_trace_all
            (fun e => ∀ cur children, e = BuildEvent.createNode cur children → Q cur children)
            _ _ (fun c _ => ih c) e he cur children hev

/-- A property of the nodes created by `createLargeLeaf` and of the inner node
created for each record by `recurse` holds of every `createNode` call in the
trace of `recurse`. -/
theorem recurse_nodes {R S P : Type} [LinearOrderedRing R] (b : BVHBuilderSAH2 R S P)
    (Q : BuildRecord R S P → List (BuildRecord R S P) → Prop)
    (hQ : ∀ current, current.depth ≤ b.maxDepth → b.maxLeafSize < b.size current →
      Q current (largeLeafRounds b current.depth [current]).1)
    (hQ2 : ∀ toplevel record, b.leafTest record = false →
      Q record (recurseRounds b toplevel record.depth [record]).1)
    (fuel : Nat) (toplevel : Bool) (record : BuildRecord R S P) :
    ∀ e ∈ (recurse b fuel toplevel record).trace, ∀ cur children,
      e = BuildEvent.createNode cur children → Q cur children := by
  induction fuel generalizing toplevel record with
  | zero => simp [recurse]
  | succ fuel ih =>
    unfold recurse
    by_cases hleaf : b.leafTest record = true
    · rw [if_pos hleaf]
      exact createLargeLeafFuel_nodes b Q hQ _ record
    · rw [if_neg hleaf]
      intro e he cur children hev
      rw [Outcome.andThen_done_trace] at he
      simp only [List.mem_append, List.mem_singleton] at he
      rcases he with (he | he) | he
      · exact absurd hev (recurseRounds_no_createNode b _ _ _ e he cur children)
      · rw [he] at hev
        simp only [BuildEvent.createNode.injEq] at hev
        rw [← hev.1, ← hev.2]
        exact hQ2 toplevel record (by simpa using hleaf)
      · refine Outcome.forEach_trace_all
          (fun e => ∀ cur children, e = BuildEvent.createNode cur children → Q cur children)
          _ _ (fun c _ e he => ?_) e he cur children hev
        rw [Outcome.andThen_done_trace] at he
        simp only [List.singleton_append, List.mem_cons] at he
        rcases he with he | he
        · intro cur children hev
          rw [he] at hev
          cases hev
        · exact ih _ c e he

theorem largeLeafRounds_length {R S P : Type} (b : BVHBuilderSAH2 R S P) (depth : Nat)
    (cs : List (BuildRecord R S P)) :
    cs.length ≤ (largeLeafRounds b depth cs).1.length ∧
      (largeLeafRounds b depth cs).1.length ≤ max (cs.length + 1) b.branchingFactor :=
  splitLoop_length _ _ _ (largeLeafStep_length b depth) _ cs

theorem recurseRounds_length {R S P : Type} [LinearOrderedRing R] (b : BVHBuilderSAH2 R S P)
    (toplevel : Bool) (depth : Nat) (cs : List (BuildRecord R S P)) :
    cs.length ≤ (recurseRounds b toplevel depth cs).1.length ∧
      (recurseRounds b toplevel depth cs).1.length ≤ max (cs.length + 1) b.branchingFactor :=
  splitLoop_length _ _ _ (recurseStep_length b toplevel depth) _ cs

end BVHBuilderSAH2

/-- C11, as stated, fails: branching factor 1 is accepted by the constructor, and
`createLargeLeaf` on ten primitives then passes two children to `createNode`. -/
theorem BVHBuilderSAH2.createNode_exceeds_branchingFactor :
    BVHBuilderSAH2.construct Example.rangeHeuristic Example.rangeInfo (0, 0)
        (fun r => decide (r.pinfo > 4)) Flt.fin 1 32 0 8 4 (Flt.fin 1) (Flt.fin 1)
      = .ok (Example.builder 1 32 8 4) ∧
    BuildEvent.createNode (Example.record 1 10)
        [{ depth := 2, prims := (0, 5), pinfo := 5, split := Split.invalid },
         { depth := 2, prims := (5, 10), pinfo := 5, split := Split.invalid }]
      ∈ ((Example.builder 1 32 8 4).createLargeLeaf (Example.record 1 10)).trace ∧
    ¬ (([{ depth := 2, prims := (0, 5), pinfo := 5, split := Split.invalid },
         { depth := 2, prims := (5, 10), pinfo := 5, split := Split.invalid }] :
          List (BuildRecord Int (Nat × Nat) Nat)).length
        ≤ (Example.builder 1 32 8 4).branchingFactor) :=
  ⟨rfl, by decide, by decide⟩

/-- C11 (amended): the number of children passed to `createNode` by `recurse` and
by `createLargeLeaf` is at most `max(2, branchingFactor)`, since the first round
of either loop runs before the branching factor is tested; it is at most
`branchingFactor` for every branching factor of at least 2. -/
theorem BVHBuilderSAH2.createNode_children_le {R S P : Type} [LinearOrderedRing R]
    (b : BVHBuilderSAH2 R S P) (record : BuildRecord R S P) :
    (∀ fuel toplevel cur children,
      BuildEvent.createNode cur children ∈ (b.recurse fuel toplevel record).trace →
        children.length ≤ max 2 b.branchingFactor ∧
          (2 ≤ b.branchingFactor → children.length ≤ b.branchingFactor)) ∧
    (∀ cur children,
      BuildEvent.createNode cur children ∈ (b.createLargeLeaf record).trace →
        children.length ≤ max 2 b.branchingFactor ∧
          (2 ≤ b.branchingFactor → children.length ≤ b.branchingFactor)) := by
  have hmax : ∀ n : Nat, n ≤ max 2 b.branchingFactor →
      n ≤ max 2 b.branchingFactor ∧ (2 ≤ b.branchingFactor → n ≤ b.branchingFactor) := by
    intro n hn
    refine ⟨hn, fun h2 => ?_⟩
    rw [max_eq_right h2] at hn
    exact hn
  have h1 : ∀ current : BuildRecord R S P,
      (largeLeafRounds b current.depth [current]).1.length ≤ max 2 b.branchingFactor :=
    fun current => (largeLeafRounds_length b current.depth [current]).2
  have h2 : ∀ toplevel (record : BuildRecord R S P),
      (recurseRounds b toplevel record.depth [record]).1.length ≤ max 2 b.branchingFactor :=
    fun toplevel record => (recurseRounds_length b toplevel record.depth [record]).2
  refine ⟨fun fuel toplevel cur children h => hmax _ ?_, fun cur children h => hmax _ ?_⟩
  · exact recurse_nodes b (fun _ ch => ch.length ≤ max 2 b.branchingFactor)
      (fun c _ _ => h1 c) (fun t r _ => h2 t r) fuel toplevel record _ h cur children rfl
  · exact createLargeLeafFuel_nodes b (fun _ ch => ch.length ≤ max 2 b.branchingFactor)
      (fun c _ _ => h1 c) _ record _ h cur children rfl

/-- C11 (amended) on the range instance with branching factor 4: the inner node
created for seven primitives has four children. -/
theorem BVHBuilderSAH2.createNode_children_le_witness :
    2 ≤ (Example.builder 4 32 1 2).branchingFactor ∧
    BuildEvent.createNode (Example.record 1 7)
        [{ depth := 2, prims := (0, 3), pinfo := 3, split := Example.rangeFind 3 },
         { depth := 2, prims := (3, 5), pinfo := 2, split := Example.rangeFind 2 },
         { depth := 2, prims := (5, 6), pinfo := 1, split := Example.rangeFind 1 },
         { depth := 2, prims := (6, 7), pinfo := 1, split := Example.rangeFind 1 }]
      ∈ ((Example.builder 4 32 1 2).recurse 40 true (Example.record 1 7)).trace ∧
    ([{ depth := 2, prims := (0, 3), pinfo := 3, split := Example.rangeFind 3 },
      { depth := 2, prims := (3, 5), pinfo := 2, split := Example.rangeFind 2 },
      { depth := 2, prims := (5, 6), pinfo := 1, split := Example.rangeFind 1 },
      { depth := 2, prims := (6, 7), pinfo := 1, split := Example.rangeFind 1 }] :
        List (BuildRecord Int (Nat × Nat) Nat)).length
      ≤ (Example.builder 4 32 1 2).branchingFactor :=
  ⟨by decide, by decide,
   ((BVHBuilderSAH2.createNode_children_le (Example.builder 4 32 1 2)
      (Example.record 1 7)).1 40 true (Example.record 1 7)
      [{ depth := 2, prims := (0, 3), pinfo := 3, split := Example.rangeFind 3 },
       { depth := 2, prims := (3, 5), pinfo := 2, split := Example.rangeFind 2 },
       { depth := 2, prims := (5, 6), pinfo := 1, split := Example.rangeFind 1 },
       { depth := 2, prims := (6, 7), pinfo := 1, split := Example.rangeFind 1 }]
      (by decide)).2 (by decide)⟩

/-! ### The selection loop of recurse -/

namespace BVHBuilderSAH2

/-- What the selection loop of `recurse` returns, started at index `i` with the
best so far `bestChild`, `bestSAH`: the running best cost only decreases; it is
at most the delta of every child that is large enough and within the starting
bound; and either nothing was taken, or the result is the last taken child,
after which no large enough child reaches the final cost. -/
theorem bestChildLoop_spec {R S P : Type} [LinearOrderedRing R] (b : BVHBuilderSAH2 R S P)
    (cs : List (BuildRecord R S P)) (i : Nat) (bestChild : Option Nat) (bestSAH : Flt R)
    (hbs : bestSAH ≠ Flt.nan) :
    Flt.le (bestChildLoop b cs i bestChild bestSAH).2 bestSAH = true ∧
    (∀ (m : Nat) c, cs[m]? = some c → b.size c > b.minLeafSize → Flt.le (b.dSAH c) bestSAH = true →
      Flt.le (bestChildLoop b cs i bestChild bestSAH).2 (b.dSAH c) = true) ∧
    (((bestChildLoop b cs i bestChild bestSAH).1 = bestChild ∧
        (bestChildLoop b cs i bestChild bestSAH).2 = bestSAH ∧
        ∀ (m : Nat) c, cs[m]? = some c → b.size c > b.minLeafSize →
          Flt.le (b.dSAH c) bestSAH = false) ∨
      ∃ (j : Nat) (c : BuildRecord R S P), cs[j]? = some c ∧ (bestChildLoop b cs i bestChild bestSAH).1 = some (i + j) ∧
        (bestChildLoop b cs i bestChild bestSAH).2 = b.dSAH c ∧ b.size c > b.minLeafSize ∧
        ∀ (m : Nat) c', j < m → cs[m]? = some c' → b.size c' > b.minLeafSize →
          Flt.le (b.dSAH c') (b.dSAH c) = false) := by
  have hrefl : ∀ a : Flt R, a ≠ Flt.nan → Flt.le a a = true := by
    intro a ha
    cases a <;> simp_all [Flt.le]
  induction cs generalizing i bestChild bestSAH with
  | nil =>
    refine ⟨hrefl _ hbs, by simp, Or.inl ⟨rfl, rfl, by simp⟩⟩
  | cons c0 cs ih =>
    by_cases hmin : b.size c0 ≤ b.minLeafSize
    · have e : bestChildLoop b (c0 :: cs) i bestChild bestSAH =
          bestChildLoop b cs (i + 1) bestChild bestSAH := by
        simp [bestChildLoop, hmin]
      rw [e]
      obtain ⟨h1, h2, h3⟩ := ih (i + 1) bestChild bestSAH hbs
      refine ⟨h1, ?_, ?_⟩
      · intro m c hm hs hle
        cases m with
        | zero =>
          have : c0 = c := by simpa using hm
          subst this
          omega
        | succ m => exact h2 m c (by simpa using hm) hs hle
      · rcases h3 with ⟨ha, hb, hc⟩ | ⟨j, c, hj, ha, hb, hc, hd⟩
        · refine Or.inl ⟨ha, hb, ?_⟩
          intro m c hm hs
          cases m with
          | zero =>
            have : c0 = c := by simpa using hm
            subst this
            omega
          | succ m => exact hc m c (by simpa using hm) hs
        · refine Or.inr ⟨j + 1, c, by simpa using hj, by rw [ha]; congr 1; omega, hb, hc, ?_⟩
          intro m c' hjm hm hs
          cases m with
          | zero => omega
          | succ m => exact hd m c' (by omega) (by simpa using hm) hs
    · by_cases htake : Flt.le (b.dSAH c0) bestSAH = true
      · have e : bestChildLoop b (c0 :: cs) i bestChild bestSAH =
            bestChildLoop b cs (i + 1) (some i) (b.dSAH c0) := by
          simp [bestChildLoop, hmin, htake]
        rw [e]
        have hd0 : b.dSAH c0 ≠ Flt.nan := Flt.ne_nan_of_le_left _ _ htake
        obtain ⟨h1, h2, h3⟩ := ih (i + 1) (some i) (b.dSAH c0) hd0
        refine ⟨Flt.le_transitive _ _ _ h1 htake, ?_, ?_⟩
        · intro m c hm hs hle
          cases m with
          | zero =>
            have : c0 = c := by simpa using hm
            subst this
            exact h1
          | succ m =>
            by_cases hle2 : Flt.le (b.dSAH c) (b.dSAH c0) = true
            · exact h2 m c (by simpa using hm) hs hle2
            · have := Flt.le_of_not_le _ _ (Flt.ne_nan_of_le_left _ _ hle) hd0
                (by simpa using hle2)
              exact Flt.le_transitive _ _ _ h1 this
        · rcases h3 with ⟨ha, hb, hc⟩ | ⟨j, c, hj, ha, hb, hc, hd⟩
          · refine Or.inr ⟨0, c0, by simp, by simpa using ha, hb, by omega, ?_⟩
            intro m c' hjm hm hs
            cases m with
            | zero => omega
            | succ m => exact hc m c' (by simpa using hm) hs
          · refine Or.inr ⟨j + 1, c, by simpa using hj, by rw [ha]; congr 1; omega, hb, hc,
              ?_⟩
            intro m c' hjm hm hs
            cases m with
            | zero => omega
            | succ m => exact hd m c' (by omega) (by simpa using hm) hs
      · have e : bestChildLoop b (c0 :: cs) i bestChild bestSAH =
            bestChildLoop b cs (i + 1) bestChild bestSAH := by
          simp [bestChildLoop, hmin, htake]
        rw [e]
        obtain ⟨h1, h2, h3⟩ := ih (i + 1) bestChild bestSAH hbs
        refine ⟨h1, ?_, ?_⟩
        · intro m c hm hs hle
          cases m with
          | zero =>
            have : c0 = c := by simpa using hm
            subst this
            exact absurd hle htake
          | succ m => exact h2 m c (by simpa using hm) hs hle
        · rcases h3 with ⟨ha, hb, hc⟩ | ⟨j, c, hj, ha, hb, hc, hd⟩
          · refine Or.inl ⟨ha, hb, ?_⟩
            intro m c hm hs
            cases m with
            | zero =>
              have : c0 = c := by simpa using hm
              subst this
              simpa using htake
            | succ m => exact hc m c (by simpa using hm) hs
          · refine Or.inr ⟨j + 1, c, by simpa using hj, by rw [ha]; congr 1; omega, hb, hc,
              ?_⟩
            intro m c' hjm hm hs
            cases m with
            | zero => omega
            | succ m => exact hd m c' (by omega) (by simpa using hm) hs

end BVHBuilderSAH2

/-- C12, as stated, fails on ties: after the first split of eight primitives the
two children have the same delta `-1`, both are large enough, and the selection
takes index 1, not the smallest index 0. -/
theorem BVHBuilderSAH2.selection_tie_takes_last :
    ((Example.builder 4 32 1 2).recurseStep false 1 [Example.record 1 8] 0).1 =
      [{ depth := 2, prims := (0, 4), pinfo := 4, split := Example.rangeFind 4 },
       { depth := 2, prims := (4, 8), pinfo := 4, split := Example.rangeFind 4 }] ∧
    (Example.builder 4 32 1 2).dSAH
        { depth := 2, prims := (0, 4), pinfo := 4, split := Example.rangeFind 4 } =
      Flt.fin (-1) ∧
    (Example.builder 4 32 1 2).dSAH
        { depth := 2, prims := (4, 8), pinfo := 4, split := Example.rangeFind 4 } =
      Flt.fin (-1) ∧
    ((Example.builder 4 32 1 2).bestChildLoop
        [{ depth := 2, prims := (0, 4), pinfo := 4, split := Example.rangeFind 4 },
         { depth := 2, prims := (4, 8), pinfo := 4, split := Example.rangeFind 4 }]
        0 none Flt.zero).1 = some 1 ∧
    ¬ (∀ p, ((Example.builder 4 32 1 2).bestChildLoop
        [{ depth := 2, prims := (0, 4), pinfo := 4, split := Example.rangeFind 4 },
         { depth := 2, prims := (4, 8), pinfo := 4, split := Example.rangeFind 4 }]
        0 none Flt.zero).1 = some p →
      ∀ (m : Nat) (c : BuildRecord Int (Nat × Nat) Nat),
        [({ depth := 2, prims := (0, 4), pinfo := 4, split := Example.rangeFind 4 } :
            BuildRecord Int (Nat × Nat) Nat),
         { depth := 2, prims := (4, 8), pinfo := 4, split := Example.rangeFind 4 }][m]? =
          some c →
        (Example.builder 4 32 1 2).size c > (Example.builder 4 32 1 2).minLeafSize →
        Flt.le ((Example.builder 4 32 1 2).dSAH c) (Flt.fin (-1)) = true → p ≤ m) := by
  refine ⟨by decide, by decide, by decide, by decide, ?_⟩
  intro h
  have := h 1 (by decide) 0
    { depth := 2, prims := (0, 4), pinfo := 4, split := Example.rangeFind 4 }
    (by decide) (by decide) (by decide)
  omega

/-- C12 (amended): in a selection round of `recurse` over the children `cs`, the
candidates are the children whose count exceeds `minLeafSize` and whose delta
(split cost minus leaf cost, a float subtraction, clamped by `min(0, .)` when
the count exceeds `maxLeafSize`) is `<= 0`. No child is selected exactly when there is no
candidate. A selected child is a candidate whose delta is minimal among the
candidates, and among the candidates attaining that minimal delta it is the one
with the largest index (the loop tests `dSAH <= bestSAH`). -/
theorem BVHBuilderSAH2.selection_minimises_delta {R S P : Type} [LinearOrderedRing R]
    (b : BVHBuilderSAH2 R S P) (cs : List (BuildRecord R S P)) :
    (∀ c, b.dSAH c =
      if b.size c > b.maxLeafSize then
        Flt.min Flt.zero
          (Flt.rnd b.round (Flt.sub c.split.sah (b.info.leafSAH c.pinfo b.logBlockSize)))
      else Flt.rnd b.round (Flt.sub c.split.sah (b.info.leafSAH c.pinfo b.logBlockSize))) ∧
    ((bestChildLoop b cs 0 none Flt.zero).1 = none ↔
      ∀ c ∈ cs, ¬ (b.size c > b.minLeafSize ∧ Flt.le (b.dSAH c) Flt.zero = true)) ∧
    (∀ p, (bestChildLoop b cs 0 none Flt.zero).1 = some p →
      ∃ c, cs[p]? = some c ∧ b.size c > b.minLeafSize ∧ Flt.le (b.dSAH c) Flt.zero = true ∧
        ∀ (m : Nat) c', cs[m]? = some c' → b.size c' > b.minLeafSize →
          Flt.le (b.dSAH c') Flt.zero = true →
            Flt.le (b.dSAH c) (b.dSAH c') = true ∧
              (Flt.le (b.dSAH c') (b.dSAH c) = true → m ≤ p)) := by
  have hz : (Flt.zero : Flt R) ≠ Flt.nan := by simp [Flt.zero]
  obtain ⟨h1, h2, h3⟩ := bestChildLoop_spec b cs 0 none Flt.zero hz
  refine ⟨fun c => rfl, ?_, ?_⟩
  · constructor
    · intro hnone c hc
      obtain ⟨m, hm⟩ := List.getElem?_of_mem hc
      rcases h3 with ⟨-, -, hno⟩ | ⟨j, c', -, hsel, -⟩
      · rintro ⟨hs, hle⟩
        have := hno m c hm hs
        rw [hle] at this
        cases this
      · rw [hnone] at hsel
        cases hsel
    · intro hall
      rcases h3 with ⟨hsel, -, -⟩ | ⟨j, c, hj, -, hval, hs, -⟩
      · exact hsel
      · exact absurd ⟨hs, by rw [← hval]; exact h1⟩ (hall c (List.getElem?_mem hj))
  · intro p hp
    rcases h3 with ⟨hsel, -, -⟩ | ⟨j, c, hj, hsel, hval, hs, hlast⟩
    · rw [hsel] at hp
      cases hp
    · have hpj : p = j := by
        rw [hsel] at hp
        simpa using hp.symm
      subst hpj
      refine ⟨c, hj, hs, by rw [← hval]; exact h1, ?_⟩
      intro m c' hm hs' hle'
      refine ⟨by rw [← hval]; exact h2 m c' hm hs' hle', ?_⟩
      intro htie
      by_contra hlt
      have := hlast m c' (by omega) hm hs'
      rw [htie] at this
      cases this

/-- C12 (amended) on the two equal children of the range instance: index 1 is
selected, and it is a candidate. -/
theorem BVHBuilderSAH2.selection_minimises_delta_witness :
    ((Example.builder 4 32 1 2).bestChildLoop
        [{ depth := 2, prims := (0, 4), pinfo := 4, split := Example.rangeFind 4 },
         { depth := 2, prims := (4, 8), pinfo := 4, split := Example.rangeFind 4 }]
        0 none Flt.zero).1 = some 1 ∧
    ∃ c, [({ depth := 2, prims := (0, 4), pinfo := 4, split := Example.rangeFind 4 } :
            BuildRecord Int (Nat × Nat) Nat),
          { depth := 2, prims := (4, 8), pinfo := 4, split := Example.rangeFind 4 }][1]? =
          some c ∧
      (Example.builder 4 32 1 2).size c > (Example.builder 4 32 1 2).minLeafSize ∧
      Flt.le ((Example.builder 4 32 1 2).dSAH c) Flt.zero = true :=
  ⟨by decide,
   match (BVHBuilderSAH2.selection_minimises_delta (Example.builder 4 32 1 2)
      [{ depth := 2, prims := (0, 4), pinfo := 4, split := Example.rangeFind 4 },
       { depth := 2, prims := (4, 8), pinfo := 4, split := Example.rangeFind 4 }]).2.2 1
      (by decide) with
   | ⟨c, h1, h2, h3, _⟩ => ⟨c, h1, h2, h3⟩⟩

/-- C13, as stated, fails. With `maxLeafSize = 4` and `minLeafSize = 8`, the two
children of six primitives left by the first split of twelve both exceed
`maxLeafSize`, yet the next selection round finds no candidate, because they do
not exceed `minLeafSize`. A child above both sizes is not selected either when
its split cost is NaN. -/
theorem BVHBuilderSAH2.large_child_not_selected :
    ((Example.builder 4 32 8 4).recurseStep false 1 [Example.record 1 12] 0).1 =
      [{ depth := 2, prims := (0, 6), pinfo := 6, split := Example.rangeFind 6 },
       { depth := 2, prims := (6, 12), pinfo := 6, split := Example.rangeFind 6 }] ∧
    (Example.builder 4 32 8 4).size
        { depth := 2, prims := (0, 6), pinfo := 6, split := Example.rangeFind 6 } >
      (Example.builder 4 32 8 4).maxLeafSize ∧
    ((Example.builder 4 32 8 4).bestChildLoop
        [{ depth := 2, prims := (0, 6), pinfo := 6, split := Example.rangeFind 6 },
         { depth := 2, prims := (6, 12), pinfo := 6, split := Example.rangeFind 6 }]
        0 none Flt.zero).1 = none ∧
    (Example.builder 4 32 8 4).size
        { depth := 2, prims := (0, 10), pinfo := 10,
          split := { sah := Flt.nan, dim := 0, pos := 1 } } >
      (Example.builder 4 32 8 4).maxLeafSize ∧
    ((Example.builder 4 32 8 4).bestChildLoop
        [{ depth := 2, prims := (0, 10), pinfo := 10,
           split := { sah := Flt.nan, dim := 0, pos := 1 } }]
        0 none Flt.zero).1 = none := by
  refine ⟨by decide, by decide, by decide, by decide, by decide⟩

/-- C13 (amended): in every selection round of `recurse` in which some current
child has a count greater than `maxLeafSize` and greater than `minLeafSize`, and
a split-minus-leaf delta that is not NaN, a child is selected, whatever the sign
of that delta. -/
theorem BVHBuilderSAH2.large_child_forces_selection {R S P : Type} [LinearOrderedRing R]
    (b : BVHBuilderSAH2 R S P) (cs : List (BuildRecord R S P)) (c : BuildRecord R S P)
    (hc : c ∈ cs) (hmax : b.size c > b.maxLeafSize) (hmin : b.size c > b.minLeafSize)
    (hnan : Flt.rnd b.round
      (Flt.sub c.split.sah (b.info.leafSAH c.pinfo b.logBlockSize)) ≠ Flt.nan) :
    ∃ p, (bestChildLoop b cs 0 none Flt.zero).1 = some p ∧ p < cs.length := by
  have hz : (Flt.zero : Flt R) ≠ Flt.nan := by simp [Flt.zero]
  have hle : Flt.le (b.dSAH c) Flt.zero = true := by
    unfold dSAH
    simp only [hmax, if_true, Split.splitSAH]
    exact Flt.min_zero_le_zero _ hnan
  obtain ⟨m, hm⟩ := List.getElem?_of_mem hc
  cases hsel : (bestChildLoop b cs 0 none Flt.zero).1 with
  | some p => exact ⟨p, rfl, by simpa using bestChildLoop_lt b cs 0 none Flt.zero p (by simp) hsel⟩
  | none =>
    obtain ⟨-, -, h3⟩ := bestChildLoop_spec b cs 0 none Flt.zero hz
    rcases h3 with ⟨-, -, hno⟩ | ⟨j, c', -, hs, -⟩
    · have := hno m c hm hmin
      rw [hle] at this
      cases this
    · rw [hsel] at hs
      cases hs

/-- C13 (amended) on the range instance: a child of ten primitives, above
`maxLeafSize = 4` and `minLeafSize = 8`, is selected although its delta is positive. -/
theorem BVHBuilderSAH2.large_child_forces_selection_witness :
    Flt.rnd (Example.builder 4 32 8 4).round
      (Flt.sub (Flt.fin 50) ((Example.builder 4 32 8 4).info.leafSAH 10 0)) ≠ Flt.nan ∧
    ∃ p, ((Example.builder 4 32 8 4).bestChildLoop
        [{ depth := 2, prims := (0, 3), pinfo := 3, split := Example.rangeFind 3 },
         { depth := 2, prims := (0, 10), pinfo := 10,
           split := { sah := Flt.fin 50, dim := 0, pos := 1 } }]
        0 none Flt.zero).1 = some p ∧ p < 2 :=
  ⟨by decide,
   BVHBuilderSAH2.large_child_forces_selection (Example.builder 4 32 8 4)
    [{ depth := 2, prims := (0, 3), pinfo := 3, split := Example.rangeFind 3 },
     { depth := 2, prims := (0, 10), pinfo := 10,
       split := { sah := Flt.fin 50, dim := 0, pos := 1 } }]
    { depth := 2, prims := (0, 10), pinfo := 10,
      split := { sah := Flt.fin 50, dim := 0, pos := 1 } }
    (by decide) (by decide) (by decide) (by decide)⟩

/-! ### The partition step -/

theorem Flt.feq_pinf {R : Type} [LinearOrderedRing R] (a : Flt R) :
    Flt.feq a Flt.pinf = true ↔ a = Flt.pinf := by
  cases a <;> simp [Flt.feq]

/-- C14, as stated, fails: a split with `dim == -1` (not valid) and a finite cost
is routed through the SAH split, and a split with `dim == 0` (valid) and cost
`+inf` is routed through the fallback splitter. -/
theorem BVHBuilderSAH2.partition_ignores_valid :
    Split.valid ({ sah := Flt.fin 5, dim := -1, pos := 0 } : Split Int) = false ∧
    ((Example.builder 4 32 1 2).partition false
        { depth := 1, prims := (0, 8), pinfo := 8,
          split := { sah := Flt.fin 5, dim := -1, pos := 0 } }
        ((Example.builder 4 32 1 2).newRecord 2) ((Example.builder 4 32 1 2).newRecord 2)).1 =
      (BuildEvent.split { sah := Flt.fin 5, dim := -1, pos := 0 } (0, 8) :
        BuildEvent Int (Nat × Nat) Nat) ∧
    Split.valid ({ sah := Flt.pinf, dim := 0, pos := 3 } : Split Int) = true ∧
    ((Example.builder 4 32 1 2).partition false
        { depth := 1, prims := (0, 8), pinfo := 8,
          split := { sah := Flt.pinf, dim := 0, pos := 3 } }
        ((Example.builder 4 32 1 2).newRecord 2) ((Example.builder 4 32 1 2).newRecord 2)).1 =
      (BuildEvent.splitFallback (0, 8) : BuildEvent Int (Nat × Nat) Nat) := by
  refine ⟨by decide, by decide, by decide, by decide⟩

/-- C14 (amended): the partition step routes a record through the fallback
splitter exactly when the cost `sah` of its split is `+inf`, whatever `dim` is,
and otherwise through the heuristic's SAH split (`parallel_split` at top level,
`split` below); the two sides are what the method called returns. For a split
whose cost is `+inf` exactly when `dim == -1`, as for the default-constructed
invalid split, this is the fallback splitter exactly when the split is not valid. -/
theorem BVHBuilderSAH2.partition_routes_by_sah {R S P : Type} [LinearOrderedRing R]
    (b : BVHBuilderSAH2 R S P) (toplevel : Bool) (brecord lrecord rrecord : BuildRecord R S P) :
    (brecord.split.sah = Flt.pinf →
      b.partition toplevel brecord lrecord rrecord =
        (.splitFallback brecord.prims,
          { lrecord with pinfo := (b.heuristic.splitFallback brecord.prims).1.1,
                         prims := (b.heuristic.splitFallback brecord.prims).1.2 },
          { rrecord with pinfo := (b.heuristic.splitFallback brecord.prims).2.1,
                         prims := (b.heuristic.splitFallback brecord.prims).2.2 })) ∧
    (brecord.split.sah ≠ Flt.pinf → toplevel = true →
      b.partition toplevel brecord lrecord rrecord =
        (.parallel_split brecord.split brecord.prims,
          { lrecord with
              pinfo := (b.heuristic.parallel_split brecord.split brecord.prims).1.1,
              prims := (b.heuristic.parallel_split brecord.split brecord.prims).1.2 },
          { rrecord with
              pinfo := (b.heuristic.parallel_split brecord.split brecord.prims).2.1,
              prims := (b.heuristic.parallel_split brecord.split brecord.prims).2.2 })) ∧
    (brecord.split.sah ≠ Flt.pinf → toplevel = false →
      b.partition toplevel brecord lrecord rrecord =
        (.split brecord.split brecord.prims,
          { lrecord with pinfo := (b.heuristic.split brecord.split brecord.prims).1.1,
                         prims := (b.heuristic.split brecord.split brecord.prims).1.2 },
          { rrecord with pinfo := (b.heuristic.split brecord.split brecord.prims).2.1,
                         prims := (b.heuristic.split brecord.split brecord.prims).2.2 })) ∧
    ((b.partition toplevel brecord lrecord rrecord).1 = .splitFallback brecord.prims ↔
      brecord.split.sah = Flt.pinf) ∧
    ((brecord.split.sah = Flt.pinf ↔ brecord.split.dim = -1) →
      ((b.partition toplevel brecord lrecord rrecord).1 = .splitFallback brecord.prims ↔
        brecord.split.valid = false)) := by
  have hf := Flt.feq_pinf brecord.split.sah
  have hneg : brecord.split.sah ≠ Flt.pinf → Flt.feq brecord.split.sah Flt.pinf = false := by
    intro h
    cases hq : Flt.feq brecord.split.sah Flt.pinf with
    | false => rfl
    | true => exact absurd (hf.1 hq) h
  have h1 : brecord.split.sah = Flt.pinf →
      b.partition toplevel brecord lrecord rrecord =
        (.splitFallback brecord.prims,
          { lrecord with pinfo := (b.heuristic.splitFallback brecord.prims).1.1,
                         prims := (b.heuristic.splitFallback brecord.prims).1.2 },
          { rrecord with pinfo := (b.heuristic.splitFallback brecord.prims).2.1,
                         prims := (b.heuristic.splitFallback brecord.prims).2.2 }) := by
    intro h
    unfold partition
    simp only [hf.2 h, if_true]
  have h2 : brecord.split.sah ≠ Flt.pinf → toplevel = true →
      b.partition toplevel brecord lrecord rrecord =
        (.parallel_split brecord.split brecord.prims,
          { lrecord with
              pinfo := (b.heuristic.parallel_split brecord.split brecord.prims).1.1,
              prims := (b.heuristic.parallel_split brecord.split brecord.prims).1.2 },
          { rrecord with
              pinfo := (b.heuristic.parallel_split brecord.split brecord.prims).2.1,
              prims := (b.heuristic.parallel_split brecord.split brecord.prims).2.2 }) := by
    intro h ht
    unfold partition
    simp only [hneg h, ht, if_true, if_false, Bool.false_eq_true]
  have h3 : brecord.split.sah ≠ Flt.pinf → toplevel = false →
      b.partition toplevel brecord lrecord rrecord =
        (.split brecord.split brecord.prims,
          { lrecord with pinfo := (b.heuristic.split brecord.split brecord.prims).1.1,
                         prims := (b.heuristic.split brecord.split brecord.prims).1.2 },
          { rrecord with pinfo := (b.heuristic.split brecord.split brecord.prims).2.1,
                         prims := (b.heuristic.split brecord.split brecord.prims).2.2 }) := by
    intro h ht
    unfold partition
    simp only [hneg h, ht, if_false, Bool.false_eq_true]
  have hiff : (b.partition toplevel brecord lrecord rrecord).1 = .splitFallback brecord.prims ↔
      brecord.split.sah = Flt.pinf := by
    constructor
    · intro hev
      by_contra h
      cases ht : toplevel with
      | true => rw [h2 h ht] at hev; cases hev
      | false => rw [h3 h ht] at hev; cases hev
    · intro h
      rw [h1 h]
  refine ⟨h1, h2, h3, hiff, ?_⟩
  intro hcoupled
  rw [hiff, hcoupled]
  simp [Split.valid]

/-- C14 (amended) on the default-constructed invalid split, whose cost is `+inf`
and whose `dim` is `-1`: the record goes through the fallback splitter. -/
theorem BVHBuilderSAH2.partition_routes_by_sah_witness :
    (Split.invalid : Split Int).sah = Flt.pinf ∧
    (Example.builder 4 32 1 2).partition true
        { depth := 1, prims := (0, 8), pinfo := 8, split := Split.invalid }
        ((Example.builder 4 32 1 2).newRecord 2) ((Example.builder 4 32 1 2).newRecord 2) =
      (.splitFallback (0, 8),
        { depth := 2, prims := (0, 4), pinfo := 4, split := Split.invalid },
        { depth := 2, prims := (4, 8), pinfo := 4, split := Split.invalid }) :=
  ⟨rfl,
   (BVHBuilderSAH2.partition_routes_by_sah (Example.builder 4 32 1 2) true
      { depth := 1, prims := (0, 8), pinfo := 8, split := Split.invalid }
      ((Example.builder 4 32 1 2).newRecord 2) ((Example.builder 4 32 1 2).newRecord 2)).1
      rfl⟩

/-! ### The rounds of createLargeLeaf -/

/-- With enough budget, the loop ends because no child was found or because the
branching factor is reached. -/
theorem splitLoop_final {α ε : Type} (select : List α → Option Nat)
    (step : List α → Nat → List α × List ε) (bf : Nat)
    (hstep : ∀ cs best, (step cs best).1.length = cs.length + 1)
    (k : Nat) (children : List α) (hk : bf ≤ children.length + 1 + k) :
    select (splitLoop select step bf k children).1 = none ∨
      bf ≤ (splitLoop select step bf k children).1.length := by
  induction k generalizing children with
  | zero =>
    cases hs : select children with
    | none => rw [splitLoop_none _ _ _ _ _ hs]; exact Or.inl hs
    | some best =>
      rw [splitLoop_zero _ _ _ _ _ hs, hstep]
      exact Or.inr (by omega)
  | succ k ih =>
    cases hs : select children with
    | none => rw [splitLoop_none _ _ _ _ _ hs]; exact Or.inl hs
    | some best =>
      by_cases hlen : (step children best).1.length < bf
      · rw [splitLoop_succ _ _ _ _ _ _ hs hlen]
        exact ih _ (by rw [hstep]; omega)
      · rw [splitLoop_stop _ _ _ _ _ _ hs hlen]
        exact Or.inr (by omega)

/-- The result of the loop does not depend on the budget once it is enough. -/
theorem splitLoop_budget {α ε : Type} (select : List α → Option Nat)
    (step : List α → Nat → List α × List ε) (bf : Nat)
    (hstep : ∀ cs best, (step cs best).1.length = cs.length + 1)
    (k k' : Nat) (children : List α) (hk : bf ≤ children.length + 1 + k)
    (hk' : bf ≤ children.length + 1 + k') :
    splitLoop select step bf k children = splitLoop select step bf k' children := by
  induction k generalizing children k' with
  | zero =>
    cases hs : select children with
    | none => rw [splitLoop_none _ _ _ _ _ hs, splitLoop_none _ _ _ _ _ hs]
    | some best =>
      have hlen : ¬ (step children best).1.length < bf := by rw [hstep]; omega
      rw [splitLoop_zero _ _ _ _ _ hs, splitLoop_stop _ _ _ _ _ _ hs hlen]
  | succ k ih =>
    cases hs : select children with
    | none => rw [splitLoop_none _ _ _ _ _ hs, splitLoop_none _ _ _ _ _ hs]
    | some best =>
      by_cases hlen : (step children best).1.length < bf
      · cases k' with
        | zero => rw [hstep] at hlen; omega
        | succ k' =>
          rw [splitLoop_succ _ _ _ _ _ _ hs hlen, splitLoop_succ _ _ _ _ _ _ hs hlen,
            ih k' _ (by rw [hstep]; omega) (by rw [hstep]; omega)]
      · rw [splitLoop_stop _ _ _ _ _ _ hs hlen, splitLoop_stop _ _ _ _ _ _ hs hlen]

namespace BVHBuilderSAH2

/-- What the selection loop of `createLargeLeaf` returns, started at index `i`
with the best so far `bestChild`, `bestSize`, when the counts fit the `int`. -/
theorem largestChild_spec {R S P : Type} (b : BVHBuilderSAH2 R S P)
    (cs : List (BuildRecord R S P)) (i : Nat) (bestChild : Option Nat) (bestSize : Nat)
    (hb : bestSize < 2 ^ 31) (hcs : ∀ c ∈ cs, b.size c < 2 ^ 31) :
    (bestSize : Int) ≤ (largestChild b cs i bestChild bestSize).2 ∧
    (∀ (m : Nat) c, cs[m]? = some c → b.size c > b.maxLeafSize →
      (b.size c : Int) ≤ (largestChild b cs i bestChild bestSize).2) ∧
    (((largestChild b cs i bestChild bestSize).1 = bestChild ∧
        (largestChild b cs i bestChild bestSize).2 = bestSize) ∨
      ∃ (j : Nat) (c : BuildRecord R S P), cs[j]? = some c ∧
        (largestChild b cs i bestChild bestSize).1 = some (i + j) ∧
        (largestChild b cs i bestChild bestSize).2 = (b.size c : Int) ∧
        b.size c > b.maxLeafSize ∧ b.size c > bestSize ∧
        ∀ (m : Nat) c', m < j → cs[m]? = some c' → b.size c' > b.maxLeafSize →
          b.size c' < b.size c) := by
  induction cs generalizing i bestChild bestSize with
  | nil => exact ⟨le_refl _, by simp, Or.inl ⟨rfl, rfl⟩⟩
  | cons c0 cs ih =>
    have hcs' : ∀ c ∈ cs, b.size c < 2 ^ 31 := fun c hc => hcs c (List.mem_cons_of_mem _ hc)
    have h0 : b.size c0 < 2 ^ 31 := hcs c0 (List.mem_cons_self _ _)
    have hsz : toSizeT (bestSize : Int) = bestSize := toSizeT_natCast _ (by omega)
    by_cases hmax : b.size c0 ≤ b.maxLeafSize
    · have e : largestChild b (c0 :: cs) i bestChild bestSize =
          largestChild b cs (i + 1) bestChild bestSize := by
        simp [largestChild, hmax]
      rw [e]
      obtain ⟨h1, h2, h3⟩ := ih (i + 1) bestChild bestSize hb hcs'
      refine ⟨h1, ?_, ?_⟩
      · intro m c hm hs
        cases m with
        | zero =>
          have : c0 = c := by simpa using hm
          subst this
          omega
        | succ m => exact h2 m c (by simpa using hm) hs
      · rcases h3 with h3 | ⟨j, c, hj, ha, hb, hc, hd, he⟩
        · exact Or.inl h3
        · refine Or.inr ⟨j + 1, c, by simpa using hj, by rw [ha]; congr 1; omega, hb, hc, hd,
            ?_⟩
          intro m c' hmj hm hs
          cases m with
          | zero =>
            have : c0 = c' := by simpa using hm
            subst this
            omega
          | succ m => exact he m c' (by omega) (by simpa using hm) hs
    · by_cases htake : b.size c0 > bestSize
      · have e : largestChild b (c0 :: cs) i bestChild bestSize =
            largestChild b cs (i + 1) (some i) ((b.size c0 : Nat) : Int) := by
          simp [largestChild, hmax, hsz, htake, toInt_of_lt _ h0]
        rw [e]
        obtain ⟨h1, h2, h3⟩ := ih (i + 1) (some i) (b.size c0) h0 hcs'
        refine ⟨by omega, ?_, ?_⟩
        · intro m c hm hs
          cases m with
          | zero =>
            have : c0 = c := by simpa using hm
            subst this
            exact h1
          | succ m => exact h2 m c (by simpa using hm) hs
        · rcases h3 with ⟨ha, hb⟩ | ⟨j, c, hj, ha, hb, hc, hd, he⟩
          · exact Or.inr ⟨0, c0, by simp, by simpa using ha, hb, by omega, htake,
              fun m c' hm => by omega⟩
          · refine Or.inr ⟨j + 1, c, by simpa using hj, by rw [ha]; congr 1; omega, hb, hc,
              by omega, ?_⟩
            intro m c' hmj hm hs
            cases m with
            | zero =>
              have : c0 = c' := by simpa using hm
              subst this
              omega
            | succ m => exact he m c' (by omega) (by simpa using hm) hs
      · have e : largestChild b (c0 :: cs) i bestChild bestSize =
            largestChild b cs (i + 1) bestChild bestSize := by
          simp [largestChild, hmax, hsz, htake]
        rw [e]
        obtain ⟨h1, h2, h3⟩ := ih (i + 1) bestChild bestSize hb hcs'
        refine ⟨h1, ?_, ?_⟩
        · intro m c hm hs
          cases m with
          | zero =>
            have : c0 = c := by simpa using hm
            subst this
            omega
          | succ m => exact h2 m c (by simpa using hm) hs
        · rcases h3 with h3 | ⟨j, c, hj, ha, hb, hc, hd, he⟩
          · exact Or.inl h3
          · refine Or.inr ⟨j + 1, c, by simpa using hj, by rw [ha]; congr 1; omega, hb, hc, hd,
              ?_⟩
            intro m c' hmj hm hs
            cases m with
            | zero =>
              have : c0 = c' := by simpa using hm
              subst this
              omega
            | succ m => exact he m c' (by omega) (by simpa using hm) hs

/-- Once a child has been remembered, the selection loop of `createLargeLeaf`
returns a child. -/
theorem largestChild_some {R S P : Type} (b : BVHBuilderSAH2 R S P)
    (cs : List (BuildRecord R S P)) (i k : Nat) (bestSize : Int) :
    (largestChild b cs i (some k) bestSize).1 ≠ none := by
  induction cs generalizing i k bestSize with
  | nil => simp [largestChild]
  | cons c cs ih =>
    unfold largestChild
    split
    · exact ih _ _ _
    · split
      · exact ih _ _ _
      · exact ih _ _ _

theorem largestChild_none_from {R S P : Type} (b : BVHBuilderSAH2 R S P)
    (cs : List (BuildRecord R S P)) (i : Nat) :
    (largestChild b cs i none 0).1 = none ↔ ∀ c ∈ cs, b.size c ≤ b.maxLeafSize := by
  induction cs generalizing i with
  | nil => simp [largestChild]
  | cons c0 cs ih =>
    by_cases hmax : b.size c0 ≤ b.maxLeafSize
    · have e : largestChild b (c0 :: cs) i none 0 = largestChild b cs (i + 1) none 0 := by
        simp [largestChild, hmax]
      rw [e, ih]
      simp [hmax]
    · have hpos : b.size c0 > toSizeT 0 := by
        rw [toSizeT_zero]
        omega
      have e : largestChild b (c0 :: cs) i none 0 =
          largestChild b cs (i + 1) (some i) (toInt (b.size c0)) := by
        simp [largestChild, hmax, hpos]
      rw [e]
      constructor
      · intro h
        exact absurd h (largestChild_some b cs _ _ _)
      · intro h
        exact absurd (h c0 (List.mem_cons_self _ _)) hmax

/-- No child is found by the selection loop of `createLargeLeaf` exactly when no
child's count exceeds `maxLeafSize`. -/
theorem largestChild_none_iff {R S P : Type} (b : BVHBuilderSAH2 R S P)
    (cs : List (BuildRecord R S P)) :
    (largestChild b cs 0 none 0).1 = none ↔ ∀ c ∈ cs, b.size c ≤ b.maxLeafSize :=
  largestChild_none_from b cs 0

end BVHBuilderSAH2

/-- C15, as stated, fails on both of its parts. The stop rule: with
`branchingFactor = 1` the one child of ten primitives is already as many
children as the branching factor, yet a round runs (the loop tests
`numChildren < branchingFactor` after the round) and splits it into two. The
selection: the counts go through `int bestSize`; of two children with
`2^31 = 2147483648` and `2^31 + 1` primitives the first is remembered with
`bestSize = -2^31`, which compares as `2^64 - 2^31`, so the second, greater
child does not replace it and child 0 is split. -/
theorem BVHBuilderSAH2.largeLeaf_round_at_full_node :
    (Example.builder 1 32 1 4).branchingFactor = 1 ∧
    [Example.record 1 10].length = 1 ∧
    ((Example.builder 1 32 1 4).largeLeafRounds 1 [Example.record 1 10]).2 =
      [.splitFallback (0, 10)] ∧
    ((Example.builder 1 32 1 4).largeLeafRounds 1 [Example.record 1 10]).1.length = 2 ∧
    (Example.builder 4 32 1 4).maxLeafSize <
      (Example.builder 4 32 1 4).size (Example.record 2 2147483648) ∧
    (Example.builder 4 32 1 4).size (Example.record 2 2147483648) <
      (Example.builder 4 32 1 4).size (Example.record 2 2147483649) ∧
    (Example.builder 4 32 1 4).largestChild
        [Example.record 2 2147483648, Example.record 2 2147483649] 0 none 0 =
      (some 0, -2147483648) ∧
    toSizeT (-2147483648) = 2 ^ 64 - 2 ^ 31 ∧
    ((Example.builder 4 32 1 4).largeLeafStep 1
        [Example.record 2 2147483648, Example.record 2 2147483649] 0).2 =
      [.splitFallback (0, 2147483648)] := by
  refine ⟨rfl, rfl, by decide, by decide, by decide, by decide, by decide, by decide, by decide⟩

/-- C15 (amended): in each round of `createLargeLeaf` over the children `cs`,
when the counts are below `2^31` (they fit the `int bestSize`), the child that
is fallback-split is the one with the greatest count among the children whose
count exceeds `maxLeafSize`, the lowest index among equals. The rounds stop at
the two exits of the loop: at once, with no split, when no child's count exceeds
`maxLeafSize`; and after a round that brings the number of children to
`branchingFactor` or more, so that a round whose selection finds a child runs
whatever `branchingFactor` is. Otherwise they go on with the new child list. In
the end no child exceeds `maxLeafSize` or the number of children has reached
`branchingFactor`. -/
theorem BVHBuilderSAH2.createLargeLeaf_rounds {R S P : Type} (b : BVHBuilderSAH2 R S P)
    (depth : Nat) (cs : List (BuildRecord R S P)) :
    ((∀ c ∈ cs, b.size c < 2 ^ 31) →
      ∀ p, (largestChild b cs 0 none 0).1 = some p →
        ∃ c, cs[p]? = some c ∧ b.size c > b.maxLeafSize ∧
          (largeLeafStep b depth cs p).2 = [BuildEvent.splitFallback c.prims] ∧
          ∀ (m : Nat) c', cs[m]? = some c' → b.size c' > b.maxLeafSize →
            b.size c' ≤ b.size c ∧ (b.size c' = b.size c → p ≤ m)) ∧
    ((largestChild b cs 0 none 0).1 = none ↔ ∀ c ∈ cs, b.size c ≤ b.maxLeafSize) ∧
    ((∀ c ∈ cs, b.size c ≤ b.maxLeafSize) → largeLeafRounds b depth cs = (cs, [])) ∧
    (∀ p, (largestChild b cs 0 none 0).1 = some p → b.branchingFactor ≤ cs.length + 1 →
      largeLeafRounds b depth cs = largeLeafStep b depth cs p) ∧
    (∀ p, (largestChild b cs 0 none 0).1 = some p → cs.length + 1 < b.branchingFactor →
      largeLeafRounds b depth cs =
        ((largeLeafRounds b depth (largeLeafStep b depth cs p).1).1,
          (largeLeafStep b depth cs p).2 ++
            (largeLeafRounds b depth (largeLeafStep b depth cs p).1).2)) ∧
    ((∀ c ∈ (largeLeafRounds b depth cs).1, b.size c ≤ b.maxLeafSize) ∨
      b.branchingFactor ≤ (largeLeafRounds b depth cs).1.length) := by
  refine ⟨?_, largestChild_none_iff b cs, ?_, ?_, ?_, ?_⟩
  · intro hsz p hp
    have hspec := largestChild_spec b cs 0 none 0 (by decide) hsz
    simp only [Nat.cast_zero] at hspec
    obtain ⟨-, h2, h3⟩ := hspec
    rcases h3 with ⟨ha, -⟩ | ⟨j, c, hj, ha, hb, hc, -, he⟩
    · rw [ha] at hp
      cases hp
    · have hpj : p = j := by
        rw [ha] at hp
        simpa using hp.symm
      subst hpj
      refine ⟨c, hj, hc, ?_, ?_⟩
      · simp [largeLeafStep, List.getD_eq_getElem?_getD, hj]
      · intro m c' hm hs
        have h2' := h2 m c' hm hs
        rw [hb] at h2'
        refine ⟨by omega, ?_⟩
        intro heq
        by_contra hlt
        have := he m c' (by omega) hm hs
        omega
  · intro hall
    exact splitLoop_none _ _ _ _ _ ((largestChild_none_iff b cs).2 hall)
  · intro p hp hlen
    exact splitLoop_stop _ _ _ _ _ _ hp (by rw [largeLeafStep_length]; omega)
  · intro p hp hlen
    have hbf : b.branchingFactor = (b.branchingFactor - 1) + 1 := by omega
    unfold largeLeafRounds
    rw [splitLoop_budget _ _ _ (largeLeafStep_length b depth) b.branchingFactor
      ((b.branchingFactor - 1) + 1) cs (by omega) (by omega),
      splitLoop_succ _ _ _ _ _ _ hp (by rw [largeLeafStep_length]; omega),
      splitLoop_budget _ _ _ (largeLeafStep_length b depth) (b.branchingFactor - 1)
        b.branchingFactor _ (by rw [largeLeafStep_length]; omega)
        (by rw [largeLeafStep_length]; omega)]
  · rcases splitLoop_final (fun cs => (largestChild b cs 0 none 0).1)
      (largeLeafStep b depth) b.branchingFactor (largeLeafStep_length b depth)
      b.branchingFactor cs (by omega) with h | h
    · exact Or.inl ((largestChild_none_iff b _).1 h)
    · exact Or.inr h

/-- C15 (amended) on the range instance: of the children of 3, 7, 9, 9 and 2
primitives with `maxLeafSize = 4`, the first child of nine primitives is split
next. -/
theorem BVHBuilderSAH2.createLargeLeaf_rounds_witness :
    (∀ c ∈ [Example.record 2 3, Example.record 2 7, Example.record 2 9, Example.record 2 9,
        Example.record 2 2], (Example.builder 8 32 1 4).size c < 2 ^ 31) ∧
    ((Example.builder 8 32 1 4).largestChild
        [Example.record 2 3, Example.record 2 7, Example.record 2 9, Example.record 2 9,
          Example.record 2 2] 0 none 0).1 = some 2 ∧
    ∃ c, [Example.record 2 3, Example.record 2 7, Example.record 2 9, Example.record 2 9,
          Example.record 2 2][2]? = some c ∧
      (Example.builder 8 32 1 4).size c > (Example.builder 8 32 1 4).maxLeafSize ∧
      ((Example.builder 8 32 1 4).largeLeafStep 1
        [Example.record 2 3, Example.record 2 7, Example.record 2 9, Example.record 2 9,
          Example.record 2 2] 2).2 = [BuildEvent.splitFallback c.prims] :=
  ⟨by decide, by decide,
   match (BVHBuilderSAH2.createLargeLeaf_rounds (Example.builder 8 32 1 4) 1
      [Example.record 2 3, Example.record 2 7, Example.record 2 9, Example.record 2 9,
        Example.record 2 2]).1 (by decide) 2 (by decide) with
   | ⟨c, h1, h2, h3, _⟩ => ⟨c, h1, h2, h3⟩⟩

/-! ### recurse: the large-leaf example -/

theorem BVHBuilderSAH2.recurse_spawns {R S P : Type} [LinearOrderedRing R]
    (b : BVHBuilderSAH2 R S P) (fuel : Nat) (toplevel : Bool) (record : BuildRecord R S P)
    (h : b.leafTest record = false) :
    ∃ c, BuildEvent.spawn c ∈ (b.recurse (fuel + 1) toplevel record).trace := by
  have hne := recurseRounds_ne_nil b toplevel record.depth [record] (by simp)
  unfold recurse
  rw [if_neg (by simp [h])]
  simp only [Outcome.andThen_done_trace]
  cases hc : (recurseRounds b toplevel record.depth [record]).1 with
  | nil => exact absurd hc hne
  | cons c cs =>
    refine ⟨c, List.mem_append_right _ ?_⟩
    unfold Outcome.forEach
    exact Outcome.mem_andThen_left _ _ _ (Outcome.mem_andThen_left _ _ _ (by simp))

/-- C16, as stated, fails: with `maxLeafSize = 4`, `minLeafSize = 8`, `maxDepth = 32`
and a record of ten primitives at depth 1 the leaf test of `recurse` is false
(ten exceeds both sizes and `1 + 8 < 32`), and `recurse` builds an inner node by
an SAH split and spawns its children instead of calling `createLargeLeaf`. -/
theorem BVHBuilderSAH2.ten_primitives_not_forced :
    (Example.builder 2 32 8 4).maxLeafSize = 4 ∧
    (Example.builder 2 32 8 4).minLeafSize = 8 ∧
    (Example.builder 2 32 8 4).size (Example.record 1 10) = 10 ∧
    (Example.builder 2 32 8 4).leafTest (Example.record 1 10) = false ∧
    (Example.builder 2 32 8 4).recurse 3 false (Example.record 1 10) ≠
      (Example.builder 2 32 8 4).createLargeLeaf (Example.record 1 10) ∧
    ((Example.builder 2 32 8 4).recurse 3 false (Example.record 1 10)).trace.take 5 =
      [.split (Example.rangeFind 10) (0, 10), .find (0, 5) 5, .find (5, 10) 5,
       .createNode (Example.record 1 10)
         [{ depth := 2, prims := (0, 5), pinfo := 5, split := Example.rangeFind 5 },
          { depth := 2, prims := (5, 10), pinfo := 5, split := Example.rangeFind 5 }],
       .spawn { depth := 2, prims := (0, 5), pinfo := 5, split := Example.rangeFind 5 }] ∧
    ((Example.builder 2 32 8 4).recurse 3 false (Example.record 1 10)).status = .done := by
  refine ⟨rfl, rfl, rfl, by decide, by decide, by decide, by decide⟩

/-- C16 (amended): with `maxLeafSize = 4` and `minLeafSize = 8`, `recurse` on a
record of 10 primitives takes the large-leaf path (it does what `createLargeLeaf`
does and makes only large-leaf calls) if and only if `depth + 8 >= maxDepth`,
for every cost setting; otherwise it builds an inner node and spawns a child.
The sum `depth + 8` is the `size_t` sum of the code, taken modulo `2^64`; for
every depth with `depth + 8 < 2^64` it is the plain sum. -/
theorem BVHBuilderSAH2.recurse_ten_primitives {R S P : Type} [LinearOrderedRing R]
    (b : BVHBuilderSAH2 R S P) (fuel : Nat) (toplevel : Bool) (record : BuildRecord R S P)
    (hmax : b.maxLeafSize = 4) (hmin : b.minLeafSize = 8) (hsize : b.size record = 10) :
    (b.recurse (fuel + 1) toplevel record = b.createLargeLeaf record ↔
      (record.depth + 8) % 2 ^ 64 ≥ b.maxDepth) ∧
    ((∀ e ∈ (b.recurse (fuel + 1) toplevel record).trace, e.isLargeLeafCall = true) ↔
      (record.depth + 8) % 2 ^ 64 ≥ b.maxDepth) ∧
    ((record.depth + 8) % 2 ^ 64 < b.maxDepth →
      ∃ c, BuildEvent.spawn c ∈ (b.recurse (fuel + 1) toplevel record).trace) ∧
    (record.depth + 8 < 2 ^ 64 →
      (b.recurse (fuel + 1) toplevel record = b.createLargeLeaf record ↔
        record.depth + 8 ≥ b.maxDepth) ∧
      ((∀ e ∈ (b.recurse (fuel + 1) toplevel record).trace, e.isLargeLeafCall = true) ↔
        record.depth + 8 ≥ b.maxDepth) ∧
      (record.depth + 8 < b.maxDepth →
        ∃ c, BuildEvent.spawn c ∈ (b.recurse (fuel + 1) toplevel record).trace)) := by
  have hcond : b.leafTest record = true ↔ (record.depth + 8) % 2 ^ 64 ≥ b.maxDepth := by
    simp [leafTest, MIN_LARGE_LEAF_LEVELS, hmax, hmin, hsize]
  have key : ∀ D : Nat, (b.leafTest record = true ↔ D ≥ b.maxDepth) →
      (b.recurse (fuel + 1) toplevel record = b.createLargeLeaf record ↔ D ≥ b.maxDepth) ∧
      ((∀ e ∈ (b.recurse (fuel + 1) toplevel record).trace, e.isLargeLeafCall = true) ↔
        D ≥ b.maxDepth) ∧
      (D < b.maxDepth →
        ∃ c, BuildEvent.spawn c ∈ (b.recurse (fuel + 1) toplevel record).trace) := by
    intro D hD
    have hpos : D ≥ b.maxDepth →
        b.recurse (fuel + 1) toplevel record = b.createLargeLeaf record :=
      fun h => recurse_of_leafTest b fuel toplevel record (hD.2 h)
    have hneg : D < b.maxDepth →
        ∃ c, BuildEvent.spawn c ∈ (b.recurse (fuel + 1) toplevel record).trace := by
      intro h
      apply recurse_spawns
      cases hl : b.leafTest record
      · rfl
      · have := hD.1 hl
        omega
    refine ⟨⟨?_, hpos⟩, ⟨?_, ?_⟩, hneg⟩
    · intro heq
      by_contra hn
      obtain ⟨c, hc⟩ := hneg (by omega)
      rw [heq] at hc
      have := createLargeLeafFuel_events b _ record _ hc
      simp [BuildEvent.isLargeLeafCall] at this
    · intro hall
      by_contra hn
      obtain ⟨c, hc⟩ := hneg (by omega)
      have := hall _ hc
      simp [BuildEvent.isLargeLeafCall] at this
    · intro h
      rw [hpos h]
      exact createLargeLeafFuel_events b _ record
  obtain ⟨h1, h2, h3⟩ := key _ hcond
  refine ⟨h1, h2, h3, fun hlt => ?_⟩
  apply key
  rw [hcond, Nat.mod_eq_of_lt hlt]

/-- C16 (amended) on the range instance: ten primitives at depth 1 with
`maxDepth = 32` are not on the leaf path, since `1 + 8 < 32`; with
`maxDepth = 9` they are; and at depth `2^64 - 4` the sum wraps to 4, below
`maxDepth = 32`, and they are not on the leaf path. -/
theorem BVHBuilderSAH2.recurse_ten_primitives_witness :
    ((Example.builder 2 32 8 4).recurse 3 false (Example.record 1 10) =
        (Example.builder 2 32 8 4).createLargeLeaf (Example.record 1 10) ↔
      (Example.record 1 10).depth + 8 ≥ (Example.builder 2 32 8 4).maxDepth) ∧
    ((Example.builder 2 9 8 4).recurse 3 false (Example.record 1 10) =
        (Example.builder 2 9 8 4).createLargeLeaf (Example.record 1 10) ↔
      (Example.record 1 10).depth + 8 ≥ (Example.builder 2 9 8 4).maxDepth) ∧
    ((Example.builder 2 32 8 4).recurse 3 false (Example.record 18446744073709551612 10) =
        (Example.builder 2 32 8 4).createLargeLeaf (Example.record 18446744073709551612 10) ↔
      ((Example.record 18446744073709551612 10).depth + 8) % 2 ^ 64 ≥
        (Example.builder 2 32 8 4).maxDepth) :=
  ⟨((BVHBuilderSAH2.recurse_ten_primitives (Example.builder 2 32 8 4) 2 false
      (Example.record 1 10) rfl rfl rfl).2.2.2 (by decide)).1,
   ((BVHBuilderSAH2.recurse_ten_primitives (Example.builder 2 9 8 4) 2 false
      (Example.record 1 10) rfl rfl rfl).2.2.2 (by decide)).1,
   (BVHBuilderSAH2.recurse_ten_primitives (Example.builder 2 32 8 4) 2 false
      (Example.record 18446744073709551612 10) rfl rfl rfl).1⟩

/-! ### createLargeLeaf: the large-leaf example -/

/-- C17: `createLargeLeaf` on a record of 10 primitives with `maxLeafSize = 4`,
`branchingFactor = 2` and `depth <= maxDepth` makes exactly one fallback split, on
the primitives of that record, and then calls `createNode` for the record with
exactly two children, the two sides of that split one level down, whose counts
sum to 10 when the fallback splitter conserves the count; after that it only
continues with `createLargeLeaf` on the two children. -/
theorem BVHBuilderSAH2.createLargeLeaf_ten_primitives {R S P : Type}
    (b : BVHBuilderSAH2 R S P) (card : S → Nat) (current : BuildRecord R S P)
    (hmax : b.maxLeafSize = 4) (hbf : b.branchingFactor = 2)
    (hsize : b.size current = 10) (hcard : card current.prims = 10)
    (hdepth : current.depth ≤ b.maxDepth)
    (hcons : Conserves b card b.heuristic.splitFallback) :
    ∃ left right : BuildRecord R S P,
      (b.createLargeLeaf current).trace =
        BuildEvent.splitFallback current.prims :: BuildEvent.createNode current [left, right] ::
          (Outcome.forEach b.createLargeLeaf [left, right]).trace ∧
      (b.createLargeLeaf current).status =
        (Outcome.forEach b.createLargeLeaf [left, right]).status ∧
      b.size left + b.size right = 10 ∧
      left.depth = current.depth + 1 ∧ right.depth = current.depth + 1 ∧
      (left.pinfo, left.prims) = (b.heuristic.splitFallback current.prims).1 ∧
      (right.pinfo, right.prims) = (b.heuristic.splitFallback current.prims).2 := by
  have hsel : (largestChild b [current] 0 none 0).1 = some 0 := by
    simp [largestChild, hsize, hmax, toSizeT_zero]
  have hrounds : largeLeafRounds b current.depth [current] =
      largeLeafStep b current.depth [current] 0 :=
    splitLoop_stop _ _ _ _ _ _ hsel (by simp [largeLeafStep, hbf])
  have hchild : ∀ c : BuildRecord R S P, c.depth = current.depth + 1 →
      b.createLargeLeaf c = b.createLargeLeafFuel (b.maxDepth + 1 - current.depth) c := by
    intro c hc
    unfold createLargeLeaf
    rw [hc]
    congr 1
    omega
  have hstep : largeLeafStep b current.depth [current] 0 =
      ([{ b.newRecord (current.depth + 1) with
              pinfo := (b.heuristic.splitFallback current.prims).1.1,
              prims := (b.heuristic.splitFallback current.prims).1.2 },
        { b.newRecord (current.depth + 1) with
              pinfo := (b.heuristic.splitFallback current.prims).2.1,
              prims := (b.heuristic.splitFallback current.prims).2.2 }],
       [BuildEvent.splitFallback current.prims]) := by
    simp [largeLeafStep]
  have hfe : ∀ l r : BuildRecord R S P, l.depth = current.depth + 1 →
      r.depth = current.depth + 1 →
      Outcome.forEach b.createLargeLeaf [l, r] =
        Outcome.forEach (b.createLargeLeafFuel (b.maxDepth + 1 - current.depth)) [l, r] := by
    intro l r hl hr
    simp only [Outcome.forEach, hchild l hl, hchild r hr]
  refine ⟨{ b.newRecord (current.depth + 1) with
              pinfo := (b.heuristic.splitFallback current.prims).1.1,
              prims := (b.heuristic.splitFallback current.prims).1.2 },
          { b.newRecord (current.depth + 1) with
              pinfo := (b.heuristic.splitFallback current.prims).2.1,
              prims := (b.heuristic.splitFallback current.prims).2.2 }, ?_, ?_, ?_, ?_, ?_, rfl, rfl⟩
  · rw [hfe _ _ rfl rfl]
    unfold createLargeLeaf
    rw [show b.maxDepth + 1 - current.depth + 1 = (b.maxDepth + 1 - current.depth) + 1 from rfl]
    conv_lhs => unfold createLargeLeafFuel
    rw [if_neg (by omega), if_neg (by omega), Outcome.andThen_done_trace, hrounds, hstep]
    rfl
  · rw [hfe _ _ rfl rfl]
    unfold createLargeLeaf
    rw [show b.maxDepth + 1 - current.depth + 1 = (b.maxDepth + 1 - current.depth) + 1 from rfl]
    conv_lhs => unfold createLargeLeafFuel
    rw [if_neg (by omega), if_neg (by omega), andThen_done_status, hrounds, hstep]
  · have := (hcons current.prims).1
    simp only [size]
    omega
  · rfl
  · rfl

/-- C17 on the range instance: ten primitives at depth 1 are cut into two
children of five primitives. -/
theorem BVHBuilderSAH2.createLargeLeaf_ten_primitives_witness :
    ∃ left right : BuildRecord Int (Nat × Nat) Nat,
      ((Example.builder 2 32 8 4).createLargeLeaf (Example.record 1 10)).trace =
        BuildEvent.splitFallback (Example.record 1 10).prims ::
          BuildEvent.createNode (Example.record 1 10) [left, right] ::
          (Outcome.forEach (Example.builder 2 32 8 4).createLargeLeaf [left, right]).trace ∧
      ((Example.builder 2 32 8 4).createLargeLeaf (Example.record 1 10)).status =
        (Outcome.forEach (Example.builder 2 32 8 4).createLargeLeaf [left, right]).status ∧
      (Example.builder 2 32 8 4).size left + (Example.builder 2 32 8 4).size right = 10 ∧
      left.depth = (Example.record 1 10).depth + 1 ∧
      right.depth = (Example.record 1 10).depth + 1 ∧
      (left.pinfo, left.prims) =
        ((Example.builder 2 32 8 4).heuristic.splitFallback (Example.record 1 10).prims).1 ∧
      (right.pinfo, right.prims) =
        ((Example.builder 2 32 8 4).heuristic.splitFallback (Example.record 1 10).prims).2 :=
  BVHBuilderSAH2.createLargeLeaf_ten_primitives (Example.builder 2 32 8 4)
    (fun s => s.2 - s.1) (Example.record 1 10) rfl rfl rfl rfl (by decide)
    (fun s => by
      refine ⟨?_, rfl, rfl⟩
      show (s.1 + s.2) / 2 - s.1 + (s.2 - (s.1 + s.2) / 2) = s.2 - s.1
      omega)

/-! ### filterSOA / filterSOP: every valid slot once -/

namespace RayStream

theorem flushBucket_count_gather (intersect : Bool) (flags : Nat) (l : List Nat) (o : Nat) :
    (flushBucket intersect flags l).count (StreamEvent.gather o) = l.count o := by
  have h1 : (l.map StreamEvent.gather).count (StreamEvent.gather o) = l.count o := by
    induction l with
    | nil => rfl
    | cons a l ih => simp [List.count_cons, ih]
  have h2 : (l.map StreamEvent.scatter).count (StreamEvent.gather o) = 0 :=
    List.count_eq_zero.2 (by simp)
  simp [flushBucket, List.count_append, h1, h2, List.count_cons]

theorem flushBucket_count_scatter (intersect : Bool) (flags : Nat) (l : List Nat) (o : Nat) :
    (flushBucket intersect flags l).count (StreamEvent.scatter o) = l.count o := by
  have h1 : (l.map StreamEvent.scatter).count (StreamEvent.scatter o) = l.count o := by
    induction l with
    | nil => rfl
    | cons a l ih => simp [List.count_cons, ih]
  have h2 : (l.map StreamEvent.gather).count (StreamEvent.scatter o) = 0 :=
    List.count_eq_zero.2 (by simp)
  simp [flushBucket, List.count_append, h1, h2, List.count_cons]

theorem flushBucket_dispatched (intersect : Bool) (flags : Nat) (l : List Nat) :
    (flushBucket intersect flags l).flatMap StreamEvent.dispatched = l := by
  have h1 : (l.map StreamEvent.gather).flatMap StreamEvent.dispatched = [] := by
    induction l with
    | nil => rfl
    | cons a l ih => simp [StreamEvent.dispatched]
  have h2 : (l.map StreamEvent.scatter).flatMap StreamEvent.dispatched = [] := by
    induction l with
    | nil => rfl
    | cons a l ih => simp [StreamEvent.dispatched]
  cases intersect <;>
    simp [flushBucket, List.flatMap_append, h1, h2, StreamEvent.dispatched, SceneCall.rays]

/-- The events of the scan are the flushes of full buckets, and every valid
offset visited ends up in one of them or is still queued. -/
theorem sortStream_blocks (layout : RayLayout) (intersect : Bool) (flags : Nat)
    (offsets : List Nat) (octants : Nat → List Nat)
    (hoct : ∀ o ∈ offsets, layout.isValid o = true → layout.getOctant o < 8) :
    ∃ buckets : List (List Nat),
      (sortStream layout intersect flags offsets octants).2 =
        buckets.flatMap (flushBucket intersect flags) ∧
      (∀ l ∈ buckets, l.length = MAX_RAYS_PER_OCTANT) ∧
      ∀ x, buckets.flatten.count x +
          (pending (sortStream layout intersect flags offsets octants).1).count x =
        (pending octants).count x + (offsets.filter layout.isValid).count x := by
  induction offsets generalizing octants with
  | nil => exact ⟨[], by simp [sortStream]⟩
  | cons offset rest ih =>
    have hoct1 : ∀ o ∈ rest, layout.isValid o = true → layout.getOctant o < 8 :=
      fun o ho => hoct o (List.mem_cons_of_mem _ ho)
    by_cases hv : layout.isValid offset = true
    · have hlt := hoct offset (List.mem_cons_self _ _) hv
      have hu1 := pending_update_count octants (layout.getOctant offset)
        (octants (layout.getOctant offset) ++ [offset]) hlt
      by_cases hfull : (Function.update octants (layout.getOctant offset)
          (octants (layout.getOctant offset) ++ [offset]) (layout.getOctant offset)).length
            = MAX_RAYS_PER_OCTANT
      · obtain ⟨buckets, h1, h2, h3⟩ := ih (Function.update (Function.update octants
            (layout.getOctant offset) (octants (layout.getOctant offset) ++ [offset]))
            (layout.getOctant offset) []) hoct1
        have hu2 := pending_update_count (Function.update octants
            (layout.getOctant offset) (octants (layout.getOctant offset) ++ [offset]))
            (layout.getOctant offset) [] hlt
        simp only [sortStream, hv, Bool.not_true, Bool.false_eq_true, if_false, hfull, if_true]
        refine ⟨Function.update octants (layout.getOctant offset)
          (octants (layout.getOctant offset) ++ [offset]) (layout.getOctant offset) :: buckets,
          by rw [List.flatMap_cons, h1], ?_, ?_⟩
        · intro l hl
          rcases List.mem_cons.1 hl with hl | hl
          · rw [hl]; exact hfull
          · exact h2 l hl
        · intro x
          have h3x := h3 x
          have hu1x := hu1 x
          have hu2x := hu2 x
          simp only [Function.update_same, List.count_append, List.count_nil] at hu1x hu2x
          simp only [List.flatten_cons, List.count_append, Function.update_same,
            List.filter_cons, hv, if_true, List.count_cons, List.count_nil] at h3x hu1x hu2x ⊢
          omega
      · obtain ⟨buckets, h1, h2, h3⟩ := ih (Function.update octants
            (layout.getOctant offset) (octants (layout.getOctant offset) ++ [offset])) hoct1
        simp only [sortStream, hv, Bool.not_true, Bool.false_eq_true, if_false, hfull]
        refine ⟨buckets, h1, h2, ?_⟩
        intro x
        have h3x := h3 x
        have hu1x := hu1 x
        simp only [Function.update_same, List.count_append, List.count_nil,
          List.filter_cons, hv, if_true, List.count_cons] at h3x hu1x ⊢
        omega
    · obtain ⟨buckets, h1, h2, h3⟩ := ih octants hoct1
      simp only [sortStream, hv, Bool.not_false, if_true]
      refine ⟨buckets, h1, h2, ?_⟩
      intro x
      simp only [List.filter_cons, hv]
      exact h3 x

theorem flushRemaining_blocks (intersect : Bool) (flags : Nat) (octants : Nat → List Nat) :
    ∃ buckets : List (List Nat),
      flushRemaining intersect flags octants = buckets.flatMap (flushBucket intersect flags) ∧
      (∀ l ∈ buckets, l ≠ [] ∧ ∃ i, i ∈ List.range 8 ∧ l = octants i) ∧
      ∀ x, buckets.flatten.count x = (pending octants).count x := by
  unfold flushRemaining pending
  generalize List.range 8 = L
  induction L with
  | nil => exact ⟨[], by simp⟩
  | cons i L ih =>
    obtain ⟨buckets, h1, h2, h3⟩ := ih
    by_cases hne : (octants i).length != 0
    · refine ⟨octants i :: buckets, ?_, ?_, ?_⟩
      · simp only [List.flatMap_cons, hne, if_true, h1]
      · intro l hl
        rcases List.mem_cons.1 hl with hl | hl
        · subst hl
          refine ⟨?_, i, List.mem_cons_self _ _, rfl⟩
          intro h
          simp [h] at hne
        · obtain ⟨hl1, j, hj, hl2⟩ := h2 l hl
          exact ⟨hl1, j, List.mem_cons_of_mem _ hj, hl2⟩
      · intro x
        simp only [List.flatten_cons, List.flatMap_cons, List.count_append, h3 x]
    · refine ⟨buckets, ?_, ?_, ?_⟩
      · simp only [List.flatMap_cons, hne, h1]
        simp
      · intro l hl
        obtain ⟨hl1, j, hj, hl2⟩ := h2 l hl
        exact ⟨hl1, j, List.mem_cons_of_mem _ hj, hl2⟩
      · intro x
        have h0 : octants i = [] := by
          simpa using hne
        simp only [List.flatMap_cons, List.count_append, h3 x, h0, List.count_nil, Nat.zero_add]

theorem filterSorted_blocks (layout : RayLayout) (N streams stream_offset flags : Nat)
    (intersect : Bool)
    (hoct : ∀ o ∈ streamOffsets N streams stream_offset,
      layout.isValid o = true → layout.getOctant o < 8) :
    ∃ buckets : List (List Nat),
      filterSorted layout N streams stream_offset flags intersect =
        buckets.flatMap (flushBucket intersect flags) ∧
      (∀ l ∈ buckets, l ≠ []) ∧
      ∀ x, buckets.flatten.count x =
        ((streamOffsets N streams stream_offset).filter layout.isValid).count x := by
  obtain ⟨b1, h1, h2, h3⟩ := sortStream_blocks layout intersect flags
    (streamOffsets N streams stream_offset) (fun _ => []) hoct
  obtain ⟨b2, g1, g2, g3⟩ := flushRemaining_blocks intersect flags
    (sortStream layout intersect flags (streamOffsets N streams stream_offset) (fun _ => [])).1
  refine ⟨b1 ++ b2, ?_, ?_, ?_⟩
  · unfold filterSorted
    simp only [h1, g1, List.flatMap_append]
  · intro l hl
    rcases List.mem_append.1 hl with hl | hl
    · intro h
      have := h2 l hl
      rw [h] at this
      simp [MAX_RAYS_PER_OCTANT] at this
    · exact (g2 l hl).1
  · intro x
    have h3x := h3 x
    have h0 : (pending (fun _ => ([] : List Nat))).count x = 0 := by
      rw [pending_eq]; simp
    rw [List.flatten_append, List.count_append, g3 x]
    omega

theorem blocks_count_gather (intersect : Bool) (flags : Nat) (buckets : List (List Nat))
    (o : Nat) :
    (buckets.flatMap (flushBucket intersect flags)).count (StreamEvent.gather o) =
      buckets.flatten.count o := by
  induction buckets with
  | nil => rfl
  | cons l ls ih =>
    simp only [List.flatMap_cons, List.flatten_cons, List.count_append,
      flushBucket_count_gather, ih]

theorem blocks_count_scatter (intersect : Bool) (flags : Nat) (buckets : List (List Nat))
    (o : Nat) :
    (buckets.flatMap (flushBucket intersect flags)).count (StreamEvent.scatter o) =
      buckets.flatten.count o := by
  induction buckets with
  | nil => rfl
  | cons l ls ih =>
    simp only [List.flatMap_cons, List.flatten_cons, List.count_append,
      flushBucket_count_scatter, ih]

theorem blocks_dispatched (intersect : Bool) (flags : Nat) (buckets : List (List Nat)) :
    (buckets.flatMap (flushBucket intersect flags)).flatMap StreamEvent.dispatched =
      buckets.flatten := by
  induction buckets with
  | nil => rfl
  | cons l ls ih =>
    simp only [List.flatMap_cons, List.flatten_cons, List.flatMap_append,
      flushBucket_dispatched, ih]

theorem blocks_dispatching_event (intersect : Bool) (flags : Nat) (buckets : List (List Nat))
    (e : StreamEvent) (o : Nat) (he : e ∈ buckets.flatMap (flushBucket intersect flags))
    (ho : o ∈ e.dispatched) :
    ∃ l, l ∈ buckets ∧ e = StreamEvent.call (if intersect then .intersectN l l.length flags
      else .occludedN l l.length flags) := by
  obtain ⟨l, hl, hel⟩ := List.mem_flatMap.1 he
  refine ⟨l, hl, ?_⟩
  simp only [flushBucket, List.mem_append, List.mem_map, List.mem_singleton] at hel
  rcases hel with (⟨a, -, rfl⟩ | hel) | ⟨a, -, rfl⟩
  · simp [StreamEvent.dispatched] at ho
  · exact hel
  · simp [StreamEvent.dispatched] at ho

end RayStream

/-- C19, as stated, fails when two visits name the same offset: with
`stream_offset = 0` the two streams of two rays lie on top of each other
(offsets 0, 4, 0, 4), and the valid slot at offset 4, visited as `(s, i) = (0, 1)`
and as `(1, 1)`, is gathered twice, is handed twice to the one `intersectN`
call and is scattered twice. -/
theorem RayStream.overlapping_streams_gathered_twice :
    RayStream.streamOffsets 2 2 0 = [0, 4, 0, 4] ∧
    0 * 0 + 4 * 1 = 4 ∧
    Example.layout.isValid 4 = true ∧
    Example.layout.getOctant 4 < 8 ∧
    RayStream.filterSOA 1 8 Example.layout 2 2 0 0 true =
      [.gather 4, .gather 4, .call (.intersectN [4, 4] 2 0), .scatter 4, .scatter 4] ∧
    RayStream.filterSOP 1 8 Example.layout 2 2 0 0 true =
      [.gather 4, .gather 4, .call (.intersectN [4, 4] 2 0), .scatter 4, .scatter 4] ∧
    (RayStream.filterSOA 1 8 Example.layout 2 2 0 0 true).count
        (RayStream.StreamEvent.gather 4) = 2 ∧
    ((RayStream.filterSOA 1 8 Example.layout 2 2 0 0 true).flatMap
        RayStream.StreamEvent.dispatched).count 4 = 2 ∧
    (RayStream.filterSOA 1 8 Example.layout 2 2 0 0 true).count
        (RayStream.StreamEvent.scatter 4) = 2 := by
  refine ⟨by decide, by decide, by decide, by decide, by decide, by decide, by decide,
    by decide, by decide⟩

/-- C19 (amended): in the octant-sorting path of `filterSOA` and `filterSOP` (the
two run the same scan; offsets of valid rays have an octant below 8, as the
code asserts) the events are whole bucket flushes, each a run of gathers, one
`intersectN` / `occludedN` call and the scatters to the same offsets in the
same order. An offset is gathered, dispatched and scattered as often as the
loops over `s < streams` and `i < N` visit it, if the validity predicate holds
for it, and never if the predicate fails. When the visited offsets
`s * stream_offset + 4 * i` are pairwise distinct, the slot at such an offset is
gathered exactly once, is a ray of exactly one `intersectN` / `occludedN` call,
once, and is scattered exactly once if it is valid, and none of these if it is
not. -/
theorem RayStream.filterSorted_each_slot_once (RTC_RAYN_COHERENT VSIZEX : Nat)
    (layout : RayLayout) (N streams stream_offset flags : Nat) (intersect : Bool)
    (hflags : flags ≠ RTC_RAYN_COHERENT)
    (hoct : ∀ o ∈ streamOffsets N streams stream_offset,
      layout.isValid o = true → layout.getOctant o < 8) :
    filterSOP RTC_RAYN_COHERENT VSIZEX layout N streams stream_offset flags intersect =
      filterSOA RTC_RAYN_COHERENT VSIZEX layout N streams stream_offset flags intersect ∧
    (∃ buckets : List (List Nat),
      filterSOA RTC_RAYN_COHERENT VSIZEX layout N streams stream_offset flags intersect =
        buckets.flatMap (flushBucket intersect flags)) ∧
    (∀ o,
      (filterSOA RTC_RAYN_COHERENT VSIZEX layout N streams stream_offset flags
          intersect).count (StreamEvent.gather o) =
        ((streamOffsets N streams stream_offset).filter layout.isValid).count o ∧
      ((filterSOA RTC_RAYN_COHERENT VSIZEX layout N streams stream_offset flags
          intersect).flatMap StreamEvent.dispatched).count o =
        ((streamOffsets N streams stream_offset).filter layout.isValid).count o ∧
      (filterSOA RTC_RAYN_COHERENT VSIZEX layout N streams stream_offset flags
          intersect).count (StreamEvent.scatter o) =
        ((streamOffsets N streams stream_offset).filter layout.isValid).count o) ∧
    ((streamOffsets N streams stream_offset).Nodup →
      ∀ s i, s < streams → i < N →
        (layout.isValid (s * stream_offset + 4 * i) = true →
          (filterSOA RTC_RAYN_COHERENT VSIZEX layout N streams stream_offset flags
            intersect).count (StreamEvent.gather (s * stream_offset + 4 * i)) = 1 ∧
          (∃ pre l post,
            filterSOA RTC_RAYN_COHERENT VSIZEX layout N streams stream_offset flags intersect =
              pre ++ StreamEvent.call (if intersect then .intersectN l l.length flags
                else .occludedN l l.length flags) :: post ∧
            l.count (s * stream_offset + 4 * i) = 1 ∧
            ∀ d ∈ pre ++ post, s * stream_offset + 4 * i ∉ d.dispatched) ∧
          (filterSOA RTC_RAYN_COHERENT VSIZEX layout N streams stream_offset flags
            intersect).count (StreamEvent.scatter (s * stream_offset + 4 * i)) = 1) ∧
        (layout.isValid (s * stream_offset + 4 * i) = false →
          (filterSOA RTC_RAYN_COHERENT VSIZEX layout N streams stream_offset flags
            intersect).count (StreamEvent.gather (s * stream_offset + 4 * i)) = 0 ∧
          (∀ d ∈ filterSOA RTC_RAYN_COHERENT VSIZEX layout N streams stream_offset flags
            intersect, s * stream_offset + 4 * i ∉ d.dispatched) ∧
          (filterSOA RTC_RAYN_COHERENT VSIZEX layout N streams stream_offset flags
            intersect).count (StreamEvent.scatter (s * stream_offset + 4 * i)) = 0)) := by
  obtain ⟨buckets, hT, -, hcnt⟩ :=
    filterSorted_blocks layout N streams stream_offset flags intersect hoct
  have hSOA : filterSOA RTC_RAYN_COHERENT VSIZEX layout N streams stream_offset flags
      intersect = buckets.flatMap (flushBucket intersect flags) := by
    unfold filterSOA
    rw [if_neg hflags, hT]
  have hall : ∀ o,
      (buckets.flatMap (flushBucket intersect flags)).count (StreamEvent.gather o) =
        ((streamOffsets N streams stream_offset).filter layout.isValid).count o ∧
      ((buckets.flatMap (flushBucket intersect flags)).flatMap StreamEvent.dispatched).count o =
        ((streamOffsets N streams stream_offset).filter layout.isValid).count o ∧
      (buckets.flatMap (flushBucket intersect flags)).count (StreamEvent.scatter o) =
        ((streamOffsets N streams stream_offset).filter layout.isValid).count o := by
    intro o
    rw [blocks_count_gather, blocks_dispatched, blocks_count_scatter]
    exact ⟨hcnt o, hcnt o, hcnt o⟩
  rw [hSOA]
  refine ⟨?_, ⟨buckets, rfl⟩, hall, ?_⟩
  · unfold filterSOP
    rw [if_neg hflags, hT]
  · intro hnd s i hs hi
    have hmem : s * stream_offset + 4 * i ∈ streamOffsets N streams stream_offset := by
      simp only [streamOffsets, List.mem_flatMap, List.mem_range, List.mem_map]
      exact ⟨s, hs, i, hi, rfl⟩
    obtain ⟨hg, hd, hsc⟩ := hall (s * stream_offset + 4 * i)
    constructor
    · intro hv
      have hone : ((streamOffsets N streams stream_offset).filter layout.isValid).count
          (s * stream_offset + 4 * i) = 1 :=
        List.count_eq_one_of_mem (hnd.filter _) (List.mem_filter.2 ⟨hmem, hv⟩)
      rw [hone] at hg hd hsc
      refine ⟨hg, ?_, hsc⟩
      obtain ⟨pre, c, post, h1, h2, h3⟩ := count_flatMap_eq_one _ _ _ hd
      have hc : s * stream_offset + 4 * i ∈ c.dispatched :=
        List.count_pos_iff.1 (by omega)
      obtain ⟨l, -, hl⟩ := blocks_dispatching_event intersect flags buckets c _
        (by rw [h1]; simp) hc
      refine ⟨pre, l, post, by rw [h1, hl], ?_, h3⟩
      rw [hl] at h2
      cases intersect <;> simpa [StreamEvent.dispatched, SceneCall.rays] using h2
    · intro hv
      have hzero : ((streamOffsets N streams stream_offset).filter layout.isValid).count
          (s * stream_offset + 4 * i) = 0 :=
        List.count_eq_zero.2 (fun h => by simp [List.mem_filter, hv] at h)
      rw [hzero] at hg hd hsc
      refine ⟨hg, ?_, hsc⟩
      intro d hd1 hd2
      exact (List.count_eq_zero.1 hd) (List.mem_flatMap.2 ⟨d, hd1, hd2⟩)

/-- C19 (amended) on the example layout with two streams of four rays, 16 bytes
apart: the offset 20 is valid and is gathered and scattered once; the offset 16
is not valid and is never gathered or scattered. -/
theorem RayStream.filterSorted_each_slot_once_witness :
    (RayStream.filterSOA 1 8 Example.layout 4 2 16 0 true).count
        (RayStream.StreamEvent.gather 20) = 1 ∧
    (RayStream.filterSOA 1 8 Example.layout 4 2 16 0 true).count
        (RayStream.StreamEvent.scatter 20) = 1 ∧
    (RayStream.filterSOA 1 8 Example.layout 4 2 16 0 true).count
        (RayStream.StreamEvent.gather 16) = 0 ∧
    (RayStream.filterSOA 1 8 Example.layout 4 2 16 0 true).count
        (RayStream.StreamEvent.scatter 16) = 0 :=
  have h := RayStream.filterSorted_each_slot_once 1 8 Example.layout 4 2 16 0 true
    (by decide) (by decide)
  ⟨((h.2.2.2 (by decide) 1 1 (by decide) (by decide)).1 (by decide)).1,
   ((h.2.2.2 (by decide) 1 1 (by decide) (by decide)).1 (by decide)).2.2,
   ((h.2.2.2 (by decide) 1 0 (by decide) (by decide)).2 (by decide)).1,
   ((h.2.2.2 (by decide) 1 0 (by decide) (by decide)).2 (by decide)).2.2⟩

/-! ### filterSOA / filterSOP: the coherent path and the sorting path on the buffer -/

namespace RayStream

theorem pending_count_le (octants : Nat → List Nat) (o : Nat) (ho : o < 8) (x : Nat) :
    (octants o).count x ≤ (pending octants).count x := by
  have := pending_update_count octants o [] ho x
  simp only [List.count_nil] at this
  omega

namespace Buffered

variable {Q : Type}

theorem scatterAll_spec (ops : RayOps Q) (intersect : Bool) (g : Nat → Q) (l : List Nat)
    (hnd : l.Nodup) (buf : Nat → Q) (x : Nat) :
    scatterAll ops intersect (l.map (fun o => (o, g o))) buf x =
      if x ∈ l then ops.store (buf x) (g x) intersect else buf x := by
  induction l generalizing buf with
  | nil => simp [scatterAll]
  | cons o l ih =>
    have hnd1 := List.nodup_cons.1 hnd
    simp only [List.map_cons, scatterAll]
    rw [ih hnd1.2]
    by_cases hx : x = o
    · subst hx
      simp [hnd1.1]
    · simp [hx, Function.update_noteq hx]

theorem zip_map_map {α β γ : Type} (f : α → β) (g : β → γ) (l : List α) :
    l.zip ((l.map f).map g) = l.map (fun o => (o, g (f o))) := by
  induction l with
  | nil => rfl
  | cons a l ih =>
    simp only [List.map_cons, List.zip_cons_cons, ih]

theorem flushBucket_spec (ops : RayOps Q) (intersect : Bool) (l : List Nat) (hnd : l.Nodup)
    (buf : Nat → Q) (x : Nat) :
    flushBucket ops intersect l buf x =
      if x ∈ l then ops.store (buf x) (ops.scene intersect (buf x)) intersect else buf x := by
  unfold flushBucket
  simp only [zip_map_map]
  exact scatterAll_spec ops intersect (fun o => ops.scene intersect (buf o)) l hnd buf x

theorem packetStep_spec (ops : RayOps Q) (VSIZEX N : Nat) (intersect : Bool) (offset i : Nat)
    (buf : Nat → Q) (x : Nat) :
    packetStep ops VSIZEX N intersect offset i buf x =
      if x ∈ ((List.range VSIZEX).filter (fun l => decide (i + l < N))).map
          (fun l => offset + 4 * l)
      then ops.store (buf x) (ops.scene intersect (buf x)) intersect else buf x := by
  unfold packetStep
  have hnd : (((List.range VSIZEX).filter (fun l => decide (i + l < N))).map
      (fun l => offset + 4 * l)).Nodup :=
    ((List.nodup_range VSIZEX).filter _).map (fun a b h => by simp at h; omega)
  have := scatterAll_spec ops intersect (fun o => ops.scene intersect (buf o)) _ hnd buf x
  rw [List.map_map] at this
  exact this

/-- Blocks of pairwise different offsets, each processed in one step, process
every offset of theirs once. -/
theorem foldl_blocks (ops : RayOps Q) (intersect : Bool) {ι : Type} (idx : List ι)
    (blk : ι → List Nat) (F : ι → (Nat → Q) → (Nat → Q))
    (hF : ∀ i ∈ idx, ∀ b x, F i b x =
      if x ∈ blk i then ops.store (b x) (ops.scene intersect (b x)) intersect else b x)
    (hnd : (idx.flatMap blk).Nodup) (buf : Nat → Q) (x : Nat) :
    (idx.foldl (fun b i => F i b) buf) x =
      if x ∈ idx.flatMap blk then ops.store (buf x) (ops.scene intersect (buf x)) intersect
      else buf x := by
  induction idx generalizing buf with
  | nil => simp
  | cons i is ih =>
    rw [List.flatMap_cons, List.nodup_append] at hnd
    obtain ⟨-, h2, h3⟩ := hnd
    rw [List.foldl_cons, ih (fun j hj => hF j (List.mem_cons_of_mem _ hj)) h2,
      hF i (List.mem_cons_self _ _)]
    by_cases hx : x ∈ is.flatMap blk
    · have hxi : x ∉ blk i := fun h => h3 h hx
      simp [hx, hxi]
    · simp [hx]

end Buffered

end RayStream
namespace RayStream

namespace Buffered

variable {Q : Type}

theorem filter_range_lt (V m : Nat) :
    (List.range V).filter (fun l => decide (l < m)) = List.range (min V m) := by
  induction V with
  | zero => simp
  | succ V ih =>
    rw [List.range_succ, List.filter_append, ih]
    by_cases h : V < m
    · have : min (V + 1) m = min V m + 1 := by omega
      rw [this, List.range_succ]
      have h2 : min V m = V := by omega
      simp [h, h2]
    · have : min (V + 1) m = min V m := by omega
      rw [this]
      simp [h]

theorem chunk_flatMap (V N c : Nat) :
    (List.range c).flatMap
        (fun k => ((List.range V).filter (fun l => decide (k * V + l < N))).map
          (fun l => k * V + l)) =
      List.range (min (c * V) N) := by
  induction c with
  | zero => simp
  | succ c ih =>
    rw [List.range_succ, List.flatMap_append, ih]
    simp only [List.flatMap_cons, List.flatMap_nil, List.append_nil]
    have hf : (List.range V).filter (fun l => decide (c * V + l < N)) =
        (List.range V).filter (fun l => decide (l < N - c * V)) := by
      apply List.filter_congr
      intro l _
      simp only [decide_eq_decide]
      omega
    rw [hf, filter_range_lt]
    have hmul : (c + 1) * V = c * V + V := by ring
    by_cases h : c * V < N
    · have h1 : min (c * V) N = c * V := by omega
      have h2 : min ((c + 1) * V) N = c * V + min V (N - c * V) := by omega
      rw [h1, h2, List.range_add]
    · have h1 : min V (N - c * V) = 0 := by omega
      have h2 : min ((c + 1) * V) N = min (c * V) N := by omega
      rw [h1, h2]
      simp

theorem chunks_cover (V N : Nat) (hV : 0 < V) : N ≤ (N + V - 1) / V * V := by
  have h1 := Nat.div_add_mod (N + V - 1) V
  have h2 := Nat.mod_lt (N + V - 1) hV
  rw [Nat.mul_comm] at h1
  omega

/-- The active lanes of the packets of one stream are the offsets of the stream,
in order. -/
theorem packets_offsets (V N : Nat) (hV : 0 < V) (base : Nat) :
    (List.range ((N + V - 1) / V)).flatMap
        (fun k => ((List.range V).filter (fun l => decide (k * V + l < N))).map
          (fun l => base + 4 * (k * V) + 4 * l)) =
      (List.range N).map (fun i => base + 4 * i) := by
  have h := chunk_flatMap V N ((N + V - 1) / V)
  rw [Nat.min_eq_right (chunks_cover V N hV)] at h
  rw [← h, List.map_flatMap]
  congr 1
  funext k
  rw [List.map_map]
  congr 1
  funext l
  simp only [Function.comp]
  omega

theorem filterCoherent_spec (ops : RayOps Q) (VSIZEX N streams stream_offset : Nat)
    (intersect : Bool) (hV : 0 < VSIZEX)
    (hnd : (streamOffsets N streams stream_offset).Nodup) (buf : Nat → Q) (x : Nat) :
    filterCoherent ops VSIZEX N streams stream_offset intersect buf x =
      if x ∈ streamOffsets N streams stream_offset
      then ops.store (buf x) (ops.scene intersect (buf x)) intersect else buf x := by
  unfold filterCoherent
  have hblk : ∀ s ∈ List.range streams, ((List.range N).map
      (fun i => s * stream_offset + 4 * i)).Nodup := by
    intro s hs
    unfold streamOffsets at hnd
    exact (List.nodup_flatMap.1 hnd).1 s hs
  exact foldl_blocks ops intersect (List.range streams)
    (fun s => (List.range N).map (fun i => s * stream_offset + 4 * i)) _
    (fun s hs b y => by
      have := foldl_blocks ops intersect (List.range ((N + VSIZEX - 1) / VSIZEX))
        (fun k => ((List.range VSIZEX).filter (fun l => decide (k * VSIZEX + l < N))).map
          (fun l => s * stream_offset + 4 * (k * VSIZEX) + 4 * l))
        (fun k b => packetStep ops VSIZEX N intersect (s * stream_offset + 4 * (k * VSIZEX))
            (k * VSIZEX) b)
        (fun k _ b y => packetStep_spec ops VSIZEX N intersect _ _ b y)
        (by rw [packets_offsets VSIZEX N hV]; exact hblk s hs) b y
      rw [packets_offsets VSIZEX N hV] at this
      exact this)
    hnd buf x

end Buffered

end RayStream
namespace RayStream

namespace Buffered

variable {Q : Type}

/-- The scan on the buffer: a slot still queued at the end is unchanged and was
queued before or is a valid slot visited; every other slot that was queued
before or is a valid slot visited holds the stored result of its ray. -/
theorem sortStream_spec (ops : RayOps Q) (intersect : Bool) (rest : List Nat)
    (octants : Nat → List Nat) (buf : Nat → Q)
    (hcnt : ∀ x, (pending octants).count x + rest.count x ≤ 1)
    (hoct : ∀ o ∈ rest, ops.isValid (buf o) = true → ops.getOctant (buf o) < 8) (x : Nat) :
    (pending (sortStream ops intersect rest octants buf).1).count x ≤ 1 ∧
    ((pending (sortStream ops intersect rest octants buf).1).count x = 1 →
      (sortStream ops intersect rest octants buf).2 x = buf x ∧
      ((pending octants).count x = 1 ∨ (rest.count x = 1 ∧ ops.isValid (buf x) = true))) ∧
    ((pending (sortStream ops intersect rest octants buf).1).count x = 0 →
      (sortStream ops intersect rest octants buf).2 x =
        if (pending octants).count x = 1 ∨ (rest.count x = 1 ∧ ops.isValid (buf x) = true)
        then ops.store (buf x) (ops.scene intersect (buf x)) intersect else buf x) := by
  induction rest generalizing octants buf with
  | nil =>
    have := hcnt x
    simp only [sortStream, List.count_nil] at this ⊢
    refine ⟨by omega, fun h => ⟨trivial, Or.inl h⟩, fun h => ?_⟩
    simp [h]
  | cons offset rest ih =>
    have hoct1 : ∀ o ∈ rest, ops.isValid (buf o) = true → ops.getOctant (buf o) < 8 :=
      fun o ho => hoct o (List.mem_cons_of_mem _ ho)
    have hcx := hcnt x
    have hco := hcnt offset
    simp only [List.count_cons, beq_self_eq_true, if_true] at hcx hco
    by_cases hv : ops.isValid (buf offset) = true
    · have hlt := hoct offset (List.mem_cons_self _ _) hv
      have hu1 := fun y => pending_update_count octants (ops.getOctant (buf offset))
        (octants (ops.getOctant (buf offset)) ++ [offset]) hlt y
      simp only [List.count_append, List.count_cons, List.count_nil] at hu1
      have hcnt1 : ∀ y, (pending (Function.update octants (ops.getOctant (buf offset))
          (octants (ops.getOctant (buf offset)) ++ [offset]))).count y + rest.count y ≤ 1 := by
        intro y
        have := hcnt y
        have := hu1 y
        simp only [List.count_cons] at *
        omega
      by_cases hfull : (Function.update octants (ops.getOctant (buf offset))
          (octants (ops.getOctant (buf offset)) ++ [offset])
            (ops.getOctant (buf offset))).length = MAX_RAYS_PER_OCTANT
      · -- the bucket is flushed
        have hu2 := fun y => pending_update_count (Function.update octants
          (ops.getOctant (buf offset)) (octants (ops.getOctant (buf offset)) ++ [offset]))
          (ops.getOctant (buf offset)) [] hlt y
        simp only [Function.update_same, List.count_append, List.count_cons,
          List.count_nil] at hu2
        have hble := fun y => pending_count_le (Function.update octants
          (ops.getOctant (buf offset)) (octants (ops.getOctant (buf offset)) ++ [offset]))
          (ops.getOctant (buf offset)) hlt y
        simp only [Function.update_same, List.count_append, List.count_cons,
          List.count_nil] at hble
        have hnd : (octants (ops.getOctant (buf offset)) ++ [offset]).Nodup := by
          rw [List.nodup_iff_count_le_one]
          intro y
          have := hcnt1 y
          have := hble y
          simp only [List.count_append, List.count_cons, List.count_nil]
          omega
        have hflush := flushBucket_spec ops intersect _ hnd buf
        have hmemB : ∀ y, y ∈ octants (ops.getOctant (buf offset)) ++ [offset] ↔
            0 < (octants (ops.getOctant (buf offset))).count y + (if offset == y then 1 else 0) := by
          intro y
          rw [← List.count_pos_iff]
          simp only [List.count_append, List.count_cons, List.count_nil, Nat.zero_add]
        have hcnt2 : ∀ y, (pending (Function.update (Function.update octants
            (ops.getOctant (buf offset)) (octants (ops.getOctant (buf offset)) ++ [offset]))
            (ops.getOctant (buf offset)) [])).count y + rest.count y ≤ 1 := by
          intro y
          have := hcnt1 y
          have := hu2 y
          omega
        have hrestB : ∀ o ∈ rest, o ∉ octants (ops.getOctant (buf offset)) ++ [offset] := by
          intro o ho hB
          have h1 := (hmemB o).1 hB
          have h2 := hcnt1 o
          have h3 := hble o
          have h4 : 0 < rest.count o := List.count_pos_iff.2 ho
          omega
        have hoct2 : ∀ o ∈ rest,
            ops.isValid (flushBucket ops intersect
              (octants (ops.getOctant (buf offset)) ++ [offset]) buf o) = true →
            ops.getOctant (flushBucket ops intersect
              (octants (ops.getOctant (buf offset)) ++ [offset]) buf o) < 8 := by
          intro o ho
          rw [hflush o, if_neg (hrestB o ho)]
          exact hoct1 o ho
        obtain ⟨i1, i2, i3⟩ := ih _ _ hcnt2 hoct2
        have hfull1 : (octants (ops.getOctant (buf offset)) ++ [offset]).length =
            MAX_RAYS_PER_OCTANT := by
          simpa only [Function.update_same] using hfull
        simp only [sortStream, hv, Bool.not_true, Bool.false_eq_true, if_false, if_true,
          Function.update_same, hfull1]
        have hu1x := hu1 x
        have hu2x := hu2 x
        have hblex := hble x
        have hc1x := hcnt1 x
        by_cases hxB : x ∈ octants (ops.getOctant (buf offset)) ++ [offset]
        · have hpos := (hmemB x).1 hxB
          rw [hflush x, if_pos hxB] at i2 i3
          have hcond : (pending octants).count x = 1 ∨
              ((offset :: rest).count x = 1 ∧ ops.isValid (buf x) = true) := by
            simp only [List.count_cons]
            by_cases hxo : offset = x
            · subst hxo
              right
              simp only [beq_self_eq_true, if_true] at hu1x hpos ⊢
              exact ⟨by omega, hv⟩
            · left
              have : (offset == x) = false := by simpa using hxo
              simp only [this] at hu1x hpos hcx ⊢
              simp only [Bool.false_eq_true, if_false] at hu1x hpos
              omega
          refine ⟨i1, ?_, ?_⟩
          · intro h
            obtain ⟨-, h2⟩ := i2 h
            exfalso
            rcases h2 with h2 | ⟨h2, -⟩ <;> omega
          · intro h
            have h3 := i3 h
            rw [h3, if_neg (by
              intro hh
              rcases hh with h2 | ⟨h2, -⟩ <;> omega)]
            rw [if_pos hcond]
        · have hzero : (octants (ops.getOctant (buf offset))).count x +
              (if offset == x then 1 else 0) = 0 := by
            by_contra hne
            exact hxB ((hmemB x).2 (by omega))
          have hxo : (offset == x) = false := by
            by_contra hne
            simp only [Bool.not_eq_false] at hne
            simp only [hne, if_true] at hzero
            omega
          rw [hflush x, if_neg hxB] at i2 i3
          simp only [hxo, Bool.false_eq_true, if_false] at hu1x hu2x hzero hcx
          have hP : (pending (Function.update (Function.update octants
              (ops.getOctant (buf offset)) (octants (ops.getOctant (buf offset)) ++ [offset]))
              (ops.getOctant (buf offset)) [])).count x = (pending octants).count x := by
            omega
          rw [hP] at i2 i3
          simp only [List.count_cons, hxo, Bool.false_eq_true, if_false, Nat.add_zero]
          exact ⟨i1, i2, i3⟩
      · -- the offset is queued
        obtain ⟨i1, i2, i3⟩ := ih _ buf hcnt1 hoct1
        have hfull1 : ¬ (octants (ops.getOctant (buf offset)) ++ [offset]).length =
            MAX_RAYS_PER_OCTANT := by
          simpa only [Function.update_same] using hfull
        simp only [sortStream, hv, Bool.not_true, Bool.false_eq_true, if_false,
          Function.update_same, hfull1]
        have hu1x := hu1 x
        have hc1x := hcnt1 x
        have hequiv : ((pending (Function.update octants (ops.getOctant (buf offset))
              (octants (ops.getOctant (buf offset)) ++ [offset]))).count x = 1 ∨
              (rest.count x = 1 ∧ ops.isValid (buf x) = true)) ↔
            ((pending octants).count x = 1 ∨
              ((offset :: rest).count x = 1 ∧ ops.isValid (buf x) = true)) := by
          simp only [List.count_cons]
          by_cases hxo : offset = x
          · subst hxo
            simp only [beq_self_eq_true, if_true] at hu1x ⊢
            constructor
            · intro _
              exact Or.inr ⟨by omega, hv⟩
            · intro _
              exact Or.inl (by omega)
          · have : (offset == x) = false := by simpa using hxo
            simp only [this, Bool.false_eq_true, if_false, Nat.add_zero] at hu1x ⊢
            have hP : (pending (Function.update octants (ops.getOctant (buf offset))
              (octants (ops.getOctant (buf offset)) ++ [offset]))).count x =
                (pending octants).count x := by omega
            rw [hP]
        refine ⟨i1, ?_, ?_⟩
        · intro h
          exact ⟨(i2 h).1, hequiv.1 (i2 h).2⟩
        · intro h
          rw [i3 h]
          by_cases hc : (pending octants).count x = 1 ∨
              ((offset :: rest).count x = 1 ∧ ops.isValid (buf x) = true)
          · rw [if_pos hc, if_pos (hequiv.2 hc)]
          · rw [if_neg hc, if_neg (fun h => hc (hequiv.1 h))]
    · -- the offset is skipped
      obtain ⟨i1, i2, i3⟩ := ih octants buf
        (fun y => by
          have := hcnt y
          simp only [List.count_cons] at this
          omega) hoct1
      simp only [sortStream, hv, Bool.not_false, if_true]
      have hequiv : ((pending octants).count x = 1 ∨
            (rest.count x = 1 ∧ ops.isValid (buf x) = true)) ↔
          ((pending octants).count x = 1 ∨
            ((offset :: rest).count x = 1 ∧ ops.isValid (buf x) = true)) := by
        simp only [List.count_cons]
        by_cases hxo : offset = x
        · subst hxo
          simp only [beq_self_eq_true, if_true] at hcx ⊢
          constructor
          · rintro (h | ⟨h, -⟩)
            · exact Or.inl h
            · omega
          · rintro (h | ⟨-, h⟩)
            · exact Or.inl h
            · exact absurd h hv
        · have : (offset == x) = false := by simpa using hxo
          simp only [this, Bool.false_eq_true, if_false, Nat.add_zero]
      refine ⟨i1, ?_, ?_⟩
      · intro h
        exact ⟨(i2 h).1, hequiv.1 (i2 h).2⟩
      · intro h
        rw [i3 h]
        by_cases hc : (pending octants).count x = 1 ∨
            ((offset :: rest).count x = 1 ∧ ops.isValid (buf x) = true)
        · rw [if_pos hc, if_pos (hequiv.2 hc)]
        · rw [if_neg hc, if_neg (fun h => hc (hequiv.1 h))]

end Buffered

end RayStream
namespace RayStream

namespace Buffered

variable {Q : Type}

theorem flushRemaining_spec (ops : RayOps Q) (intersect : Bool) (octants : Nat → List Nat)
    (hnd : (pending octants).Nodup) (buf : Nat → Q) (x : Nat) :
    flushRemaining ops intersect octants buf x =
      if x ∈ pending octants then ops.store (buf x) (ops.scene intersect (buf x)) intersect
      else buf x := by
  unfold flushRemaining
  unfold pending at hnd ⊢
  refine foldl_blocks ops intersect (List.range 8) octants
    (fun i b => if (octants i).length != 0 then flushBucket ops intersect (octants i) b else b)
    ?_ hnd buf x
  intro i hi b y
  by_cases hne : (octants i).length != 0
  · simp only [hne, if_true]
    exact flushBucket_spec ops intersect _ ((List.nodup_flatMap.1 hnd).1 i hi) b y
  · have h0 : octants i = [] := by simpa using hne
    simp [h0]

theorem filterSorted_spec (ops : RayOps Q) (N streams stream_offset : Nat) (intersect : Bool)
    (buf : Nat → Q) (hnd : (streamOffsets N streams stream_offset).Nodup)
    (hoct : ∀ o ∈ streamOffsets N streams stream_offset,
      ops.isValid (buf o) = true → ops.getOctant (buf o) < 8) (x : Nat) :
    filterSorted ops N streams stream_offset intersect buf x =
      if x ∈ streamOffsets N streams stream_offset ∧ ops.isValid (buf x) = true
      then ops.store (buf x) (ops.scene intersect (buf x)) intersect else buf x := by
  have h0 : ∀ y, (pending (fun _ => ([] : List Nat))).count y = 0 := by
    intro y
    rw [pending_eq]; simp
  have hcnt : ∀ y, (pending (fun _ => ([] : List Nat))).count y +
      (streamOffsets N streams stream_offset).count y ≤ 1 := by
    intro y
    rw [h0 y]
    have := List.nodup_iff_count_le_one.1 hnd y
    omega
  have hspec := sortStream_spec ops intersect (streamOffsets N streams stream_offset)
    (fun _ => []) buf hcnt hoct
  have hnd1 : (pending (sortStream ops intersect (streamOffsets N streams stream_offset)
      (fun _ => []) buf).1).Nodup :=
    List.nodup_iff_count_le_one.2 (fun y => (hspec y).1)
  simp only [filterSorted]
  rw [flushRemaining_spec ops intersect _ hnd1]
  obtain ⟨i1, i2, i3⟩ := hspec x
  rw [h0 x] at i2 i3
  have hmem : (streamOffsets N streams stream_offset).count x = 1 ↔
      x ∈ streamOffsets N streams stream_offset := by
    constructor
    · intro h
      exact List.count_pos_iff.1 (by omega)
    · intro h
      exact List.count_eq_one_of_mem hnd h
  by_cases hp : x ∈ pending (sortStream ops intersect (streamOffsets N streams stream_offset)
      (fun _ => []) buf).1
  · have hone : (pending (sortStream ops intersect (streamOffsets N streams stream_offset)
        (fun _ => []) buf).1).count x = 1 := List.count_eq_one_of_mem hnd1 hp
    obtain ⟨j1, j2⟩ := i2 hone
    rcases j2 with j2 | ⟨j2, j3⟩
    · omega
    · rw [if_pos hp, j1, if_pos ⟨hmem.1 j2, j3⟩]
  · have hzero : (pending (sortStream ops intersect (streamOffsets N streams stream_offset)
        (fun _ => []) buf).1).count x = 0 := List.count_eq_zero.2 hp
    rw [if_neg hp, i3 hzero]
    by_cases hc : x ∈ streamOffsets N streams stream_offset ∧ ops.isValid (buf x) = true
    · rw [if_pos hc, if_pos (Or.inr ⟨hmem.2 hc.1, hc.2⟩)]
    · rw [if_neg hc, if_neg]
      rintro (h | ⟨h1, h2⟩)
      · omega
      · exact hc ⟨hmem.1 h1, h2⟩

end Buffered

end RayStream

/-- C18, as stated, fails. With a scene that changes every ray, a ray that is not
valid is left alone by the sorting path, which skips it, but is handed to the
scene and stored back by the coherent path: the slot at offset 4 ends as `-1`
after sorting and as `99` after the coherent packet. And when two streams
overlap (`stream_offset = 0`) the coherent path processes the slot at offset 0
twice in a row, while the sorting path gathers it twice before the one call. -/
theorem RayStream.Buffered.coherent_differs_from_sorted :
    Example.rayOps.isValid (Example.buffer 4) = false ∧
    RayStream.Buffered.filterSOA 1 4 Example.rayOps 2 1 8 1 true Example.buffer 4 = 99 ∧
    RayStream.Buffered.filterSOA 1 4 Example.rayOps 2 1 8 0 true Example.buffer 4 = -1 ∧
    RayStream.Buffered.filterSOP 1 4 Example.rayOps 2 1 8 1 true Example.buffer 4 = 99 ∧
    RayStream.Buffered.filterSOP 1 4 Example.rayOps 2 1 8 0 true Example.buffer 4 = -1 ∧
    RayStream.Buffered.filterSOA 1 4 Example.rayOps 1 2 0 1 true Example.buffer 0 = 200 ∧
    RayStream.Buffered.filterSOA 1 4 Example.rayOps 1 2 0 0 true Example.buffer 0 = 100 := by
  refine ⟨by decide, by decide, by decide, by decide, by decide, by decide, by decide⟩

/-- C18 (amended): for `filterSOA` and `filterSOP`, with the scene's per-ray
result a deterministic function of the ray that, once stored back, leaves a ray
failing the validity predicate as it was, with the visited offsets
`s * stream_offset + 4 * i` pairwise distinct and the octant of every valid ray
below 8, processing a batch with the coherent flag and processing it through
octant sorting leave the same final contents in every slot of the buffer: a
valid visited slot holds the stored result of its ray, every other slot what it
held before. -/
theorem RayStream.Buffered.coherent_eq_sorted {Q : Type} (RTC_RAYN_COHERENT VSIZEX : Nat)
    (ops : RayOps Q) (N streams stream_offset flags : Nat) (intersect : Bool)
    (buf : Nat → Q) (hV : 0 < VSIZEX) (hflags : flags ≠ RTC_RAYN_COHERENT)
    (hnd : (streamOffsets N streams stream_offset).Nodup)
    (hoct : ∀ o ∈ streamOffsets N streams stream_offset,
      ops.isValid (buf o) = true → ops.getOctant (buf o) < 8)
    (hinv : ∀ q, ops.isValid q = false → ops.store q (ops.scene intersect q) intersect = q)
    (o : Nat) :
    filterSOA RTC_RAYN_COHERENT VSIZEX ops N streams stream_offset RTC_RAYN_COHERENT
        intersect buf o =
      filterSOA RTC_RAYN_COHERENT VSIZEX ops N streams stream_offset flags intersect buf o ∧
    filterSOP RTC_RAYN_COHERENT VSIZEX ops N streams stream_offset RTC_RAYN_COHERENT
        intersect buf o =
      filterSOP RTC_RAYN_COHERENT VSIZEX ops N streams stream_offset flags intersect buf o ∧
    filterSOA RTC_RAYN_COHERENT VSIZEX ops N streams stream_offset flags intersect buf o =
      (if o ∈ streamOffsets N streams stream_offset ∧ ops.isValid (buf o) = true
       then ops.store (buf o) (ops.scene intersect (buf o)) intersect else buf o) := by
  have hs := filterSorted_spec ops N streams stream_offset intersect buf hnd hoct o
  have hc := filterCoherent_spec ops VSIZEX N streams stream_offset intersect hV hnd buf o
  have heq : filterCoherent ops VSIZEX N streams stream_offset intersect buf o =
      filterSorted ops N streams stream_offset intersect buf o := by
    rw [hs, hc]
    by_cases hm : o ∈ streamOffsets N streams stream_offset
    · cases hval : ops.isValid (buf o)
      · simp [hm, hinv _ hval]
      · simp [hm]
    · simp [hm]
  unfold filterSOA filterSOP
  rw [if_pos rfl, if_neg hflags]
  exact ⟨heq, heq, hs⟩

/-- C18 (amended) on the integer rays with a scene that leaves the rays that are
not valid alone: the slot at offset 4, which is not valid, ends the same on both paths. -/
theorem RayStream.Buffered.coherent_eq_sorted_witness :
    RayStream.Buffered.filterSOA 1 4 Example.rayOpsStrict 2 1 8 1 true Example.buffer 4 =
      RayStream.Buffered.filterSOA 1 4 Example.rayOpsStrict 2 1 8 0 true Example.buffer 4 ∧
    RayStream.Buffered.filterSOA 1 4 Example.rayOpsStrict 2 1 8 1 true Example.buffer 0 =
      RayStream.Buffered.filterSOA 1 4 Example.rayOpsStrict 2 1 8 0 true Example.buffer 0 :=
  have hinv : ∀ q, Example.rayOpsStrict.isValid q = false →
      Example.rayOpsStrict.store q (Example.rayOpsStrict.scene true q) true = q := by
    intro q h
    simp only [Example.rayOpsStrict, decide_eq_false_iff_not] at h
    simp only [Example.rayOpsStrict, if_neg h]
  ⟨(RayStream.Buffered.coherent_eq_sorted 1 4 Example.rayOpsStrict 2 1 8 0 true Example.buffer
      (by decide) (by decide) (by decide) (by decide) hinv 4).1,
   (RayStream.Buffered.coherent_eq_sorted 1 4 Example.rayOpsStrict 2 1 8 0 true Example.buffer
      (by decide) (by decide) (by decide) (by decide) hinv 0).1⟩

/-! ### Split::partition -/

theorem Split.partitionScan_eq {R : Type} (bin : Vec3fa R → Int → Int) (split : Split R)
    (prims : List (PrimRef R)) (acc : Partitioned R) :
    Split.partitionScan bin split prims acc =
      { lprims := acc.lprims ++ prims.filter (fun p => decide (bin p.center split.dim < split.pos))
        left := acc.left +
          (prims.filter (fun p => decide (bin p.center split.dim < split.pos))).length
        rprims := acc.rprims ++
          prims.filter (fun p => !decide (bin p.center split.dim < split.pos))
        right := acc.right +
          (prims.filter (fun p => !decide (bin p.center split.dim < split.pos))).length } := by
  induction prims generalizing acc with
  | nil => simp [Split.partitionScan]
  | cons p rest ih =>
    by_cases h : bin p.center split.dim < split.pos
    · simp [Split.partitionScan, h, ih, Nat.add_assoc, Nat.add_comm 1]
    · simp [Split.partitionScan, h, ih, Nat.add_assoc, Nat.add_comm 1]

theorem filter_append_filter_not_perm {α : Type} (f : α → Bool) (l : List α) :
    List.Perm (l.filter f ++ l.filter (fun a => !f a)) l := by
  induction l with
  | nil => simp
  | cons a l ih =>
    cases h : f a
    · simp only [List.filter_cons, h, Bool.not_false, if_true, Bool.false_eq_true, if_false]
      exact List.Perm.trans List.perm_middle (List.Perm.cons a ih)
    · simp only [List.filter_cons, h, Bool.not_true, if_true, Bool.false_eq_true, if_false,
        List.cons_append]
      exact List.Perm.cons a ih

/-- C20: for every primitive set and every split, `Split::partition` is a true
partitioning: the two counts are the sizes of the two sides and sum to the
parent's count, the `(geomID, primID)` pairs of the left and right outputs
together are the pairs of the input as a multiset (the primitives themselves
are), and a primitive lands on the left exactly when the bin of its centroid on
the split dimension is below the split position, on the right otherwise. -/
theorem Split.partition_is_partitioning {R : Type} (bin : Vec3fa R → Int → Int)
    (split : Split R) (prims : List (PrimRef R)) :
    (Split.partition bin split prims).left + (Split.partition bin split prims).right =
      prims.length ∧
    (Split.partition bin split prims).left = (Split.partition bin split prims).lprims.length ∧
    (Split.partition bin split prims).right = (Split.partition bin split prims).rprims.length ∧
    List.Perm
      (((Split.partition bin split prims).lprims ++
        (Split.partition bin split prims).rprims).map (fun p => (p.geomID, p.primID)))
      (prims.map (fun p => (p.geomID, p.primID))) ∧
    List.Perm
      ((Split.partition bin split prims).lprims ++ (Split.partition bin split prims).rprims)
      prims ∧
    (∀ p, p ∈ (Split.partition bin split prims).lprims ↔
      p ∈ prims ∧ bin p.center split.dim < split.pos) ∧
    (∀ p, p ∈ (Split.partition bin split prims).rprims ↔
      p ∈ prims ∧ ¬ bin p.center split.dim < split.pos) := by
  have hperm := filter_append_filter_not_perm
    (fun p : PrimRef R => decide (bin p.center split.dim < split.pos)) prims
  unfold Split.partition
  rw [Split.partitionScan_eq]
  simp only [List.nil_append, Nat.zero_add]
  refine ⟨?_, trivial, trivial, hperm.map _, hperm, ?_, ?_⟩
  · rw [← List.length_append]
    exact hperm.length_eq
  · intro p
    simp [List.mem_filter]
  · intro p
    simp [List.mem_filter]

/-- The partition of the primitives at `x = 5, 0, 3, 6, 1` by the split at bin 2
of dimension 0 (`x < 4` goes left), in scan order. -/
theorem Split.partition_example :
    Split.partition Example.bin { sah := .fin 3, dim := 0, pos := 2 }
        [Example.prim 5, Example.prim 0, Example.prim 3, Example.prim 6, Example.prim 1] =
      { lprims := [Example.prim 0, Example.prim 3, Example.prim 1], left := 3
        rprims := [Example.prim 5, Example.prim 6], right := 2 } := by
  decide

/-! ### filterAOS: the octant of a ray -/

/-- C24: the octant that `filterAOS` computes for a ray is in `0..7` and equals
`(dir.x < 0 ? 1 : 0) + (dir.y < 0 ? 2 : 0) + (dir.z < 0 ? 4 : 0)`, whatever the
fourth lane of the direction holds; a zero component is not below zero and adds
nothing; and the scalar comparisons of the `__MIC__` branch give the same octant
as the `movemask` of the vector comparison, for every direction. -/
theorem RayStream.octantID_sign_bits {R : Type} [LinearOrderedRing R] (ray : Ray R) :
    octantID ray < 8 ∧
    octantID ray =
      (if Flt.lt ray.dir.x Flt.zero then 1 else 0) +
        (if Flt.lt ray.dir.y Flt.zero then 2 else 0) +
        (if Flt.lt ray.dir.z Flt.zero then 4 else 0) ∧
    octantID_MIC ray = octantID ray ∧
    (ray.dir.x = Flt.zero → octantID ray =
      (if Flt.lt ray.dir.y Flt.zero then 2 else 0) +
        (if Flt.lt ray.dir.z Flt.zero then 4 else 0)) ∧
    (ray.dir.y = Flt.zero → octantID ray =
      (if Flt.lt ray.dir.x Flt.zero then 1 else 0) +
        (if Flt.lt ray.dir.z Flt.zero then 4 else 0)) ∧
    (ray.dir.z = Flt.zero → octantID ray =
      (if Flt.lt ray.dir.x Flt.zero then 1 else 0) +
        (if Flt.lt ray.dir.y Flt.zero then 2 else 0)) := by
  have hz : Flt.lt (Flt.zero : Flt R) Flt.zero = false := by
    simp [Flt.lt, Flt.zero]
  have heq : octantID ray =
      (if Flt.lt ray.dir.x Flt.zero then 1 else 0) +
        (if Flt.lt ray.dir.y Flt.zero then 2 else 0) +
        (if Flt.lt ray.dir.z Flt.zero then 4 else 0) := movemask_and_eq _ _ _ _
  refine ⟨octantID_lt ray, heq, ?_, ?_, ?_, ?_⟩
  · rw [heq]
    unfold octantID_MIC
    cases Flt.lt ray.dir.x Flt.zero <;> cases Flt.lt ray.dir.y Flt.zero <;>
      cases Flt.lt ray.dir.z Flt.zero <;> decide
  · intro h
    rw [heq, h, hz]
    simp
  · intro h
    rw [heq, h, hz]
    simp
  · intro h
    rw [heq, h, hz]
    simp

/-- C24 on the ray with direction `(-1, 1, 1)`: octant 1 by both definitions. -/
theorem RayStream.octantID_sign_bits_witness :
    RayStream.octantID Example.rayNPP = 1 ∧ RayStream.octantID_MIC Example.rayNPP = 1 ∧
    RayStream.octantID Example.rayPPP = 0 :=
  ⟨by decide,
   by rw [(RayStream.octantID_sign_bits Example.rayNPP).2.2.1]; decide,
   by decide⟩

/-! ### The records that become leaves -/

namespace BVHBuilderSAH2

theorem largeLeafRounds_no_createLeaf {R S P : Type} (b : BVHBuilderSAH2 R S P)
    (depth : Nat) (cs : List (BuildRecord R S P)) :
    ∀ e ∈ (largeLeafRounds b depth cs).2, ∀ cur, e ≠ BuildEvent.createLeaf cur :=
  (splitLoop_invariant (fun cs => (largestChild b cs 0 none 0).1) (largeLeafStep b depth)
    b.branchingFactor (fun _ => True)
    (fun e : BuildEvent R S P => ∀ cur, e ≠ BuildEvent.createLeaf cur)
    (fun cs best _ _ => ⟨trivial, by simp [largeLeafStep]⟩)
    _ cs trivial).2

theorem recurseRounds_no_createLeaf {R S P : Type} [LinearOrderedRing R]
    (b : BVHBuilderSAH2 R S P) (toplevel : Bool) (depth : Nat)
    (cs : List (BuildRecord R S P)) :
    ∀ e ∈ (recurseRounds b toplevel depth cs).2, ∀ cur, e ≠ BuildEvent.createLeaf cur :=
  (splitLoop_invariant (fun cs => (bestChildLoop b cs 0 none Flt.zero).1)
    (recurseStep b toplevel depth) b.branchingFactor (fun _ => True)
    (fun e : BuildEvent R S P => ∀ cur, e ≠ BuildEvent.createLeaf cur)
    (fun cs best _ _ => ⟨trivial, by
        intro e he cur
        simp only [recurseStep, List.mem_cons, List.mem_singleton, List.mem_nil_iff,
          or_false] at he
        rcases he with he | he | he
        · subst he
          unfold partition
          split
          · simp
          · split <;> simp
        · subst he
          unfold findEvent
          split <;> simp
        · subst he
          unfold findEvent
          split <;> simp⟩)
    _ cs trivial).2

/-- Every leaf created by `createLargeLeaf` is created for a record that passed
the depth check and the size test. -/
theorem createLargeLeafFuel_leaves {R S P : Type} (b : BVHBuilderSAH2 R S P)
    (fuel : Nat) (current : BuildRecord R S P) :
    ∀ e ∈ (createLargeLeafFuel b fuel current).trace, ∀ cur,
      e = BuildEvent.createLeaf cur → b.size cur ≤ b.maxLeafSize ∧ cur.depth ≤ b.maxDepth := by
  induction fuel generalizing current with
  | zero => simp [createLargeLeafFuel]
  | succ fuel ih =>
    unfold createLargeLeafFuel
    split
    · simp
    · rename_i hd
      split
      · rename_i hs
        intro e he cur hev
        simp only [List.mem_singleton] at he
        rw [he] at hev
        simp only [BuildEvent.createLeaf.injEq] at hev
        rw [← hev]
        exact ⟨hs, by omega⟩
      · intro e he cur hev
        rw [Outcome.andThen_done_trace] at he
        simp only [List.mem_append, List.mem_singleton] at he
        rcases he with (he | he) | he
        · exact absurd hev (largeLeafRounds_no_createLeaf b _ _ e he cur)
        · rw [he] at hev
          cases hev
        · exact Outcome.forEach_trace_all
            (fun e => ∀ cur, e = BuildEvent.createLeaf cur →
              b.size cur ≤ b.maxLeafSize ∧ cur.depth ≤ b.maxDepth)
            _ _ (fun c _ => ih c) e he cur hev

theorem recurse_leaves {R S P : Type} [LinearOrderedRing R] (b : BVHBuilderSAH2 R S P)
    (fuel : Nat) (toplevel : Bool) (record : BuildRecord R S P) :
    ∀ e ∈ (recurse b fuel toplevel record).trace, ∀ cur,
      e = BuildEvent.createLeaf cur → b.size cur ≤ b.maxLeafSize ∧ cur.depth ≤ b.maxDepth := by
  induction fuel generalizing toplevel record with
  | zero => simp [recurse]
  | succ fuel ih =>
    unfold recurse
    by_cases hleaf : b.leafTest record = true
    · rw [if_pos hleaf]
      exact createLargeLeafFuel_leaves b _ record
    · rw [if_neg hleaf]
      intro e he cur hev
      rw [Outcome.andThen_done_trace] at he
      simp only [List.mem_append, List.mem_singleton] at he
      rcases he with (he | he) | he
      · exact absurd hev (recurseRounds_no_createLeaf b _ _ _ e he cur)
      · rw [he] at hev
        cases hev
      · refine Outcome.forEach_trace_all
          (fun e => ∀ cur, e = BuildEvent.createLeaf cur →
            b.size cur ≤ b.maxLeafSize ∧ cur.depth ≤ b.maxDepth)
          _ _ (fun c _ e he => ?_) e he cur hev
        rw [Outcome.andThen_done_trace] at he
        simp only [List.singleton_append, List.mem_cons] at he
        rcases he with he | he
        · intro cur hev
          rw [he] at hev
          cases hev
        · exact ih _ c e he

end BVHBuilderSAH2

/-- C25: every `createLeaf` call made during a build (by the entry function, by
`recurse` or by `createLargeLeaf`, at any nesting) receives a record whose count is
at most `maxLeafSize` and whose depth is at most `maxDepth`, whichever condition
of the leaf test sent the record to `createLargeLeaf`, so also for
`count <= minLeafSize` with `minLeafSize > maxLeafSize`. -/
theorem BVHBuilderSAH2.createLeaf_within_limits {R S P : Type} [LinearOrderedRing R]
    (b : BVHBuilderSAH2 R S P) (fuel : Nat) (toplevel : Bool) (record : BuildRecord R S P)
    (cur : BuildRecord R S P) :
    (BuildEvent.createLeaf cur ∈ (b.build fuel record).trace →
      b.size cur ≤ b.maxLeafSize ∧ cur.depth ≤ b.maxDepth) ∧
    (BuildEvent.createLeaf cur ∈ (b.recurse fuel toplevel record).trace →
      b.size cur ≤ b.maxLeafSize ∧ cur.depth ≤ b.maxDepth) ∧
    (BuildEvent.createLeaf cur ∈ (b.createLargeLeaf record).trace →
      b.size cur ≤ b.maxLeafSize ∧ cur.depth ≤ b.maxDepth) := by
  refine ⟨?_, fun h => recurse_leaves b fuel toplevel record _ h cur rfl,
    fun h => createLargeLeafFuel_leaves b _ record _ h cur rfl⟩
  intro h
  unfold build at h
  rw [Outcome.andThen_done_trace] at h
  simp only [List.singleton_append, List.mem_cons] at h
  rcases h with h | h
  · unfold findEvent at h
    split at h <;> cases h
  · exact recurse_leaves b fuel _ _ _ h cur rfl

/-- C25 on the range instance with `minLeafSize = 8 > maxLeafSize = 4`: a record of
six primitives is sent to `createLargeLeaf` by `count <= minLeafSize`, and the
leaves created hold three primitives each. -/
theorem BVHBuilderSAH2.createLeaf_within_limits_witness :
    (Example.builder 4 32 8 4).leafTest (Example.record 1 6) = true ∧
    BuildEvent.createLeaf
        ({ depth := 2, prims := (0, 3), pinfo := 3, split := Split.invalid } :
          BuildRecord Int (Nat × Nat) Nat) ∈
      ((Example.builder 4 32 8 4).recurse 3 false (Example.record 1 6)).trace ∧
    (Example.builder 4 32 8 4).size
        ({ depth := 2, prims := (0, 3), pinfo := 3, split := Split.invalid } :
          BuildRecord Int (Nat × Nat) Nat) ≤ (Example.builder 4 32 8 4).maxLeafSize ∧
    ({ depth := 2, prims := (0, 3), pinfo := 3, split := Split.invalid } :
          BuildRecord Int (Nat × Nat) Nat).depth ≤ (Example.builder 4 32 8 4).maxDepth :=
  have hmem : BuildEvent.createLeaf
        ({ depth := 2, prims := (0, 3), pinfo := 3, split := Split.invalid } :
          BuildRecord Int (Nat × Nat) Nat) ∈
      ((Example.builder 4 32 8 4).recurse 3 false (Example.record 1 6)).trace := by decide
  ⟨by decide, hmem,
    ((BVHBuilderSAH2.createLeaf_within_limits (Example.builder 4 32 8 4) 3 false
      (Example.record 1 6) _).2.1 hmem).1,
    ((BVHBuilderSAH2.createLeaf_within_limits (Example.builder 4 32 8 4) 3 false
      (Example.record 1 6) _).2.1 hmem).2⟩

/-! ### The depth of the children of a node -/

namespace BVHBuilderSAH2

theorem recurseStep_depth {R S P : Type} [LinearOrderedRing R] (b : BVHBuilderSAH2 R S P)
    (toplevel : Bool) (depth : Nat) (cs : List (BuildRecord R S P)) (best : Nat)
    (h : ∀ c ∈ cs, c.depth = depth + 1) :
    ∀ c ∈ (recurseStep b toplevel depth cs best).1, c.depth = depth + 1 := by
  intro c hcm
  simp only [recurseStep, List.mem_append, List.mem_singleton] at hcm
  rcases hcm with hcm | hcm
  · rcases mem_set_of _ _ _ _ hcm with hcm | hcm
    · subst hcm
      exact (partition_depth b toplevel _ _ _).1
    · exact h c hcm
  · subst hcm
    exact (partition_depth b toplevel _ _ _).2

/-- The first round of `recurse` replaces the record by the two sides of its
split, one level down. -/
theorem recurseStep_first_depth {R S P : Type} [LinearOrderedRing R]
    (b : BVHBuilderSAH2 R S P) (toplevel : Bool) (record : BuildRecord R S P) (p : Nat)
    (hp : (bestChildLoop b [record] 0 none Flt.zero).1 = some p) :
    ∀ c ∈ (recurseStep b toplevel record.depth [record] p).1, c.depth = record.depth + 1 := by
  have hp0 : p = 0 := by
    have := bestChildLoop_lt b [record] 0 none Flt.zero p (by simp) hp
    simpa using this
  subst hp0
  intro c hc
  simp only [recurseStep, List.set_cons_zero, List.singleton_append, List.mem_cons,
    List.mem_singleton, List.mem_nil_iff, or_false] at hc
  rcases hc with hc | hc
  · subst hc
    exact (partition_depth b toplevel _ _ _).1
  · subst hc
    exact (partition_depth b toplevel _ _ _).2

/-- The children of the inner node of `recurse`: the record alone when no round
ran, otherwise at least two records, all one level below the record. -/
theorem recurseRounds_children {R S P : Type} [LinearOrderedRing R]
    (b : BVHBuilderSAH2 R S P) (toplevel : Bool) (record : BuildRecord R S P) :
    ((bestChildLoop b [record] 0 none Flt.zero).1 = none ∧
      (recurseRounds b toplevel record.depth [record]).1 = [record]) ∨
    ((∃ p, (bestChildLoop b [record] 0 none Flt.zero).1 = some p) ∧
      2 ≤ (recurseRounds b toplevel record.depth [record]).1.length ∧
      ∀ c ∈ (recurseRounds b toplevel record.depth [record]).1,
        c.depth = record.depth + 1) := by
  cases hs : (bestChildLoop b [record] 0 none Flt.zero).1 with
  | none =>
    left
    refine ⟨rfl, ?_⟩
    unfold recurseRounds
    rw [splitLoop_none _ _ _ _ _ hs]
  | some p =>
    right
    refine ⟨⟨p, rfl⟩, ?_, ?_⟩
    · refine splitLoop_invariant_of_first
        (fun cs => (bestChildLoop b cs 0 none Flt.zero).1)
        (recurseStep b toplevel record.depth) b.branchingFactor
        (fun cs => 2 ≤ cs.length)
        (fun cs best hinv _ => by
          show 2 ≤ (recurseStep b toplevel record.depth cs best).1.length
          have : 2 ≤ cs.length := hinv
          rw [recurseStep_length]; omega)
        b.branchingFactor [record] p hs (by
          show 2 ≤ (recurseStep b toplevel record.depth [record] p).1.length
          rw [recurseStep_length]; simp)
    · exact splitLoop_invariant_of_first
        (fun cs => (bestChildLoop b cs 0 none Flt.zero).1)
        (recurseStep b toplevel record.depth) b.branchingFactor
        (fun cs => ∀ c ∈ cs, c.depth = record.depth + 1)
        (fun cs best hinv _ => recurseStep_depth b toplevel record.depth cs best hinv)
        b.branchingFactor [record] p hs (recurseStep_first_depth b toplevel record p hs)

/-- The children of the node of `createLargeLeaf`: a round always runs, so they
are at least two records, all one level below the record. -/
theorem largeLeafRounds_children {R S P : Type} (b : BVHBuilderSAH2 R S P)
    (current : BuildRecord R S P) (h : b.maxLeafSize < b.size current) :
    (∃ p, (largestChild b [current] 0 none 0).1 = some p) ∧
    2 ≤ (largeLeafRounds b current.depth [current]).1.length ∧
    ∀ c ∈ (largeLeafRounds b current.depth [current]).1, c.depth = current.depth + 1 := by
  refine ⟨⟨0, largestChild_single b current h⟩, ?_, largeLeafRounds_depth b current h⟩
  exact splitLoop_invariant_of_first (fun cs => (largestChild b cs 0 none 0).1)
    (largeLeafStep b current.depth) b.branchingFactor
    (fun cs => 2 ≤ cs.length)
    (fun cs best hinv _ => by
      show 2 ≤ (largeLeafStep b current.depth cs best).1.length
      have : 2 ≤ cs.length := hinv
      rw [largeLeafStep_length]; omega)
    b.branchingFactor [current] 0 (largestChild_single b current h)
    (by
      show 2 ≤ (largeLeafStep b current.depth [current] 0).1.length
      rw [largeLeafStep_length]; simp)

end BVHBuilderSAH2

/-- C28: whenever at least one split round has run, every child record that
`recurse` passes to `createNode` and `spawn`, and every child record that
`createLargeLeaf` passes to `createNode` and recurses into, has depth exactly one
greater than the depth of the record being processed, however many rounds
produced it. In `createLargeLeaf` a round always runs before `createNode`; in
`recurse` the only other case is that no round ran and the child list is the
record itself. The same holds of every `createNode` call in the traces. -/
theorem BVHBuilderSAH2.children_one_level_down {R S P : Type} [LinearOrderedRing R]
    (b : BVHBuilderSAH2 R S P) (record : BuildRecord R S P) :
    (∀ toplevel p, (bestChildLoop b [record] 0 none Flt.zero).1 = some p →
      ∀ c ∈ (recurseRounds b toplevel record.depth [record]).1,
        c.depth = record.depth + 1) ∧
    (∀ toplevel, (bestChildLoop b [record] 0 none Flt.zero).1 = none →
      (recurseRounds b toplevel record.depth [record]).1 = [record]) ∧
    (∀ p, (largestChild b [record] 0 none 0).1 = some p →
      ∀ c ∈ (largeLeafRounds b record.depth [record]).1, c.depth = record.depth + 1) ∧
    (∀ fuel toplevel,
      b.leafTest record = false →
      (b.recurse (fuel + 1) toplevel record).trace =
        (recurseRounds b toplevel record.depth [record]).2 ++
          BuildEvent.createNode record (recurseRounds b toplevel record.depth [record]).1 ::
          (Outcome.forEach
            (fun c => Outcome.andThen { trace := [.spawn c], status := .done }
              (b.recurse fuel (b.toplevelOf c) c))
            (recurseRounds b toplevel record.depth [record]).1).trace) ∧
    (∀ fuel toplevel cur children,
      BuildEvent.createNode cur children ∈ (b.recurse fuel toplevel record).trace →
        children = [cur] ∨
        (2 ≤ children.length ∧ ∀ c ∈ children, c.depth = cur.depth + 1)) ∧
    (∀ cur children,
      BuildEvent.createNode cur children ∈ (b.createLargeLeaf record).trace →
        2 ≤ children.length ∧ ∀ c ∈ children, c.depth = cur.depth + 1) := by
  have hlarge : ∀ current : BuildRecord R S P, current.depth ≤ b.maxDepth →
      b.maxLeafSize < b.size current →
      2 ≤ (largeLeafRounds b current.depth [current]).1.length ∧
      ∀ c ∈ (largeLeafRounds b current.depth [current]).1, c.depth = current.depth + 1 :=
    fun current _ h => (largeLeafRounds_children b current h).2
  refine ⟨?_, ?_, ?_, ?_, ?_, ?_⟩
  · intro toplevel p hp
    rcases recurseRounds_children b toplevel record with ⟨h, -⟩ | ⟨-, -, h⟩
    · rw [hp] at h
      cases h
    · exact h
  · intro toplevel hn
    rcases recurseRounds_children b toplevel record with ⟨-, h⟩ | ⟨⟨p, hp⟩, -, -⟩
    · exact h
    · rw [hn] at hp
      cases hp
  · intro p hp
    by_cases h : b.maxLeafSize < b.size record
    · exact largeLeafRounds_depth b record h
    · simp [largestChild, Nat.le_of_not_lt h] at hp
  · intro fuel toplevel hleaf
    conv_lhs => unfold recurse
    rw [if_neg (by simp [hleaf]), Outcome.andThen_done_trace, List.append_assoc]
    rfl
  · intro fuel toplevel cur children h
    refine recurse_nodes b
      (fun cur children => children = [cur] ∨
        (2 ≤ children.length ∧ ∀ c ∈ children, c.depth = cur.depth + 1))
      (fun current hd hs => Or.inr (hlarge current hd hs))
      (fun toplevel record _ => ?_) fuel toplevel record _ h cur children rfl
    rcases recurseRounds_children b toplevel record with ⟨-, h⟩ | ⟨-, h⟩
    · exact Or.inl h
    · exact Or.inr h
  · intro cur children h
    exact createLargeLeafFuel_nodes b
      (fun cur children => 2 ≤ children.length ∧ ∀ c ∈ children, c.depth = cur.depth + 1)
      hlarge _ record _ h cur children rfl

/-- C28 on the range instance: the first round of `recurse` on eight primitives
at depth 1 selects the record, and the four children of the node are at depth 2. -/
theorem BVHBuilderSAH2.children_one_level_down_witness :
    ((Example.builder 4 32 1 2).bestChildLoop [Example.record 1 8] 0 none Flt.zero).1 =
      some 0 ∧
    ∀ c ∈ ((Example.builder 4 32 1 2).recurseRounds false (Example.record 1 8).depth
        [Example.record 1 8]).1, c.depth = (Example.record 1 8).depth + 1 :=
  ⟨by decide,
   (BVHBuilderSAH2.children_one_level_down (Example.builder 4 32 1 2)
      (Example.record 1 8)).1 false 0 (by decide)⟩

/-! ### recurse: the first selection round -/

/-- C26, as stated, fails: a split cost, a leaf cost or a half-area that is not a
number leaves the first round without a child. On the range instance (unit
costs, half-area 1) a record of ten primitives whose split cost is NaN is not on
the leaf path, no child is selected, and the record itself is passed to
`createNode` and spawned. The same happens for primitives without finite bounds
(half-area, leaf cost and split cost `+inf`, which are not negative). -/
theorem BVHBuilderSAH2.first_round_finds_no_child :
    (Example.builder 2 32 1 4).intCost = Flt.fin 1 ∧
    (Example.builder 2 32 1 4).travCost = Flt.fin 1 ∧
    (Example.builder 2 32 1 4).info.halfArea 10 = Flt.fin 1 ∧
    (Example.builder 2 32 1 4).leafTest
        { depth := 1, prims := (0, 10), pinfo := 10,
          split := { sah := Flt.nan, dim := 0, pos := 1 } } = false ∧
    ((Example.builder 2 32 1 4).bestChildLoop
        [{ depth := 1, prims := (0, 10), pinfo := 10,
           split := { sah := Flt.nan, dim := 0, pos := 1 } }] 0 none Flt.zero).1 = none ∧
    ((Example.builder 2 32 1 4).recurse 2 false
        { depth := 1, prims := (0, 10), pinfo := 10,
          split := { sah := Flt.nan, dim := 0, pos := 1 } }).trace.take 2 =
      [.createNode
          { depth := 1, prims := (0, 10), pinfo := 10,
            split := { sah := Flt.nan, dim := 0, pos := 1 } }
          [{ depth := 1, prims := (0, 10), pinfo := 10,
             split := { sah := Flt.nan, dim := 0, pos := 1 } }],
       .spawn
          { depth := 1, prims := (0, 10), pinfo := 10,
            split := { sah := Flt.nan, dim := 0, pos := 1 } }] ∧
    (Example.unboundedBuilder 2 32 1 4).intCost = Flt.fin 1 ∧
    (Example.unboundedBuilder 2 32 1 4).travCost = Flt.fin 1 ∧
    (Example.unboundedBuilder 2 32 1 4).info.halfArea 10 = Flt.pinf ∧
    (Example.unboundedBuilder 2 32 1 4).leafTest
        { depth := 1, prims := (0, 10), pinfo := 10, split := Split.invalid } = false ∧
    ((Example.unboundedBuilder 2 32 1 4).bestChildLoop
        [{ depth := 1, prims := (0, 10), pinfo := 10, split := Split.invalid }]
        0 none Flt.zero).1 = none ∧
    ((Example.unboundedBuilder 2 32 1 4).recurse 2 false
        { depth := 1, prims := (0, 10), pinfo := 10, split := Split.invalid }).trace.take 2 =
      [.createNode { depth := 1, prims := (0, 10), pinfo := 10, split := Split.invalid }
          [{ depth := 1, prims := (0, 10), pinfo := 10, split := Split.invalid }],
       .spawn { depth := 1, prims := (0, 10), pinfo := 10, split := Split.invalid }] := by
  refine ⟨rfl, rfl, rfl, by decide, by decide, by decide, rfl, rfl, rfl, by decide, by decide,
    by decide⟩

/-- C26 (amended): if `intCost > 0`, `travCost >= 0` and the half-area of the
record's bounds is non-negative, none of the costs computed for the record is
NaN (its leaf cost, its split cost and its delta) and the float arithmetic
rounds as a float format does, then whenever `recurse` does not take the leaf
path its first selection round selects the record, so the inner node it creates
has at least two children, all one level below the record: the record itself
is not among the children passed to `createNode` and `spawn`. -/
theorem BVHBuilderSAH2.first_round_finds_child {R S P : Type} [LinearOrderedRing R]
    (b : BVHBuilderSAH2 R S P) (fuel : Nat) (toplevel : Bool) (record : BuildRecord R S P)
    (hr : Flt.IsRounding b.round)
    (hi : Flt.lt Flt.zero b.intCost = true) (ht : Flt.le Flt.zero b.travCost = true)
    (hh : Flt.le Flt.zero (b.info.halfArea record.pinfo) = true)
    (hcd : b.CostsDefined record.pinfo record.split.sah)
    (hleaf : b.leafTest record = false) :
    (bestChildLoop b [record] 0 none Flt.zero).1 = some 0 ∧
    ∃ children,
      children = (recurseRounds b toplevel record.depth [record]).1 ∧
      (b.recurse (fuel + 1) toplevel record).trace =
        (recurseRounds b toplevel record.depth [record]).2 ++
          BuildEvent.createNode record children ::
          (Outcome.forEach
            (fun c => Outcome.andThen { trace := [.spawn c], status := .done }
              (b.recurse fuel (b.toplevelOf c) c)) children).trace ∧
      2 ≤ children.length ∧
      ∀ c ∈ children, c.depth = record.depth + 1 ∧ c ≠ record := by
  have hsel := first_round_selects_record b hr record hi ht hh hcd hleaf
  refine ⟨hsel, _, rfl, ?_, ?_, ?_⟩
  · conv_lhs => unfold recurse
    rw [if_neg (by simp [hleaf]), Outcome.andThen_done_trace, List.append_assoc]
    rfl
  · rcases recurseRounds_children b toplevel record with ⟨hn, -⟩ | ⟨-, h2, -⟩
    · rw [hsel] at hn
      cases hn
    · exact h2
  · intro c hc
    rcases recurseRounds_children b toplevel record with ⟨hn, -⟩ | ⟨-, -, h3⟩
    · rw [hsel] at hn
      cases hn
    · refine ⟨h3 c hc, ?_⟩
      intro heq
      have := h3 c hc
      rw [heq] at this
      omega

/-- C26 (amended) on the range instance: ten primitives at depth 1 (unit costs,
half-area 1, leaf cost 10, split cost 9) are not on the leaf path and are split
in the first round. -/
theorem BVHBuilderSAH2.first_round_finds_child_witness :
    ((Example.builder 2 32 8 4).bestChildLoop [Example.record 1 10] 0 none Flt.zero).1 =
      some 0 ∧
    2 ≤ ((Example.builder 2 32 8 4).recurseRounds false (Example.record 1 10).depth
      [Example.record 1 10]).1.length :=
  match BVHBuilderSAH2.first_round_finds_child (Example.builder 2 32 8 4) 2 false
      (Example.record 1 10) Flt.isRounding_fin rfl rfl rfl
      ⟨by decide, by decide, by decide⟩ (by decide) with
  | ⟨h1, _, hc, _, h2, _⟩ => ⟨h1, hc ▸ h2⟩

/-! ### The child arrays -/

theorem splitLoopRounds_bound {α ε : Type} (select : List α → Option Nat)
    (step : List α → Nat → List α × List ε) (bf : Nat)
    (hstep : ∀ cs best, (step cs best).1.length = cs.length + 1)
    (hsel : ∀ cs best, select cs = some best → best < cs.length)
    (k : Nat) (children : List α) :
    ∀ nb ∈ splitLoopRounds select step bf k children,
      children.length ≤ nb.1 ∧ nb.2 < nb.1 ∧ nb.1 + 1 ≤ max (children.length + 1) bf := by
  induction k generalizing children with
  | zero =>
    intro nb hnb
    unfold splitLoopRounds at hnb
    cases hs : select children with
    | none => simp [hs] at hnb
    | some best =>
      have hb := hsel children best hs
      simp only [hs] at hnb
      split at hnb
      · simp only [List.mem_singleton] at hnb
        subst hnb
        exact ⟨le_refl _, hb, le_max_left _ _⟩
      · simp only [List.mem_singleton] at hnb
        subst hnb
        exact ⟨le_refl _, hb, le_max_left _ _⟩
  | succ k ih =>
    intro nb hnb
    unfold splitLoopRounds at hnb
    cases hs : select children with
    | none => simp [hs] at hnb
    | some best =>
      have hb := hsel children best hs
      simp only [hs] at hnb
      by_cases hlen : (step children best).1.length < bf
      · simp only [hlen, if_true, List.mem_cons] at hnb
        rcases hnb with hnb | hnb
        · subst hnb
          exact ⟨le_refl _, hb, le_max_left _ _⟩
        · have h := ih (step children best).1 nb hnb
          rw [hstep] at h hlen
          have hm : max (children.length + 1 + 1) bf = bf := max_eq_right (by omega)
          rw [hm] at h
          exact ⟨by omega, h.2.1, le_trans h.2.2 (le_max_right _ _)⟩
      · simp only [hlen, if_false, List.mem_singleton] at hnb
        subst hnb
        exact ⟨le_refl _, hb, le_max_left _ _⟩

/-- Every round adds one child: the loop ends with as many children more as rounds
were run. -/
theorem splitLoopRounds_length {α ε : Type} (select : List α → Option Nat)
    (step : List α → Nat → List α × List ε) (bf : Nat)
    (hstep : ∀ cs best, (step cs best).1.length = cs.length + 1)
    (k : Nat) (children : List α) :
    (splitLoop select step bf k children).1.length =
      children.length + (splitLoopRounds select step bf k children).length := by
  induction k generalizing children with
  | zero =>
    unfold splitLoopRounds
    cases hs : select children with
    | none => rw [splitLoop_none _ _ _ _ _ hs]; simp
    | some best =>
      rw [splitLoop_zero _ _ _ _ _ hs, hstep]
      simp only []
      split <;> simp
  | succ k ih =>
    unfold splitLoopRounds
    cases hs : select children with
    | none => rw [splitLoop_none _ _ _ _ _ hs]; simp
    | some best =>
      by_cases hlen : (step children best).1.length < bf
      · rw [splitLoop_succ _ _ _ _ _ _ hs hlen]
        simp only [hlen, if_true, List.length_cons]
        rw [ih, hstep]
        omega
      · rw [splitLoop_stop _ _ _ _ _ _ hs hlen, hstep]
        simp [hlen]

/-- C27: for every `branchingFactor <= 16`, 0 and 1 included, the child count in
`recurse` and in `createLargeLeaf` never exceeds `max(2, branchingFactor) <= 16`:
every round is entered with fewer children than that, so every index it writes
in the 16-entry arrays `children` and `pchildren` is below 16, and the count
passed to `createNode` is at most `max(2, branchingFactor)`. -/
theorem BVHBuilderSAH2.children_fit_arrays {R S P : Type} [LinearOrderedRing R]
    (b : BVHBuilderSAH2 R S P) (hbf : b.branchingFactor ≤ MAX_BRANCHING_FACTOR)
    (record : BuildRecord R S P) :
    max 2 b.branchingFactor ≤ 16 ∧
    (∀ nb ∈ largeLeafRoundsRun b record.depth [record],
      nb.1 + 1 ≤ max 2 b.branchingFactor ∧ ∀ i ∈ largeLeafWrites nb.1 nb.2, i < 16) ∧
    (∀ toplevel, ∀ nb ∈ recurseRoundsRun b toplevel record.depth [record],
      nb.1 + 1 ≤ max 2 b.branchingFactor ∧ ∀ i ∈ recurseWrites nb.1 nb.2, i < 16) ∧
    ((largeLeafRounds b record.depth [record]).1.length =
        1 + (largeLeafRoundsRun b record.depth [record]).length ∧
      (largeLeafRounds b record.depth [record]).1.length ≤ max 2 b.branchingFactor) ∧
    (∀ toplevel,
      (recurseRounds b toplevel record.depth [record]).1.length =
        1 + (recurseRoundsRun b toplevel record.depth [record]).length ∧
      (recurseRounds b toplevel record.depth [record]).1.length ≤ max 2 b.branchingFactor) ∧
    (∀ fuel toplevel cur children,
      BuildEvent.createNode cur children ∈ (b.recurse fuel toplevel record).trace →
        children.length ≤ max 2 b.branchingFactor) ∧
    (∀ cur children,
      BuildEvent.createNode cur children ∈ (b.createLargeLeaf record).trace →
        children.length ≤ max 2 b.branchingFactor) := by
  have h16 : max 2 b.branchingFactor ≤ 16 := by
    simp only [MAX_BRANCHING_FACTOR] at hbf
    omega
  have hlarge : ∀ current : BuildRecord R S P,
      (largeLeafRounds b current.depth [current]).1.length ≤ max 2 b.branchingFactor :=
    fun current => (largeLeafRounds_length b current.depth [current]).2
  have hrec : ∀ toplevel (r : BuildRecord R S P),
      (recurseRounds b toplevel r.depth [r]).1.length ≤ max 2 b.branchingFactor :=
    fun toplevel r => (recurseRounds_length b toplevel r.depth [r]).2
  refine ⟨h16, ?_, ?_,
    ⟨splitLoopRounds_length _ _ _ (largeLeafStep_length b record.depth) _ _, hlarge record⟩,
    fun toplevel =>
      ⟨splitLoopRounds_length _ _ _ (recurseStep_length b toplevel record.depth) _ _,
        hrec toplevel record⟩, ?_, ?_⟩
  · intro nb hnb
    have h := splitLoopRounds_bound (fun cs => (largestChild b cs 0 none 0).1)
      (largeLeafStep b record.depth) b.branchingFactor (largeLeafStep_length b record.depth)
      (fun cs best hs => by
        have := largestChild_lt b cs 0 none 0 best (by simp) hs
        omega)
      b.branchingFactor [record] nb hnb
    simp only [List.length_singleton] at h
    refine ⟨h.2.2, ?_⟩
    intro i hi
    simp only [largeLeafWrites, List.mem_cons, List.mem_singleton, List.mem_nil_iff,
      or_false] at hi
    have := h.2.1
    have := h.2.2
    rcases hi with hi | hi | hi | hi <;> omega
  · intro toplevel nb hnb
    have h := splitLoopRounds_bound (fun cs => (bestChildLoop b cs 0 none Flt.zero).1)
      (recurseStep b toplevel record.depth) b.branchingFactor
      (recurseStep_length b toplevel record.depth)
      (fun cs best hs => by
        have := bestChildLoop_lt b cs 0 none Flt.zero best (by simp) hs
        omega)
      b.branchingFactor [record] nb hnb
    simp only [List.length_singleton] at h
    refine ⟨h.2.2, ?_⟩
    intro i hi
    simp only [recurseWrites, List.mem_cons, List.mem_singleton, List.mem_nil_iff,
      or_false] at hi
    have := h.2.1
    have := h.2.2
    rcases hi with hi | hi | hi <;> omega
  · intro fuel toplevel cur children h
    exact recurse_nodes b (fun _ children => children.length ≤ max 2 b.branchingFactor)
      (fun current _ _ => hlarge current) (fun toplevel r _ => hrec toplevel r)
      fuel toplevel record _ h cur children rfl
  · intro cur children h
    exact createLargeLeafFuel_nodes b
      (fun _ children => children.length ≤ max 2 b.branchingFactor)
      (fun current _ _ => hlarge current) _ record _ h cur children rfl

/-- C27 on the range instance with `branchingFactor = 1`: the one round of
`createLargeLeaf` on ten primitives is entered with one child and writes the
entries 0 and 1, and the node gets two children. -/
theorem BVHBuilderSAH2.children_fit_arrays_witness :
    (Example.builder 1 32 8 4).largeLeafRoundsRun (Example.record 1 10).depth
        [Example.record 1 10] = [(1, 0)] ∧
    ((Example.builder 1 32 8 4).largeLeafRounds (Example.record 1 10).depth
        [Example.record 1 10]).1.length ≤ max 2 (Example.builder 1 32 8 4).branchingFactor ∧
    max 2 (Example.builder 1 32 8 4).branchingFactor ≤ 16 :=
  ⟨by decide,
   (BVHBuilderSAH2.children_fit_arrays (Example.builder 1 32 8 4) (by decide)
      (Example.record 1 10)).2.2.2.1.2,
   (BVHBuilderSAH2.children_fit_arrays (Example.builder 1 32 8 4) (by decide)
      (Example.record 1 10)).1⟩

/-! ### The bucket arrays of the filters -/

namespace RayStream

theorem update_length_lt (octants : Nat → List Nat) (o : Nat) (v : List Nat) (n : Nat)
    (h : ∀ o', (octants o').length < n) (hv : v.length < n) :
    ∀ o', (Function.update octants o v o').length < n := by
  intro o'
  by_cases ho : o' = o
  · subst ho
    simpa using hv
  · simpa [Function.update_noteq ho] using h o'

/-- The inner loop of `filterAOS` entered with every counter below 64 writes only
below slot 64, and leaves every counter below 64 but that of the bucket it
reports as full. -/
theorem sortIntoOctantsWrites_bound {R : Type} [LinearOrderedRing R] (intersect : Bool)
    (rest : List (Ray R)) (inputRayID : Nat) (octants : Nat → List Nat)
    (h : ∀ o, (octants o).length < MAX_RAYS_PER_OCTANT) :
    (∀ w ∈ sortIntoOctantsWrites intersect rest inputRayID octants,
      w.1 < 8 ∧ w.2 < MAX_RAYS_PER_OCTANT) ∧
    (∀ o, (sortIntoOctants intersect rest inputRayID octants).2.2.2 = some o →
      ∀ o', (Function.update (sortIntoOctants intersect rest inputRayID octants).1 o []
        o').length < MAX_RAYS_PER_OCTANT) ∧
    ((sortIntoOctants intersect rest inputRayID octants).2.2.2 = none →
      ∀ o', ((sortIntoOctants intersect rest inputRayID octants).1 o').length <
        MAX_RAYS_PER_OCTANT) := by
  induction rest generalizing inputRayID octants with
  | nil =>
    simp only [sortIntoOctantsWrites, sortIntoOctants]
    exact ⟨by simp, by simp, fun _ => h⟩
  | cons ray rest ih =>
    by_cases h1 : Flt.gt ray.tnear ray.tfar = true
    · simp only [sortIntoOctantsWrites, sortIntoOctants, h1, if_true]
      exact ih _ _ h
    · by_cases h2 : (!intersect && ray.geomID == 0) = true
      · simp only [sortIntoOctantsWrites, sortIntoOctants, h1, h2, if_true]
        exact ih _ _ h
      · by_cases hfull : (Function.update octants (octantID ray)
            (octants (octantID ray) ++ [inputRayID]) (octantID ray)).length =
              MAX_RAYS_PER_OCTANT
        · simp only [sortIntoOctantsWrites, sortIntoOctants, h1, h2, hfull, if_true]
          refine ⟨?_, ?_, ?_⟩
          · intro w hw
            simp only [Bool.false_eq_true, if_false, List.mem_singleton] at hw
            subst hw
            exact ⟨octantID_lt ray, h _⟩
          · intro o ho o'
            simp only [Bool.false_eq_true, if_false, Option.some.injEq] at ho ⊢
            subst ho
            by_cases ho' : o' = octantID ray
            · subst ho'
              simp [MAX_RAYS_PER_OCTANT]
            · simp only [Function.update_noteq ho']
              exact h o'
          · intro hn
            simp at hn
        · have h3 : ∀ o, (Function.update octants (octantID ray)
              (octants (octantID ray) ++ [inputRayID]) o).length < MAX_RAYS_PER_OCTANT := by
            intro o
            by_cases ho : o = octantID ray
            · subst ho
              have := h (octantID ray)
              simp only [Function.update_same, List.length_append, List.length_singleton]
                at hfull ⊢
              omega
            · simp only [Function.update_noteq ho]
              exact h o
          have := ih (inputRayID + 1) _ h3
          simp only [sortIntoOctantsWrites, sortIntoOctants, h1, h2, hfull, if_false,
            Bool.false_eq_true]
          refine ⟨?_, this.2.1, this.2.2⟩
          intro w hw
          simp only [List.mem_cons] at hw
          rcases hw with hw | hw
          · subst hw
            exact ⟨octantID_lt ray, h _⟩
          · exact this.1 w hw

theorem filterAOSWrites_bound {R : Type} [LinearOrderedRing R] (intersect : Bool)
    (fuel : Nat) (rest : List (Ray R)) (inputRayID : Nat) (octants : Nat → List Nat)
    (h : ∀ o, (octants o).length < MAX_RAYS_PER_OCTANT) :
    ∀ w ∈ filterAOSWrites intersect fuel rest inputRayID octants,
      w.1 < 8 ∧ w.2 < MAX_RAYS_PER_OCTANT := by
  induction fuel generalizing rest inputRayID octants with
  | zero => simp [filterAOSWrites]
  | succ fuel ih =>
    have hb := sortIntoOctantsWrites_bound intersect rest inputRayID octants h
    unfold filterAOSWrites
    simp only []
    cases hc : (sortIntoOctants intersect rest inputRayID octants).2.2.2 with
    | some o =>
      simp only []
      intro w hw
      rcases List.mem_append.1 hw with hw | hw
      · exact hb.1 w hw
      · exact ih _ _ _ (hb.2.1 o hc) w hw
    | none =>
      simp only []
      cases hf : firstNonEmpty (sortIntoOctants intersect rest inputRayID octants).1 with
      | none => exact hb.1
      | some o =>
        simp only []
        intro w hw
        rcases List.mem_append.1 hw with hw | hw
        · exact hb.1 w hw
        · exact ih _ _ _
            (update_length_lt _ o [] _ (hb.2.2 hc) (by simp [MAX_RAYS_PER_OCTANT])) w hw

/-- The scan of the sorting path entered with every counter below 64 writes only
below slot 64 and ends with every counter below 64. -/
theorem sortStreamWrites_bound (layout : RayLayout) (intersect : Bool) (flags : Nat)
    (offsets : List Nat) (octants : Nat → List Nat)
    (h : ∀ o, (octants o).length < MAX_RAYS_PER_OCTANT) :
    (∀ w ∈ sortStreamWrites layout offsets octants,
      w.2 < MAX_RAYS_PER_OCTANT ∧ ∃ offset ∈ offsets, w.1 = layout.getOctant offset) ∧
    ∀ o, ((sortStream layout intersect flags offsets octants).1 o).length <
      MAX_RAYS_PER_OCTANT := by
  induction offsets generalizing octants with
  | nil => exact ⟨by simp [sortStreamWrites], by simpa [sortStream] using h⟩
  | cons offset rest ih =>
    by_cases hv : layout.isValid offset = true
    · by_cases hfull : (Function.update octants (layout.getOctant offset)
          (octants (layout.getOctant offset) ++ [offset]) (layout.getOctant offset)).length =
            MAX_RAYS_PER_OCTANT
      · have h2 : ∀ o, (Function.update (Function.update octants (layout.getOctant offset)
            (octants (layout.getOctant offset) ++ [offset])) (layout.getOctant offset) []
              o).length < MAX_RAYS_PER_OCTANT := by
          intro o
          by_cases ho : o = layout.getOctant offset
          · subst ho
            simp [MAX_RAYS_PER_OCTANT]
          · simp only [Function.update_noteq ho]
            exact h o
        have := ih _ h2
        simp only [sortStreamWrites, sortStream, hv, Bool.not_true, Bool.false_eq_true,
          if_false, hfull, if_true]
        refine ⟨?_, this.2⟩
        intro w hw
        simp only [List.mem_cons] at hw
        rcases hw with hw | hw
        · subst hw
          exact ⟨h _, offset, List.mem_cons_self _ _, rfl⟩
        · obtain ⟨h3, o, ho, h4⟩ := this.1 w hw
          exact ⟨h3, o, List.mem_cons_of_mem _ ho, h4⟩
      · have h3 : ∀ o, (Function.update octants (layout.getOctant offset)
            (octants (layout.getOctant offset) ++ [offset]) o).length <
              MAX_RAYS_PER_OCTANT := by
          intro o
          by_cases ho : o = layout.getOctant offset
          · subst ho
            have := h (layout.getOctant offset)
            simp only [Function.update_same, List.length_append, List.length_singleton]
              at hfull ⊢
            omega
          · simp only [Function.update_noteq ho]
            exact h o
        have := ih _ h3
        simp only [sortStreamWrites, sortStream, hv, Bool.not_true, Bool.false_eq_true,
          if_false, hfull]
        refine ⟨?_, this.2⟩
        intro w hw
        simp only [List.mem_cons] at hw
        rcases hw with hw | hw
        · subst hw
          exact ⟨h _, offset, List.mem_cons_self _ _, rfl⟩
        · obtain ⟨h3, o, ho, h4⟩ := this.1 w hw
          exact ⟨h3, o, List.mem_cons_of_mem _ ho, h4⟩
    · have := ih octants h
      simp only [sortStreamWrites, sortStream, hv, Bool.not_false, if_true]
      refine ⟨?_, this.2⟩
      intro w hw
      obtain ⟨h3, o, ho, h4⟩ := this.1 w hw
      exact ⟨h3, o, List.mem_cons_of_mem _ ho, h4⟩

/-- Every scene call of the sorting path of `filterSOA` / `filterSOP` carries
between 1 and 64 rays. -/
theorem filterSorted_call_sizes (layout : RayLayout) (N streams stream_offset flags : Nat)
    (intersect : Bool) (c : SceneCall)
    (hc : StreamEvent.call c ∈ filterSorted layout N streams stream_offset flags intersect) :
    1 ≤ c.count ∧ c.count ≤ MAX_RAYS_PER_OCTANT := by
  have hs := sortStream_calls layout intersect flags (streamOffsets N streams stream_offset)
    (fun _ => []) (by simp)
  have hb := (sortStreamWrites_bound layout intersect flags
    (streamOffsets N streams stream_offset) (fun _ => [])
    (by simp [MAX_RAYS_PER_OCTANT])).2
  unfold filterSorted at hc
  rcases List.mem_append.1 hc with hc | hc
  · obtain ⟨o, l, -, h2, h3⟩ := hs.2 c hc
    rw [h3]
    cases intersect <;> simp [SceneCall.count, h2, MAX_RAYS_PER_OCTANT]
  · simp only [flushRemaining, List.mem_flatMap, List.mem_range] at hc
    obtain ⟨o, -, hc⟩ := hc
    by_cases hne : ((sortStream layout intersect flags (streamOffsets N streams stream_offset)
        (fun _ => [])).1 o).length != 0
    · simp only [hne, if_true] at hc
      rw [call_mem_flushBucket _ _ _ _ hc]
      have h1 := hb o
      have h2 : ((sortStream layout intersect flags (streamOffsets N streams stream_offset)
        (fun _ => [])).1 o).length ≠ 0 := by simpa using hne
      cases intersect <;> simp only [SceneCall.count, Bool.false_eq_true, if_false, if_true] <;>
        omega
    · simp [hne] at hc

end RayStream

/-- C29: in the octant-sorting path of the three filters every bucket counter is
below 64 whenever a ray is about to be appended, so every bucket write
`octants[o][rays_in_octant[o]++]` is at a slot below 64 (in `filterAOS` also at a
bucket below 8; in `filterSOA` / `filterSOP` the bucket is the octant that the
layout reports), and every dispatch carries between 1 and 64 rays. -/
theorem RayStream.bucket_writes_in_range {R : Type} [LinearOrderedRing R]
    (RTC_RAYN_COHERENT VSIZEX : Nat) (rayN : List (Ray R)) (layout : RayLayout)
    (N streams stream_offset flags : Nat) (intersect : Bool) :
    MAX_RAYS_PER_OCTANT = 64 ∧
    (∀ w ∈ filterAOSWrites intersect (rayN.length + 1) rayN 0 (fun _ => []),
      w.1 < 8 ∧ w.2 < 64) ∧
    (∀ c ∈ (filterAOS rayN flags intersect).1, 1 ≤ c.count ∧ c.count ≤ 64) ∧
    (∀ w ∈ sortStreamWrites layout (streamOffsets N streams stream_offset) (fun _ => []),
      w.2 < 64 ∧ ∃ offset ∈ streamOffsets N streams stream_offset,
        w.1 = layout.getOctant offset) ∧
    (flags ≠ RTC_RAYN_COHERENT →
      (∀ c, StreamEvent.call c ∈
          filterSOA RTC_RAYN_COHERENT VSIZEX layout N streams stream_offset flags intersect →
        1 ≤ c.count ∧ c.count ≤ 64) ∧
      (∀ c, StreamEvent.call c ∈
          filterSOP RTC_RAYN_COHERENT VSIZEX layout N streams stream_offset flags intersect →
        1 ≤ c.count ∧ c.count ≤ 64)) := by
  have h0 : ∀ o : Nat, ((fun _ : Nat => ([] : List Nat)) o).length < MAX_RAYS_PER_OCTANT := by
    simp [MAX_RAYS_PER_OCTANT]
  refine ⟨rfl, ?_, ?_, ?_, ?_⟩
  · exact filterAOSWrites_bound intersect _ rayN 0 _ h0
  · intro c hc
    rw [filterAOS_eq] at hc
    simp only [List.mem_map] at hc
    obtain ⟨p, hp, rfl⟩ := hc
    obtain ⟨l, h1, h2, h3, -⟩ := filterAOS_calls rayN flags intersect p hp
    rw [h1, dispatchAOS_count]
    have : 0 < l.length := List.length_pos.2 h2
    simp only [MAX_RAYS_PER_OCTANT] at h3
    omega
  · exact (sortStreamWrites_bound layout intersect flags _ _ h0).1
  · intro hflags
    unfold filterSOA filterSOP
    rw [if_neg hflags]
    exact ⟨fun c hc => filterSorted_call_sizes layout N streams stream_offset flags intersect c hc,
      fun c hc => filterSorted_call_sizes layout N streams stream_offset flags intersect c hc⟩

/-- C29 on the four-ray batch `(+,+,+)`, `(-,+,+)`, `(+,+,+)`, invalid: the writes go
to slot 0 of bucket 0, slot 0 of bucket 1 and slot 1 of bucket 0. -/
theorem RayStream.bucket_writes_in_range_witness :
    RayStream.filterAOSWrites true 5
        [Example.rayPPP, Example.rayNPP, Example.rayPPP, Example.rayInvalid] 0 (fun _ => []) =
      [(0, 0), (1, 0), (0, 1)] ∧
    ∀ c, RayStream.StreamEvent.call c ∈
        RayStream.filterSOA 1 8 Example.layout 4 2 16 0 true →
      1 ≤ c.count ∧ c.count ≤ 64 :=
  ⟨by decide,
   ((RayStream.bucket_writes_in_range 1 8
      [Example.rayPPP, Example.rayNPP, Example.rayPPP, Example.rayInvalid] Example.layout
      4 2 16 0 true).2.2.2.2 (by decide)).1⟩

/-! ### BinInfo::getNumLeft -/

theorem BinInfo.foldl_counts {α : Type} (b : BinInfo α) (dim : Int) (n N : Nat) :
    (List.range n).foldl (fun N i => N + b.counts i dim) N =
      N + ((List.range n).map (fun i => b.counts i dim)).sum := by
  induction n with
  | zero => simp
  | succ n ih =>
    rw [List.range_succ, List.foldl_append, ih]
    simp [List.sum_append, Nat.add_assoc]

theorem BinInfo.numLeftBound_eq {R : Type} (split : Split R) (h0 : 0 ≤ split.pos)
    (h32 : split.pos ≤ 32) : BinInfo.numLeftBound split = split.pos.toNat := by
  unfold BinInfo.numLeftBound
  rw [Int.emod_eq_of_lt h0 (by omega)]

/-- C30: for every split with `0 <= dim <= 2` and `0 <= pos <= 32`,
`getNumLeft(split)` is the sum of `counts[i][dim]` over the bins `i < pos`, reading
just these entries, all inside the arrays; it is 0 for `pos = 0` and does not
decrease when `pos` grows; and for the default-constructed invalid split
(`dim = -1`, `pos = 0`, `sah = +inf`) it returns 0 and reads no bin. -/
theorem BinInfo.getNumLeft_spec {α R : Type} (b : BinInfo α) (split : Split R)
    (hd0 : 0 ≤ split.dim) (hd2 : split.dim ≤ 2) (h0 : 0 ≤ split.pos)
    (h32 : split.pos ≤ 32) :
    b.getNumLeft split =
      ((List.range split.pos.toNat).map (fun i => b.counts i split.dim)).sum ∧
    BinInfo.getNumLeftReads split =
      (List.range split.pos.toNat).map (fun i => (i, split.dim)) ∧
    (∀ r ∈ BinInfo.getNumLeftReads split, r.1 < maxBins ∧ 0 ≤ r.2 ∧ r.2 < 4) ∧
    (split.pos = 0 → b.getNumLeft split = 0) ∧
    (∀ split2 : Split R, split2.dim = split.dim → split.pos ≤ split2.pos →
      split2.pos ≤ 32 → b.getNumLeft split ≤ b.getNumLeft split2) ∧
    b.getNumLeft (Split.invalid : Split R) = 0 ∧
    BinInfo.getNumLeftReads (Split.invalid : Split R) = [] := by
  have hsum : ∀ s : Split R, 0 ≤ s.pos → s.pos ≤ 32 →
      b.getNumLeft s = ((List.range s.pos.toNat).map (fun i => b.counts i s.dim)).sum := by
    intro s hs0 hs32
    unfold BinInfo.getNumLeft
    rw [BinInfo.numLeftBound_eq s hs0 hs32, BinInfo.foldl_counts, Nat.zero_add]
  refine ⟨hsum split h0 h32, ?_, ?_, ?_, ?_, ?_, ?_⟩
  · unfold BinInfo.getNumLeftReads
    rw [BinInfo.numLeftBound_eq split h0 h32]
  · intro r hr
    unfold BinInfo.getNumLeftReads at hr
    rw [BinInfo.numLeftBound_eq split h0 h32] at hr
    simp only [List.mem_map, List.mem_range] at hr
    obtain ⟨i, hi, rfl⟩ := hr
    simp only [maxBins]
    omega
  · intro hp
    rw [hsum split h0 h32, hp]
    rfl
  · intro split2 hdim hle h232
    rw [hsum split h0 h32, hsum split2 (le_trans h0 hle) h232, hdim]
    have hn : split.pos.toNat ≤ split2.pos.toNat := by omega
    obtain ⟨k, hk⟩ := Nat.exists_eq_add_of_le hn
    rw [hk, List.range_add, List.map_append, List.sum_append]
    exact Nat.le_add_right _ _
  · rfl
  · rfl

/-- C30 on a histogram with five primitives in each of the first three bins: two
bins to the left of position 2 hold ten primitives. -/
theorem BinInfo.getNumLeft_spec_witness :
    (Example.histogram 3 5 1 2).getNumLeft
        ({ sah := .fin 1, dim := 0, pos := 2 } : Split Int) = 10 ∧
    (Example.histogram 3 5 1 2).getNumLeft
        ({ sah := .fin 1, dim := 0, pos := 2 } : Split Int) =
      ((List.range 2).map (fun i => (Example.histogram 3 5 1 2).counts i 0)).sum :=
  ⟨by decide,
   (BinInfo.getNumLeft_spec (Example.histogram 3 5 1 2)
      ({ sah := .fin 1, dim := 0, pos := 2 } : Split Int)
      (by decide) (by decide) (by decide) (by decide)).1⟩

/-! ### BinInfo::merge -/

namespace BinInfo

variable {α : Type}

theorem ext_fields (a b : BinInfo α) (h1 : a.bounds = b.bounds) (h2 : a.counts = b.counts) :
    a = b := by
  cases a; cases b
  simp only [BinInfo.mk.injEq]
  exact ⟨h1, h2⟩

theorem merge_comm [LinearOrder α] (a b : BinInfo α) : merge a b = merge b a := by
  apply ext_fields
  · funext i d
    simp only [merge, BBox.extend, BBox.mk.injEq]
    exact ⟨funext fun k => min_comm _ _, funext fun k => max_comm _ _⟩
  · funext i d
    simp only [merge]
    omega

theorem merge_assoc [LinearOrder α] (a b c : BinInfo α) :
    merge (merge a b) c = merge a (merge b c) := by
  apply ext_fields
  · funext i d
    simp only [merge, BBox.extend, BBox.mk.injEq]
    exact ⟨funext fun k => min_assoc _ _ _, funext fun k => max_assoc _ _ _⟩
  · funext i d
    simp only [merge]
    omega

theorem empty_merge [LinearOrder α] [OrderTop α] [OrderBot α] (a : BinInfo α) :
    merge empty a = a := by
  apply ext_fields
  · funext i d
    simp [merge, empty, BBox.extend, BBox.empty]
  · funext i d
    simp [merge, empty]

theorem foldl_merge [LinearOrder α] [OrderTop α] [OrderBot α] (a : BinInfo α)
    (l : List (BinInfo α)) :
    l.foldl merge a = merge a (l.foldl merge empty) := by
  induction l generalizing a with
  | nil =>
    simp only [List.foldl_nil]
    rw [merge_comm, empty_merge]
  | cons b l ih =>
    simp only [List.foldl_cons]
    rw [ih (merge a b), ih (merge empty b), empty_merge, merge_assoc]

theorem reduce_eq_foldl [LinearOrder α] [OrderTop α] [OrderBot α] (l : List (BinInfo α)) :
    reduce l = l.foldl merge empty := by
  cases l with
  | nil => rfl
  | cons b bs =>
    simp only [reduce, List.foldl_cons, empty_merge]

theorem reduce_perm [LinearOrder α] [OrderTop α] [OrderBot α] (l₁ l₂ : List (BinInfo α))
    (h : l₁.Perm l₂) : reduce l₁ = reduce l₂ := by
  rw [reduce_eq_foldl, reduce_eq_foldl]
  refine h.foldl_eq' ?_ empty
  intro x _ y _ z
  rw [merge_assoc, merge_assoc, merge_comm x y]

theorem eval_eq_reduce [LinearOrder α] [OrderTop α] [OrderBot α] (t : MergeTree α) :
    t.eval = reduce t.leaves := by
  rw [reduce_eq_foldl]
  induction t with
  | leaf b => simp [MergeTree.eval, MergeTree.leaves, empty_merge]
  | node l r ihl ihr =>
    simp only [MergeTree.eval, MergeTree.leaves, List.foldl_append]
    rw [ihl, ihr, ← foldl_merge]

end BinInfo

/-- C21: `BinInfo::merge` is commutative and associative, so for every list of
per-worker histograms, merging them in any order and any grouping, the tree
reduction of `reduce` among them, gives the same histogram: the same count and
the same bounding box for every bin and every dimension. -/
theorem BinInfo.merge_any_order {α : Type} [LinearOrder α] [OrderTop α] [OrderBot α] :
    (∀ a b : BinInfo α, BinInfo.merge a b = BinInfo.merge b a) ∧
    (∀ a b c : BinInfo α,
      BinInfo.merge (BinInfo.merge a b) c = BinInfo.merge a (BinInfo.merge b c)) ∧
    (∀ l₁ l₂ : List (BinInfo α), l₁.Perm l₂ →
      BinInfo.reduce l₁ = BinInfo.reduce l₂ ∧
      ∀ i d k, (BinInfo.reduce l₁).counts i d = (BinInfo.reduce l₂).counts i d ∧
        (BinInfo.reduce l₁).bounds i k = (BinInfo.reduce l₂).bounds i k) ∧
    (∀ (t : MergeTree α) (l : List (BinInfo α)), l.Perm t.leaves →
      t.eval = BinInfo.reduce l ∧
      ∀ i d k, t.eval.counts i d = (BinInfo.reduce l).counts i d ∧
        t.eval.bounds i k = (BinInfo.reduce l).bounds i k) := by
  refine ⟨BinInfo.merge_comm, BinInfo.merge_assoc, ?_, ?_⟩
  · intro l₁ l₂ h
    have := BinInfo.reduce_perm l₁ l₂ h
    exact ⟨this, fun i d k => by rw [this]; exact ⟨rfl, rfl⟩⟩
  · intro t l h
    have : t.eval = BinInfo.reduce l := by
      rw [BinInfo.eval_eq_reduce, BinInfo.reduce_perm l t.leaves h]
    exact ⟨this, fun i d k => by rw [this]; exact ⟨rfl, rfl⟩⟩

/-- C21 on three histograms over `Fin 8`: merged as a left-leaning tree in the order
2, 0, 1 they give what `reduce` gives in the order 0, 1, 2. -/
theorem BinInfo.merge_any_order_witness :
    (MergeTree.node
        (MergeTree.node (MergeTree.leaf (Example.histogram 1 4 3 5))
          (MergeTree.leaf (Example.histogram 3 5 1 2)))
        (MergeTree.leaf (Example.histogram 2 1 0 6))).eval =
      BinInfo.reduce [Example.histogram 3 5 1 2, Example.histogram 2 1 0 6,
        Example.histogram 1 4 3 5] ∧
    (BinInfo.reduce [Example.histogram 3 5 1 2, Example.histogram 2 1 0 6,
        Example.histogram 1 4 3 5]).counts 0 0 = 10 :=
  ⟨((@BinInfo.merge_any_order (Fin 8) _ _ _).2.2.2
      (MergeTree.node
        (MergeTree.node (MergeTree.leaf (Example.histogram 1 4 3 5))
          (MergeTree.leaf (Example.histogram 3 5 1 2)))
        (MergeTree.leaf (Example.histogram 2 1 0 6)))
      [Example.histogram 3 5 1 2, Example.histogram 2 1 0 6, Example.histogram 1 4 3 5]
      (by
        simp only [MergeTree.leaves, List.singleton_append, List.cons_append,
          List.nil_append]
        exact List.Perm.trans (List.Perm.cons _ (List.Perm.swap _ _ _))
          (List.Perm.swap _ _ _))).1,
   by decide⟩

/-! ### Mapping::bin -/

theorem Mapping.bin_range {R : Type} [LinearOrderedField R] [FloorRing R] (m : Mapping R)
    (p : Fin 3 → R) (d : Fin 3) (h : 0 < m.num) :
    0 ≤ m.bin p d ∧ m.bin p d < m.num := by
  unfold Mapping.bin
  refine ⟨le_max_left _ _, ?_⟩
  have h1 : (0 : Int) < m.num := by exact_mod_cast h
  have h2 : min ⌊p d * m.scale d + m.ofs d⌋ ((m.num : Int) - 1) ≤ (m.num : Int) - 1 :=
    min_le_right _ _
  rw [max_lt_iff]
  exact ⟨h1, by omega⟩

/-- C22: for every `Mapping` built from a `PrimInfo` with a number of bins between
1 and `maxBins = 32`, and every point `p`, the safe binning `Mapping::bin(p)` returns
on each axis an index in `[0, numBins)`, with `numBins <= 32`; so also for every
centroid inside the centroid bounds. -/
theorem Mapping.bin_in_range {R : Type} [LinearOrderedField R] [FloorRing R]
    (numBins : Nat) (centLower centUpper : Fin 3 → R) (p : Fin 3 → R) (d : Fin 3)
    (h0 : 0 < numBins) (h32 : numBins ≤ maxBins) :
    (Mapping.ofPrimInfo numBins centLower centUpper).num = numBins ∧
    0 ≤ (Mapping.ofPrimInfo numBins centLower centUpper).bin p d ∧
    (Mapping.ofPrimInfo numBins centLower centUpper).bin p d < numBins ∧
    numBins ≤ 32 ∧
    ((∀ k, centLower k ≤ p k ∧ p k ≤ centUpper k) →
      0 ≤ (Mapping.ofPrimInfo numBins centLower centUpper).bin p d ∧
      (Mapping.ofPrimInfo numBins centLower centUpper).bin p d < numBins) := by
  have h := Mapping.bin_range (Mapping.ofPrimInfo numBins centLower centUpper) p d h0
  exact ⟨rfl, h.1, h.2, h32, fun _ => h⟩

/-- C22 on the example of the specification: four bins over the centroid bounds
`[0, 8]`; the bin of the centroid at 6 is in range. -/
theorem Mapping.bin_in_range_witness :
    0 ≤ (Mapping.ofPrimInfo 4 (fun _ => (0 : ℚ)) (fun _ => 8)).bin (fun _ => 6) 0 ∧
    (Mapping.ofPrimInfo 4 (fun _ => (0 : ℚ)) (fun _ => 8)).bin (fun _ => 6) 0 < (4 : Nat) :=
  ⟨(Mapping.bin_in_range 4 (fun _ => (0 : ℚ)) (fun _ => 8) (fun _ => 6) 0
      (by decide) (by decide)).2.1,
   (Mapping.bin_in_range 4 (fun _ => (0 : ℚ)) (fun _ => 8) (fun _ => 6) 0
      (by decide) (by decide)).2.2.1⟩

/-- The example of the specification: with four bins over the centroid bounds
`[0, 8]` the scale is `4/8 = 0.5`, and the centroid at 6 maps to bin 3. -/
theorem Mapping.bin_example :
    (Mapping.ofPrimInfo 4 (fun _ => (0 : ℚ)) (fun _ => 8)).scale 0 = 1 / 2 ∧
    (Mapping.ofPrimInfo 4 (fun _ => (0 : ℚ)) (fun _ => 8)).bin (fun _ => 6) 0 = 3 := by
  constructor
  · simp only [Mapping.ofPrimInfo]
    norm_num
  · simp only [Mapping.bin, Mapping.ofPrimInfo]
    have : ⌊(6 : ℚ) * ((4 : ℕ) / (8 - 0)) + -0 * ((4 : ℕ) / (8 - 0))⌋ = 3 := by
      rw [Int.floor_eq_iff]
      norm_num
    rw [this]
    decide

/-- The affine map on bounds away from the origin: with four bins over the
centroid bounds `[4, 12]` the centroids 4, 6, 8, 10 map to the bins 0, 1, 2, 3,
and the upper bound 12 is clamped into the last bin. -/
theorem Mapping.bin_example_offset :
    (Mapping.ofPrimInfo 4 (fun _ => (4 : ℚ)) (fun _ => 12)).bin (fun _ => 4) 0 = 0 ∧
    (Mapping.ofPrimInfo 4 (fun _ => (4 : ℚ)) (fun _ => 12)).bin (fun _ => 6) 0 = 1 ∧
    (Mapping.ofPrimInfo 4 (fun _ => (4 : ℚ)) (fun _ => 12)).bin (fun _ => 8) 0 = 2 ∧
    (Mapping.ofPrimInfo 4 (fun _ => (4 : ℚ)) (fun _ => 12)).bin (fun _ => 10) 0 = 3 ∧
    (Mapping.ofPrimInfo 4 (fun _ => (4 : ℚ)) (fun _ => 12)).bin (fun _ => 12) 0 = 3 := by
  have h : ∀ (p : ℚ) (k : Int), k ≤ 4 → (k : ℚ) ≤ (p - 4) / 2 → (p - 4) / 2 < k + 1 →
      (Mapping.ofPrimInfo 4 (fun _ => (4 : ℚ)) (fun _ => 12)).bin (fun _ => p) 0 =
        max 0 (min k 3) := by
    intro p k _ h1 h2
    simp only [Mapping.bin, Mapping.ofPrimInfo]
    have : ⌊p * (((4 : ℕ) : ℚ) / (12 - 4)) + -4 * (((4 : ℕ) : ℚ) / (12 - 4))⌋ = k := by
      rw [Int.floor_eq_iff]
      constructor
      · have : p * (((4 : ℕ) : ℚ) / (12 - 4)) + -4 * (((4 : ℕ) : ℚ) / (12 - 4)) =
            (p - 4) / 2 := by
          norm_num
          ring
        rw [this]
        exact h1
      · have : p * (((4 : ℕ) : ℚ) / (12 - 4)) + -4 * (((4 : ℕ) : ℚ) / (12 - 4)) =
            (p - 4) / 2 := by
          norm_num
          ring
        rw [this]
        exact h2
    rw [this]
    rfl
  refine ⟨?_, ?_, ?_, ?_, ?_⟩
  · rw [h 4 0 (by decide) (by norm_num) (by norm_num)]; decide
  · rw [h 6 1 (by decide) (by norm_num) (by norm_num)]; decide
  · rw [h 8 2 (by decide) (by norm_num) (by norm_num)]; decide
  · rw [h 10 3 (by decide) (by norm_num) (by norm_num)]; decide
  · rw [h 12 4 (by decide) (by norm_num) (by norm_num)]; decide

/-! ### Mapping::bin at the lower centroid bound -/

/-- C23: for every mapping computed from centroid bounds that are not
degenerate on an axis, whatever the position of the lower bound and whatever
the number of bins, a centroid lying exactly at the lower centroid bound on
that axis maps to bin 0 on that axis, with and without clamping. -/
theorem Mapping.bin_lower_bound {R : Type} [LinearOrderedField R] [FloorRing R]
    (numBins : Nat) (centLower centUpper : Fin 3 → R) (p : Fin 3 → R) (d : Fin 3)
    (_hnd : centLower d < centUpper d) (hp : p d = centLower d) :
    (Mapping.ofPrimInfo numBins centLower centUpper).bin p d = 0 ∧
    Mapping.bin_unsafe (Mapping.ofPrimInfo numBins centLower centUpper) p d = 0 := by
  have hz : p d * ((numBins : R) / (centUpper d - centLower d)) +
      -(centLower d) * ((numBins : R) / (centUpper d - centLower d)) = 0 := by
    rw [hp]
    ring
  constructor
  · simp only [Mapping.bin, Mapping.ofPrimInfo, hz, Int.floor_zero]
    exact max_eq_left (min_le_left _ _)
  · simp only [Mapping.ofPrimInfo, Mapping.bin_unsafe, hz, Int.floor_zero]

/-- C23 on bounds away from the origin: four bins over the centroid bounds
`[4, 12]`; the centroid at the lower bound 4 maps to bin 0. -/
theorem Mapping.bin_lower_bound_witness :
    ((fun _ => 4 : Fin 3 → ℚ) 0 < (fun _ => 12 : Fin 3 → ℚ) 0) ∧
    (Mapping.ofPrimInfo 4 (fun _ => (4 : ℚ)) (fun _ => 12)).bin (fun _ => 4) 0 = 0 :=
  ⟨by decide,
   (Mapping.bin_lower_bound 4 (fun _ => (4 : ℚ)) (fun _ => 12) (fun _ => 4) 0 (by decide)
      rfl).1⟩

end embree
